import Mathlib

/-!
# OpenXcom `SavedGame`: research and production ledgers, persistence, promotions

Shallow embedding of `src/Savegame/SavedGame.cpp`:

* the ledgers: `isResearchAvailable`, `getAvailableResearchProjects`,
  `getAvailableProductions`, `getDependableResearchBasic`,
  `getDependableResearch`, `addFinishedResearch`;
* the persistence codec: `save`, `load`, `getList` (with `TextList::addRow`);
* the personnel progression: `handlePromotions`, `inspectSoldiers`.

The C++ code identifies rules by the address of the rule object, so the
embedding keeps addresses (`RulePtr`, `ManufPtr`) and an object store
(`Ruleset.deref`).  A `std::vector` is a `List`, a `std::map` is the list of
its `(key, value)` entries in iteration order, an out-parameter vector is an
argument that is returned extended.  The two recursive procedures take a
recursion budget and return `none` when it is exhausted.  A file is the stream
of its parsed YAML documents; a method that throws returns what it threw
together with the object as the throw leaves it; a null pointer dereference
is `none`.  The arithmetic of the promotion score is the arithmetic of `int`:
every sum and product is brought into the 32-bit two's complement range
(`toInt32`).
-/

namespace OpenXcom

/-- Address of a `RuleResearchProject` object (`RuleResearchProject *`). -/
abbrev RulePtr := Nat

/-- Address of a `RuleManufactureInfo` object (`RuleManufactureInfo *`). -/
abbrev ManufPtr := Nat

/-- The null pointer. -/
def NULL : Nat := 0

/-- Modelled from the spec: the class `RuleResearchProject`, declared in
`Ruleset/RuleResearchProject.h`.  A rule has an identifier (`getName`), a cost
(`getCost`, 0 for a "fake" project), the list of rules it depends on
(`getDependencys`), the list of rules it unlocks (`getUnlocked`), and the flag
that an item of the same name is needed (`needItem`). -/
structure RuleResearchProject where
  name : String
  cost : Int
  dependencys : List RulePtr
  unlocked : List RulePtr
  needItem : Bool

/-- A node of a parsed YAML document (`YAML::Node` of the yaml-cpp library):
null, a scalar holding a number or a text, a sequence, or a map in document
order. -/
inductive YamlNode where
  | null
  | int (n : Int)
  | str (s : String)
  | seq (items : List YamlNode)
  | map (entries : List (String × YamlNode))

/-- Modelled from the spec: the class `GameTime`, declared in
`Savegame/GameTime.h`, with the seven values its constructor takes. -/
structure GameTime where
  weekday : Int
  day : Int
  month : Int
  year : Int
  hour : Int
  minute : Int
  second : Int

/-- Modelled from the spec: an entity bound to a rule of the catalog (classes
`Country`, `Region`, `Ufo`): the address of its rule and its own state. -/
structure RuledEntity where
  rules : Nat
  state : YamlNode

/-- Modelled from the spec: the class `Country`, declared in
`Savegame/Country.h`. -/
abbrev Country := RuledEntity

/-- Modelled from the spec: the class `Region`, declared in
`Savegame/Region.h`. -/
abbrev Region := RuledEntity

/-- Modelled from the spec: the class `Ufo`, declared in `Savegame/Ufo.h`. -/
abbrev Ufo := RuledEntity

/-- Modelled from the spec: an entity or blob without a rule (classes
`Waypoint`, `SavedBattleGame`, `UfopaediaSaved`), reduced to its state. -/
structure PlainEntity where
  state : YamlNode

/-- Modelled from the spec: the class `Waypoint`, declared in
`Savegame/Waypoint.h`. -/
abbrev Waypoint := PlainEntity

/-- Modelled from the spec: the class `SavedBattleGame`, declared in
`Savegame/SavedBattleGame.h`, the tactical-combat blob. -/
abbrev SavedBattleGame := PlainEntity

/-- Modelled from the spec: the class `UfopaediaSaved`, declared in
`Savegame/UfopaediaSaved.h`, the knowledge-base blob. -/
abbrev UfopaediaSaved := PlainEntity

/-- Modelled from the spec: the structure `UnitStats` returned by
`Soldier::getCurrentStats`, declared in a header that `Savegame/Soldier.h`
includes, with the fields read by `inspectSoldiers` and the two psionic
ones. -/
structure UnitStats where
  tu : Int
  stamina : Int
  health : Int
  bravery : Int
  reactions : Int
  firing : Int
  throwing : Int
  strength : Int
  psiStrength : Int
  psiSkill : Int
  melee : Int

/-- Modelled from the spec: the class `Soldier`, declared in
`Savegame/Soldier.h`, reduced to `getId()`, `getRank()`, `getCurrentStats()`,
`getMissions()` and `getKills()`.  The rank is the value of the enumeration
`SoldierRank`. -/
structure Soldier where
  id : Int
  rank : Int
  currentStats : UnitStats
  missions : Int
  kills : Int

/-- Modelled from the spec: the enumeration `SoldierRank`, declared in
`Savegame/Soldier.h`: rookie, squaddie, sergeant, captain, colonel,
commander, in rising order. -/
def RANK_ROOKIE : Int := 0

/-- Modelled from the spec: the rank of a squaddie in `SoldierRank`. -/
def RANK_SQUADDIE : Int := 1

/-- Modelled from the spec: the rank of a sergeant in `SoldierRank`. -/
def RANK_SERGEANT : Int := 2

/-- Modelled from the spec: the rank of a captain in `SoldierRank`. -/
def RANK_CAPTAIN : Int := 3

/-- Modelled from the spec: the rank of a colonel in `SoldierRank`. -/
def RANK_COLONEL : Int := 4

/-- Modelled from the spec: the rank of a commander in `SoldierRank`. -/
def RANK_COMMANDER : Int := 5

/-- Modelled from the spec: the method `Soldier::promoteRank`, defined in
`Savegame/Soldier.cpp`: the rank is raised by one step. -/
def Soldier.promoteRank (s : Soldier) : Soldier :=
  { s with rank := s.rank + 1 }

/-- Modelled from the spec: the class `ResearchProject`, declared in
`Savegame/ResearchProject.h`: a research in progress at a base, reduced to
`getRuleResearchProject()`, which `findRuleResearchProject` reads. -/
structure ResearchProject where
  ruleResearchProject : RulePtr

/-- Modelled from the spec: the class `Production`, declared in
`Savegame/Production.h`: a manufacture in progress at a base, reduced to
`getRuleManufactureInfo()`, which `equalProduction` reads. -/
structure Production where
  ruleManufactureInfo : ManufPtr

/-- Modelled from the spec: the class `ItemContainer`, declared in
`Savegame/ItemContainer.h`: the item inventory of a base, seen through
`getItem(name)`, the stored quantity. -/
structure ItemContainer where
  getItem : String → Int

/-- Modelled from the spec: the class `Base`, declared in `Savegame/Base.h`,
reduced to what `SavedGame` reads: `getResearch()`, `getProductions()`,
`getItems()` and `getSoldiers()`. -/
structure Base where
  research : List ResearchProject
  productions : List Production
  items : ItemContainer
  soldiers : List Soldier := []

/-- Modelled from the spec: the class `Ruleset`, declared in
`Ruleset/Ruleset.h`, reduced to what `SavedGame` reads.  `researchProjects`
and `manufactureProjects` are the maps returned by `getResearchProjects()` and
`getManufactureProjects()`, in iteration order; `deref` is the store of the
rule objects, giving the object at an address; `getCountry`, `getRegion` and
`getUfo` are the "rule-or-null" lookups of the three other kinds of rule. -/
structure Ruleset where
  researchProjects : List (String × RulePtr)
  manufactureProjects : List (String × ManufPtr)
  deref : RulePtr → RuleResearchProject
  getCountry : String → Nat := fun _ => 0
  getRegion : String → Nat := fun _ => 0
  getUfo : String → Nat := fun _ => 0

/-- Modelled from the spec: the lookup `Ruleset::getResearchProject(id)`,
defined in `Ruleset/Ruleset.cpp`, "rule-or-null": the rule stored under the
key, the null pointer when there is none. -/
def Ruleset.getResearchProject (ruleset : Ruleset) (id : String) : RulePtr :=
  match ruleset.researchProjects.lookup id with
  | some r => r
  | none => NULL

/-- The state of a `SavedGame` object.  The fields after `_discovered` and
`_bases` default to what the constructor `SavedGame::SavedGame` stores;
`craftId` is the `std::map` in iteration order, `battleGame` is `none` for a
null pointer. -/
structure SavedGame where
  discovered : List RulePtr
  bases : List Base
  difficulty : Int := 0
  funds : Int := 0
  time : GameTime :=
    { weekday := 6, day := 1, month := 1, year := 1999, hour := 12, minute := 0, second := 0 }
  countries : List Country := []
  regions : List Region := []
  ufos : List Ufo := []
  craftId : List (String × Int) := []
  waypoints : List Waypoint := []
  ufoId : Int := 1
  waypointId : Int := 1
  soldierId : Int := 1
  battleGame : Option SavedBattleGame := none
  ufopaedia : UfopaediaSaved := { state := YamlNode.null }

/-- The functor `findRuleResearchProject(toFind)` applied to `r`. -/
def findRuleResearchProject (toFind : RulePtr) (r : ResearchProject) : Bool :=
  toFind == r.ruleResearchProject

/-- The functor `equalProduction(item)` applied to `p`. -/
def equalProduction (item : ManufPtr) (p : Production) : Bool :=
  p.ruleManufactureInfo == item

namespace SavedGame

/-- The accessor `SavedGame::getDiscoveredResearchs`. -/
def getDiscoveredResearchs (sg : SavedGame) : List RulePtr :=
  sg.discovered

/-- The method `SavedGame::isResearchAvailable`: true when `r` is among
`unlockeds`; otherwise the `while` loop over the dependencies, which returns
false at the first one that is not discovered. -/
def isResearchAvailable (sg : SavedGame) (ruleset : Ruleset) (r : RulePtr)
    (unlockeds : List RulePtr) : Bool :=
  let discovereds := sg.getDiscoveredResearchs
  if unlockeds.contains r then true
  else
    let rec loop : List RulePtr → Bool
      | [] => true
      | d :: rest => if !discovereds.contains d then false else loop rest
    loop (ruleset.deref r).dependencys

/-- The first loop of `getAvailableResearchProjects`: every entry of the
`getUnlocked()` list of every discovered rule is pushed on `unlockeds`. -/
def collectUnlockeds (sg : SavedGame) (ruleset : Ruleset) : List RulePtr :=
  sg.getDiscoveredResearchs.foldl
    (fun unlockeds it =>
      (ruleset.deref it).unlocked.foldl (fun u itUnlocked => u ++ [itUnlocked]) unlockeds)
    []

/-- One iteration of the second loop of `getAvailableResearchProjects` on the
catalog entry whose value is `p`: four tests that `continue`, then the push. -/
def availableStep (sg : SavedGame) (ruleset : Ruleset) (base : Base)
    (unlockeds : List RulePtr) (projects : List RulePtr) (p : RulePtr) : List RulePtr :=
  if !sg.isResearchAvailable ruleset p unlockeds then projects
  else if sg.getDiscoveredResearchs.contains p then projects
  else if base.research.any (findRuleResearchProject p) then projects
  else if (ruleset.deref p).needItem && base.items.getItem (ruleset.deref p).name == 0 then
    projects
  else projects ++ [p]

/-- The method `SavedGame::getAvailableResearchProjects`; the result is the
out-parameter `projects` after the call. -/
def getAvailableResearchProjects (sg : SavedGame) (projects : List RulePtr)
    (ruleset : Ruleset) (base : Base) : List RulePtr :=
  let unlockeds := sg.collectUnlockeds ruleset
  ruleset.researchProjects.foldl
    (fun projects iter => sg.availableStep ruleset base unlockeds projects iter.2)
    projects

/-- The method `SavedGame::getAvailableProductions`; the result is the
out-parameter `productions` after the call. -/
def getAvailableProductions (sg : SavedGame) (productions : List ManufPtr)
    (ruleset : Ruleset) (base : Base) : List ManufPtr :=
  let discovereds := sg.getDiscoveredResearchs
  ruleset.manufactureProjects.foldl
    (fun productions iter =>
      if !discovereds.contains (ruleset.getResearchProject iter.1) then productions
      else if base.productions.any (equalProduction iter.2) then productions
      else productions ++ [iter.2])
    productions

/-- The method `SavedGame::getDependableResearchBasic`; the result is the
out-parameter `dependables` after the call, `none` when the nesting of the
recursive calls exceeds the budget. -/
def getDependableResearchBasic (sg : SavedGame) :
    Nat → List RulePtr → RulePtr → Ruleset → Base → Option (List RulePtr)
  | 0, _, _, _, _ => none
  | fuel + 1, dependables, research, ruleset, base =>
    let possibleProjects := sg.getAvailableResearchProjects [] ruleset base
    possibleProjects.foldlM
      (fun dependables iter =>
        if (ruleset.deref iter).dependencys.contains research
            || (ruleset.deref iter).unlocked.contains research then
          if (ruleset.deref iter).cost == 0 then
            getDependableResearchBasic sg fuel (dependables ++ [iter]) iter ruleset base
          else some (dependables ++ [iter])
        else some dependables)
      dependables

/-- The method `SavedGame::getDependableResearch`; the result is the
out-parameter `dependables` after the call. -/
def getDependableResearch (sg : SavedGame) (fuel : Nat) (dependables : List RulePtr)
    (research : RulePtr) (ruleset : Ruleset) (base : Base) : Option (List RulePtr) :=
  (sg.getDependableResearchBasic fuel dependables research ruleset base).bind
    fun dependables =>
      sg.discovered.foldlM
        (fun dependables iter =>
          if (ruleset.deref iter).cost == 0 then
            if (ruleset.deref iter).dependencys.contains research then
              sg.getDependableResearchBasic fuel dependables iter ruleset base
            else some dependables
          else some dependables)
        dependables

/-- The method `SavedGame::addFinishedResearch`; `ruleset` is `none` for a
null `Ruleset *`.  The result is the saved game after the call, `none` when
the nesting of the recursive calls exceeds the budget. -/
def addFinishedResearch :
    Nat → SavedGame → RulePtr → Option Ruleset → Option SavedGame
  | 0, _, _, _ => none
  | fuel + 1, sg, r, ruleset =>
    let sg1 : SavedGame := { sg with discovered := sg.discovered ++ [r] }
    match ruleset with
    | none => some sg1
    | some rs =>
      (sg1.bases.foldlM
          (fun availableResearch it =>
            sg1.getDependableResearchBasic fuel availableResearch r rs it)
          []).bind
        fun availableResearch =>
          availableResearch.foldlM
            (fun sg2 it =>
              if (rs.deref it).cost == 0 then addFinishedResearch fuel sg2 it (some rs)
              else some sg2)
            sg1

end SavedGame

/-! ## A test catalog: `A` (cost 5), `B` (cost 0, needs `A`), `C` (cost 3, needs `B`) -/

/-- Rule objects of the scenario: `A` at address 1, `B` at 2, `C` at 3. -/
def scenarioDeref (p : RulePtr) : RuleResearchProject :=
  if p = 1 then { name := "A", cost := 5, dependencys := [], unlocked := [], needItem := false }
  else if p = 2 then
    { name := "B", cost := 0, dependencys := [1], unlocked := [], needItem := false }
  else { name := "C", cost := 3, dependencys := [2], unlocked := [], needItem := false }

/-- Ruleset of the scenario. -/
def scenarioRuleset : Ruleset :=
  { researchProjects := [("A", 1), ("B", 2), ("C", 3)]
    manufactureProjects := []
    deref := scenarioDeref }


/-! ## Specification predicates -/

/-- Reachability of `p` (condition 1 of the eligibility predicate): `p` is in
the unlocked list of some discovered rule, or every dependency of `p` is
discovered. -/
def Reachable (sg : SavedGame) (ruleset : Ruleset) (p : RulePtr) : Prop :=
  (∃ r ∈ sg.discovered, p ∈ (ruleset.deref r).unlocked)
    ∨ ∀ d ∈ (ruleset.deref p).dependencys, d ∈ sg.discovered

/-- No research in progress at `base` has rule `p` (condition 3). -/
def NotInProgress (base : Base) (p : RulePtr) : Prop :=
  ∀ rp ∈ base.research, rp.ruleResearchProject ≠ p

/-- The item requirement of `p` is met at `base` (condition 4): `p` needs no
item, or the quantity stored under the name of `p` is not zero. -/
def ItemMet (ruleset : Ruleset) (base : Base) (p : RulePtr) : Prop :=
  (ruleset.deref p).needItem = false ∨ base.items.getItem (ruleset.deref p).name ≠ 0

/-- The eligibility predicate of the research ledger: the four conditions. -/
def Eligible (sg : SavedGame) (ruleset : Ruleset) (base : Base) (p : RulePtr) : Prop :=
  Reachable sg ruleset p ∧ p ∉ sg.discovered ∧ NotInProgress base p ∧ ItemMet ruleset base p

instance (sg : SavedGame) (ruleset : Ruleset) (p : RulePtr) :
    Decidable (Reachable sg ruleset p) := by
  unfold Reachable; infer_instance

instance (base : Base) (p : RulePtr) : Decidable (NotInProgress base p) := by
  unfold NotInProgress; infer_instance

instance (ruleset : Ruleset) (base : Base) (p : RulePtr) :
    Decidable (ItemMet ruleset base p) := by
  unfold ItemMet; infer_instance

instance (sg : SavedGame) (ruleset : Ruleset) (base : Base) (p : RulePtr) :
    Decidable (Eligible sg ruleset base p) := by
  unfold Eligible; infer_instance

/-- A sequence of `addFinishedResearch` calls, each with its own rule and its
own (possibly null) ruleset, run one after the other. -/
def SavedGame.addFinishedResearchSeq (fuel : Nat) :
    SavedGame → List (RulePtr × Option Ruleset) → Option SavedGame
  | sg, [] => some sg
  | sg, call :: calls =>
    (SavedGame.addFinishedResearch fuel sg call.1 call.2).bind
      fun sg1 => SavedGame.addFinishedResearchSeq fuel sg1 calls

/-- A base with nothing in progress and an empty inventory. -/
def emptyBase : Base :=
  { research := [], productions := [], items := { getItem := fun _ => 0 } }

/-! ## A test catalog with an unlock edge: `R` unlocks `P`, `P` needs `Q` -/

/-- Rule objects: `R` at address 1, `P` at 2, `Q` at 3. -/
def bypassDeref (p : RulePtr) : RuleResearchProject :=
  if p = 1 then { name := "R", cost := 5, dependencys := [], unlocked := [2], needItem := false }
  else if p = 2 then
    { name := "P", cost := 3, dependencys := [3], unlocked := [], needItem := false }
  else { name := "Q", cost := 4, dependencys := [], unlocked := [], needItem := false }

/-- Ruleset of the unlock-edge catalog. -/
def bypassRuleset : Ruleset :=
  { researchProjects := [("P", 2), ("Q", 3), ("R", 1)]
    manufactureProjects := []
    deref := bypassDeref }

/-- Saved game in which only `R` is discovered. -/
def bypassGame : SavedGame :=
  { discovered := [1], bases := [emptyBase] }

/-! ## A test catalog with an item requirement -/

/-- Rule object: `STR_ITEM` at address 1, which needs its item. -/
def itemDeref (_ : RulePtr) : RuleResearchProject :=
  { name := "STR_ITEM", cost := 5, dependencys := [], unlocked := [], needItem := true }

/-- Ruleset of the item catalog. -/
def itemRuleset : Ruleset :=
  { researchProjects := [("STR_ITEM", 1)]
    manufactureProjects := []
    deref := itemDeref }

/-- Inventory that holds nothing. -/
def noItems : ItemContainer :=
  { getItem := fun _ => 0 }

/-- Inventory that holds two units of every item. -/
def twoOfEach : ItemContainer :=
  { getItem := fun _ => 2 }

/-- The dependency/unlock graph of the catalog has no cycle: some ranking of
the rules increases strictly from every dependency to the rule that depends on
it and from every rule to the rules it unlocks. -/
def Acyclic (ruleset : Ruleset) : Prop :=
  ∃ rank : RulePtr → Nat, ∀ p ∈ ruleset.researchProjects.map Prod.snd,
    (∀ d ∈ (ruleset.deref p).dependencys, rank d < rank p)
      ∧ ∀ u ∈ (ruleset.deref p).unlocked, rank p < rank u

/-! ## A test catalog without cycles: `D` and `X` unlock `Y`, `Y` needs `D` and `X` -/

/-- Rule objects: `D` at address 1, the zero-cost `X` at 2, the zero-cost `Y`
at 3. -/
def treeDeref (p : RulePtr) : RuleResearchProject :=
  if p = 1 then { name := "D", cost := 5, dependencys := [], unlocked := [3], needItem := false }
  else if p = 2 then
    { name := "X", cost := 0, dependencys := [], unlocked := [3], needItem := false }
  else { name := "Y", cost := 0, dependencys := [1, 2], unlocked := [], needItem := false }

/-- Ruleset of the catalog without cycles. -/
def treeRuleset : Ruleset :=
  { researchProjects := [("D", 1), ("X", 2), ("Y", 3)]
    manufactureProjects := []
    deref := treeDeref }

/-- Saved game with one base and nothing discovered. -/
def freshGame : SavedGame :=
  { discovered := [], bases := [emptyBase] }

/-! ## A test catalog with two zero-cost rules behind `A`, one needing its item -/

/-- The concatenation of the results of `getDependableResearchBasic(z, base)`,
each computed on its own from an empty list, for the rules `z` of `zs` in
order; `none` when one of the calls exceeds the budget. -/
def SavedGame.concatDependableBasic (sg : SavedGame) (fuel : Nat) (ruleset : Ruleset)
    (base : Base) : List RulePtr → Option (List RulePtr)
  | [] => some []
  | z :: zs =>
    (sg.getDependableResearchBasic fuel [] z ruleset base).bind fun first =>
      (SavedGame.concatDependableBasic sg fuel ruleset base zs).bind fun others =>
        some (first ++ others)

/-- What `getDependableResearch(research, base)` is specified to return: the
result of `getDependableResearchBasic(research, base)` followed by those of
`getDependableResearchBasic(z, base)` for every discovered `z`, in order, that
has cost 0 and `research` among its dependencies. -/
def SavedGame.dependableResearchSpec (sg : SavedGame) (fuel : Nat) (research : RulePtr)
    (ruleset : Ruleset) (base : Base) : Option (List RulePtr) :=
  sg.concatDependableBasic fuel ruleset base
    (research :: sg.discovered.filter fun z =>
      decide ((ruleset.deref z).cost = 0) && decide (research ∈ (ruleset.deref z).dependencys))

/-- The lookup `Node::FindValue(key)` of yaml-cpp: `none` when it throws (the
node is null or a scalar), otherwise the value stored under the key, if any
(a sequence has no value under a text key). -/
def YamlNode.findValue : YamlNode → String → Option (Option YamlNode)
  | .map entries, key => some (entries.lookup key)
  | .seq _, _ => some none
  | _, _ => none

/-- The lookup `node[key]` of yaml-cpp on a constant node: `none` when it
throws, which it does when `FindValue` throws or finds nothing. -/
def YamlNode.getValue (node : YamlNode) (key : String) : Option YamlNode :=
  match node.findValue key with
  | some (some value) => some value
  | _ => none

/-- The nodes visited by a loop from `node.begin()` to `node.end()` that
dereferences its iterator: the items of a sequence, nothing for a null, a
scalar or an empty map; `none` when the dereference throws (a map with
entries). -/
def YamlNode.items : YamlNode → Option (List YamlNode)
  | .seq items => some items
  | .map [] => some []
  | .map (_ :: _) => none
  | _ => some []

/-- The conversion `node >> i` to an `int`: `none` when it throws. -/
def YamlNode.asInt : YamlNode → Option Int
  | .int n => some n
  | _ => none

/-- The conversion `node >> s` to a `std::string`: `none` when it throws. -/
def YamlNode.asString : YamlNode → Option String
  | .str s => some s
  | .int n => some (toString n)
  | _ => none

/-- The assignment `m[k] = v` on a `std::map<std::string, int>` kept in
iteration order, that is in rising order of the keys. -/
def mapAssign (k : String) (v : Int) : List (String × Int) → List (String × Int)
  | [] => [(k, v)]
  | (k', v') :: rest =>
    if k < k' then (k, v) :: (k', v') :: rest
    else if k = k' then (k, v) :: rest
    else (k', v') :: mapAssign k v rest

/-- The conversion `node >> m` to a `std::map<std::string, int>`: the map is
cleared and each entry is assigned; `none` when a conversion throws. -/
def YamlNode.asIntMap : YamlNode → Option (List (String × Int))
  | .map entries =>
    entries.foldlM
      (fun m entry => entry.2.asInt.map fun v => mapAssign entry.1 v m) []
  | _ => none

/-- What `Parser::GetNextDocument` meets in the stream: a well-formed
document, or text that is not valid YAML. -/
inductive ParsedDoc where
  | node (doc : YamlNode)
  | syntaxError

/-- A file as seen through `std::ifstream` and the parser: `none` when the
stream cannot be opened, otherwise the documents of the stream. -/
abbrev SaveFile := Option (List ParsedDoc)

/-- The call `parser.GetNextDocument(doc)`: the next document and the rest of
the stream; an empty document when the stream is exhausted; `none` when the
parser throws. -/
def getNextDocument : List ParsedDoc → Option (YamlNode × List ParsedDoc)
  | [] => some (YamlNode.null, [])
  | ParsedDoc.node doc :: rest => some (doc, rest)
  | ParsedDoc.syntaxError :: _ => none

/-- Modelled from the spec: the `save` and `load` methods of the classes owned
by a `SavedGame` (`GameTime`, `Country`, `Region`, `Ufo`, `Waypoint`, `Base`,
`SavedBattleGame`, `UfopaediaSaved`), none of which is part of the sources;
each entity is "independently serializable" and each method is taken as a
parameter.  A `load` that constructs a new object gives `none` when it throws;
a `load` that fills an existing object gives the object as it is left, as an
error when it throws.  `newBattleGame` is the object `new SavedBattleGame()`. -/
structure Codecs where
  saveTime : GameTime → YamlNode
  loadTime : GameTime → YamlNode → Except GameTime GameTime
  saveCountry : Country → YamlNode
  loadCountry : Nat → YamlNode → Option Country
  saveRegion : Region → YamlNode
  loadRegion : Nat → YamlNode → Option Region
  saveUfo : Ufo → YamlNode
  loadUfo : Nat → YamlNode → Option Ufo
  saveWaypoint : Waypoint → YamlNode
  loadWaypoint : YamlNode → Option Waypoint
  saveBase : Base → YamlNode
  loadBase : Ruleset → SavedGame → YamlNode → Option Base
  newBattleGame : SavedBattleGame
  saveBattleGame : SavedBattleGame → YamlNode
  loadBattleGame : Ruleset → SavedGame → SavedBattleGame → YamlNode
    → Except SavedBattleGame SavedBattleGame
  saveUfopaedia : UfopaediaSaved → YamlNode
  loadUfopaedia : Ruleset → UfopaediaSaved → YamlNode → Except UfopaediaSaved UfopaediaSaved

/-- What was thrown: an `Exception` with its message, or a
`YAML::Exception`. -/
inductive Thrown where
  | exception (what : String)
  | yamlException

/-- The outcome of a method that changes the saved game in place: the saved
game when it returns, or what it threw together with the saved game as the
throw leaves it. -/
abbrev Outcome := Except (Thrown × SavedGame) SavedGame

/-- A value obtained from yaml-cpp, or a `YAML::Exception` thrown with the
saved game as it is. -/
def orThrow {α : Type} (sg : SavedGame) : Option α → Except (Thrown × SavedGame) α
  | some a => Except.ok a
  | none => Except.error (Thrown.yamlException, sg)

namespace SavedGame

/-- The constructor `SavedGame::SavedGame(difficulty)`: a blank saved game. -/
def blank (difficulty : Int) : SavedGame :=
  { discovered := [], bases := [], difficulty := difficulty }

/-- The full segment written by `SavedGame::save`, as the entries of its map
in the order in which they are emitted.  `deref` gives the rule object at an
address, for `getName()`. -/
def saveFull (sg : SavedGame) (codecs : Codecs) (deref : RulePtr → RuleResearchProject) :
    List (String × YamlNode) :=
  let out : List (String × YamlNode) := []
  let out := out ++ [("difficulty", YamlNode.int sg.difficulty)]
  let out := out ++ [("funds", YamlNode.int sg.funds)]
  let out := out ++ [("countries", YamlNode.seq (sg.countries.map codecs.saveCountry))]
  let out := out ++ [("regions", YamlNode.seq (sg.regions.map codecs.saveRegion))]
  let out := out ++ [("bases", YamlNode.seq (sg.bases.map codecs.saveBase))]
  let out := out ++ [("ufos", YamlNode.seq (sg.ufos.map codecs.saveUfo))]
  let out := out ++
    [("craftId", YamlNode.map (sg.craftId.map fun entry => (entry.1, YamlNode.int entry.2)))]
  let out := out ++ [("waypoints", YamlNode.seq (sg.waypoints.map codecs.saveWaypoint))]
  let out := out ++
    [("discovered", YamlNode.seq (sg.discovered.map fun i => YamlNode.str (deref i).name))]
  let out := out ++ [("ufoId", YamlNode.int sg.ufoId)]
  let out := out ++ [("waypointId", YamlNode.int sg.waypointId)]
  let out := out ++ [("soldierId", YamlNode.int sg.soldierId)]
  let out :=
    match sg.battleGame with
    | some battleGame => out ++ [("battleGame", codecs.saveBattleGame battleGame)]
    | none => out
  out ++ [("ufopaedia", codecs.saveUfopaedia sg.ufopaedia)]

/-- The summary segment written by `SavedGame::save`: `version` and `time`. -/
def saveBrief (sg : SavedGame) (codecs : Codecs) (version : String) :
    List (String × YamlNode) :=
  [("version", YamlNode.str version), ("time", codecs.saveTime sg.time)]

/-- The method `SavedGame::save`: the documents written to the file, or the
message of the exception when the file cannot be opened for writing.
`version` is `Options::getVersion()`. -/
def save (sg : SavedGame) (codecs : Codecs) (version : String)
    (deref : RulePtr → RuleResearchProject) (canOpen : Bool) : Except String (List ParsedDoc) :=
  if !canOpen then Except.error "Failed to save savegame"
  else
    Except.ok
      [ParsedDoc.node (YamlNode.map (sg.saveBrief codecs version)),
        ParsedDoc.node (YamlNode.map (sg.saveFull codecs deref))]

/-- A loop of `load` over the items of `doc[key]`, running `body` on the saved
game and each item in turn. -/
def loadEach (doc : YamlNode) (key : String) (body : SavedGame → YamlNode → Outcome)
    (sg : SavedGame) : Outcome := do
  let node ← orThrow sg (doc.getValue key)
  let items ← orThrow sg node.items
  items.foldlM body sg

/-- The conversion `doc[key] >> a` to an `int`. -/
def readInt (doc : YamlNode) (key : String) (sg : SavedGame) :
    Except (Thrown × SavedGame) Int := do
  let node ← orThrow sg (doc.getValue key)
  orThrow sg node.asInt

/-- The body of the loop of `load` over `doc["countries"]`. -/
def loadCountry (codecs : Codecs) (rule : Ruleset) (sg : SavedGame) (i : YamlNode) :
    Outcome := do
  let type ← orThrow sg ((i.getValue "type").bind YamlNode.asString)
  let c ← orThrow sg (codecs.loadCountry (rule.getCountry type) i)
  pure { sg with countries := sg.countries ++ [c] }

/-- The body of the loop of `load` over `doc["regions"]`. -/
def loadRegion (codecs : Codecs) (rule : Ruleset) (sg : SavedGame) (i : YamlNode) :
    Outcome := do
  let type ← orThrow sg ((i.getValue "type").bind YamlNode.asString)
  let r ← orThrow sg (codecs.loadRegion (rule.getRegion type) i)
  pure { sg with regions := sg.regions ++ [r] }

/-- The body of the loop of `load` over `doc["ufos"]`. -/
def loadUfo (codecs : Codecs) (rule : Ruleset) (sg : SavedGame) (i : YamlNode) :
    Outcome := do
  let type ← orThrow sg ((i.getValue "type").bind YamlNode.asString)
  let u ← orThrow sg (codecs.loadUfo (rule.getUfo type) i)
  pure { sg with ufos := sg.ufos ++ [u] }

/-- The body of the loop of `load` over `doc["waypoints"]`. -/
def loadWaypoint (codecs : Codecs) (sg : SavedGame) (i : YamlNode) : Outcome := do
  let w ← orThrow sg (codecs.loadWaypoint i)
  pure { sg with waypoints := sg.waypoints ++ [w] }

/-- The body of the loop of `load` over `doc["bases"]`. -/
def loadBase (codecs : Codecs) (rule : Ruleset) (sg : SavedGame) (i : YamlNode) :
    Outcome := do
  let b ← orThrow sg (codecs.loadBase rule sg i)
  pure { sg with bases := sg.bases ++ [b] }

/-- The body of the loop of `load` over `doc["discovered"]`: the result of the
lookup is pushed as it is. -/
def loadDiscovered (rule : Ruleset) (sg : SavedGame) (it : YamlNode) : Outcome := do
  let research ← orThrow sg it.asString
  pure { sg with discovered := sg.discovered ++ [rule.getResearchProject research] }

/-- The part of `load` that reads the optional key `battleGame`. -/
def loadBattleGame (codecs : Codecs) (rule : Ruleset) (doc : YamlNode) (sg : SavedGame) :
    Outcome := do
  match ← orThrow sg (doc.findValue "battleGame") with
  | some pName =>
    let sg1 : SavedGame := { sg with battleGame := some codecs.newBattleGame }
    match codecs.loadBattleGame rule sg1 codecs.newBattleGame pName with
    | Except.ok battleGame => pure { sg1 with battleGame := some battleGame }
    | Except.error battleGame =>
      throw (Thrown.yamlException, { sg1 with battleGame := some battleGame })
  | none => pure sg

/-- The part of `load` that reads the optional key `ufopaedia`. -/
def loadUfopaedia (codecs : Codecs) (rule : Ruleset) (doc : YamlNode) (sg : SavedGame) :
    Outcome := do
  match ← orThrow sg (doc.findValue "ufopaedia") with
  | some pName =>
    match codecs.loadUfopaedia rule sg.ufopaedia pName with
    | Except.ok ufopaedia => pure { sg with ufopaedia := ufopaedia }
    | Except.error ufopaedia => throw (Thrown.yamlException, { sg with ufopaedia := ufopaedia })
  | none => pure sg

/-- The part of `SavedGame::load` after "Get full save data", on the second
document of the stream. -/
def loadFull (codecs : Codecs) (rule : Ruleset) (doc : YamlNode) (sg : SavedGame) :
    Outcome := do
  let a ← readInt doc "difficulty" sg
  let sg : SavedGame := { sg with difficulty := a }
  let funds ← readInt doc "funds" sg
  let sg : SavedGame := { sg with funds := funds }
  let sg ← loadEach doc "countries" (loadCountry codecs rule) sg
  let sg ← loadEach doc "regions" (loadRegion codecs rule) sg
  let sg ← loadEach doc "ufos" (loadUfo codecs rule) sg
  let craftId ← orThrow sg ((doc.getValue "craftId").bind YamlNode.asIntMap)
  let sg : SavedGame := { sg with craftId := craftId }
  let sg ← loadEach doc "waypoints" (loadWaypoint codecs) sg
  let ufoId ← readInt doc "ufoId" sg
  let sg : SavedGame := { sg with ufoId := ufoId }
  let waypointId ← readInt doc "waypointId" sg
  let sg : SavedGame := { sg with waypointId := waypointId }
  let soldierId ← readInt doc "soldierId" sg
  let sg : SavedGame := { sg with soldierId := soldierId }
  let sg ← loadEach doc "bases" (loadBase codecs rule) sg
  let sg ← loadEach doc "discovered" (loadDiscovered rule) sg
  let sg ← loadBattleGame codecs rule doc sg
  loadUfopaedia codecs rule doc sg

/-- The statement `_time->load(doc["time"])` of `load`. -/
def loadTime (codecs : Codecs) (doc : YamlNode) (sg : SavedGame) : Outcome := do
  let timeNode ← orThrow sg (doc.getValue "time")
  match codecs.loadTime sg.time timeNode with
  | Except.ok time => pure { sg with time := time }
  | Except.error time => throw (Thrown.yamlException, { sg with time := time })

/-- The part of `SavedGame::load` after the version check: the time of the
summary, then the second document of the stream. -/
def loadBody (codecs : Codecs) (rule : Ruleset) (doc : YamlNode) (stream : List ParsedDoc)
    (sg : SavedGame) : Outcome := do
  let sg ← loadTime codecs doc sg
  let next ← orThrow sg (getNextDocument stream)
  loadFull codecs rule next.1 sg

/-- The method `SavedGame::load` on the saved game `sg`; `file` is the file
`filename + ".sav"` of the user folder, `version` is `Options::getVersion()`. -/
def load (sg : SavedGame) (codecs : Codecs) (version : String) (file : SaveFile)
    (rule : Ruleset) : Outcome :=
  match file with
  | none => throw (Thrown.exception "Failed to load savegame", sg)
  | some stream => do
    let first ← orThrow sg (getNextDocument stream)
    let v ← orThrow sg ((first.1.getValue "version").bind YamlNode.asString)
    if v ≠ version then throw (Thrown.exception "Version mismatch", sg)
    else loadBody codecs rule first.1 first.2 sg

end SavedGame

/-! ## The save listing -/

/-- Modelled from the spec: the class `Language`, declared in
`Engine/Language.h`, seen through `getString(id)`. -/
structure Language where
  getString : String → String

/-- Modelled from the spec: the methods `GameTime::getDayString` and
`GameTime::getMonthString`, defined in `Savegame/GameTime.cpp`, taken as
parameters. -/
structure TimeNames where
  getDayString : GameTime → String
  getMonthString : GameTime → String

/-- The state of a `TextList` read and written by `addRow`: the rows of texts,
the flag set by `setDot`, and the text of a cell of column `i` once padded
with dots to the width of the column, which depends on the fonts. -/
structure TextList where
  texts : List (List String)
  dot : Bool
  padded : Nat → String → String

/-- The method `TextList::addRow(num, ...)` on `num` texts: each text, padded
with dots when `_dot` is set and the column is not the last one, becomes a
cell, and the row of cells is pushed. -/
def TextList.addRow (list : TextList) (args : List String) : TextList :=
  let num := args.length
  let temp := args.enum.map fun (i, buf) =>
    if list.dot && decide (i < num - 1) then list.padded i buf else buf
  { list with texts := list.texts ++ [temp] }

/-- The text `file.substr(0, file.length() - 4)`; the unsigned length wraps
when the name has fewer than 4 characters, and the whole name is taken. -/
def stripExtension (file : String) : String :=
  if file.length < 4 then file else file.take (file.length - 4)

/-- The text written by `std::setfill('0') << std::setw(2) << n`. -/
def twoDigits (n : Int) : String :=
  if (toString n).length < 2 then "0" ++ toString n else toString n

/-- The five texts that `getList` passes to `addRow` for the file `file` whose
summary holds the time `time`. -/
def listRow (lang : Language) (names : TimeNames) (file : String) (time : GameTime) :
    List String :=
  [stripExtension file,
    toString time.hour ++ ":" ++ twoDigits time.minute,
    toString time.day ++ lang.getString (names.getDayString time),
    lang.getString (names.getMonthString time),
    toString time.year]

/-- The body of the `try` block of `SavedGame::getList` up to the call of
`addRow`, on one file: the time read from the first document, or what is
thrown. -/
def readListTime (codecs : Codecs) (fin : SaveFile) : Except Thrown GameTime :=
  match fin with
  | none => Except.error (Thrown.exception "Failed to load savegame")
  | some stream =>
    match getNextDocument stream with
    | none => Except.error Thrown.yamlException
    | some (doc, _) =>
      let time : GameTime :=
        { weekday := 6, day := 1, month := 1, year := 1999, hour := 12, minute := 0,
          second := 0 }
      match doc.getValue "time" with
      | none => Except.error Thrown.yamlException
      | some node =>
        match codecs.loadTime time node with
        | Except.ok time => Except.ok time
        | Except.error _ => Except.error Thrown.yamlException

/-- The method `SavedGame::getList`.  `saves` is the content of the user
folder, each file with its name, in the order of `getFolderContents`.  The
result is the text list after the call and what was written to `std::cerr`,
one entry for each exception caught. -/
def SavedGame.getList (codecs : Codecs) (names : TimeNames) (saves : List (String × SaveFile))
    (list : TextList) (lang : Language) : TextList × List Thrown :=
  saves.foldl
    (fun state i =>
      match readListTime codecs i.2 with
      | Except.ok time => ((state.1).addRow (listRow lang names i.1 time), state.2)
      | Except.error e => (state.1, state.2 ++ [e]))
    (list, [])

/-! ## Personnel progression -/

/-- The address of a `Soldier` object, given as the position of its base in
`_bases` and its position among the soldiers of the base; `none` is the null
pointer. -/
abbrev SoldierPtr := Option (Nat × Nat)

/-- The value of type `int` that stands for the integer `x`: the member of
the range from `-2147483648` to `2147483647` that differs from `x` by a
multiple of `4294967296` (32 bits, two's complement). -/
def toInt32 (x : Int) : Int :=
  (x + 2147483648) % 4294967296 - 2147483648

/-- The sum of two `int` operands, in `int`. -/
def addInt32 (a b : Int) : Int :=
  toInt32 (a + b)

/-- The product of two `int` operands, in `int`. -/
def mulInt32 (a b : Int) : Int :=
  toInt32 (a * b)

/-- The promotion score computed by `inspectSoldiers` for a soldier: the
variables `v1`, `v2`, `v3` and `score`, every operation in `int`. -/
def promotionScore (j : Soldier) : Int :=
  let s := j.currentStats
  let v1 :=
    addInt32
      (addInt32 (addInt32 (mulInt32 2 s.health) (mulInt32 2 s.stamina)) (mulInt32 4 s.reactions))
      (mulInt32 4 s.bravery)
  let v2 := addInt32 v1 (mulInt32 3 (addInt32 s.tu (mulInt32 2 s.firing)))
  let v3 := addInt32 (addInt32 (addInt32 v2 s.melee) s.throwing) s.strength
  addInt32 v3 (mulInt32 10 (addInt32 j.missions j.kills))

/-- The weighted sum of the promotion score, as an integer: `2*health +
2*stamina + 4*reactions + 4*bravery + 3*tu + 6*firing + melee + throwing +
strength + 10*missions + 10*kills`. -/
def scoreFormula (j : Soldier) : Int :=
  2 * j.currentStats.health + 2 * j.currentStats.stamina + 4 * j.currentStats.reactions
    + 4 * j.currentStats.bravery + 3 * j.currentStats.tu + 6 * j.currentStats.firing
    + j.currentStats.melee + j.currentStats.throwing + j.currentStats.strength
    + 10 * j.missions + 10 * j.kills

/-- The soldiers of all the bases with their addresses, in the order of the
two nested loops of `inspectSoldiers`. -/
def SavedGame.roster (sg : SavedGame) : List ((Nat × Nat) × Soldier) :=
  sg.bases.enum.flatMap fun (i, b) => b.soldiers.enum.map fun (j, s) => ((i, j), s)

/-- The method `SavedGame::inspectSoldiers`: the values of `*highestRanked`
and `*total` after the call, from the value of `*highestRanked` before it. -/
def SavedGame.inspectSoldiers (sg : SavedGame) (highestRanked : SoldierPtr) (rank : Int) :
    SoldierPtr × Nat :=
  let final := sg.roster.foldl
    (fun (state : Int × SoldierPtr × Nat) j =>
      if j.2.rank = rank then
        let total := state.2.2 + 1
        let score := promotionScore j.2
        if score > state.1 then (score, some j.1, total)
        else (state.1, state.2.1, total)
      else state)
    (0, highestRanked, 0)
  (final.2.1, final.2.2)

/-- The soldiers of a base after `promoteRank` is called on the one at
position `j`. -/
def promoteNth : List Soldier → Nat → List Soldier
  | [], _ => []
  | s :: rest, 0 => s.promoteRank :: rest
  | s :: rest, j + 1 => s :: promoteNth rest j

/-- The bases after `promoteRank` is called on the soldier at position `j` of
the base at position `i`. -/
def promoteAt : List Base → Nat → Nat → List Base
  | [], _, _ => []
  | b :: rest, 0, j => { b with soldiers := promoteNth b.soldiers j } :: rest
  | b :: rest, i + 1, j => b :: promoteAt rest i j

/-- The call `highestRanked->promoteRank()`: `none` when the pointer is
null. -/
def SavedGame.promote (sg : SavedGame) (highestRanked : SoldierPtr) : Option SavedGame :=
  match highestRanked with
  | none => none
  | some (i, j) => some { sg with bases := promoteAt sg.bases i j }

/-- One tier of `handlePromotions`: the two calls of `inspectSoldiers`, for
the rank `rank` and for the rank below it, and the promotion when fewer than
`limit` positions of the rank are filled and the rank below has a soldier.
The state is the saved game, `highestRanked` and `soldiersPromoted`. -/
def SavedGame.promotionTier (rank below : Int) (limit : Nat)
    (state : SavedGame × SoldierPtr × Nat) : Option (SavedGame × SoldierPtr × Nat) :=
  let sg := state.1
  let inspected := sg.inspectSoldiers state.2.1 rank
  let filledPositions := inspected.2
  let inspected2 := sg.inspectSoldiers inspected.1 below
  let filledPositions2 := inspected2.2
  let highestRanked := inspected2.1
  if filledPositions < limit && filledPositions2 > 0 then
    (sg.promote highestRanked).map fun sg1 => (sg1, highestRanked, state.2.2 + 1)
  else some (sg, highestRanked, state.2.2)

/-- The method `SavedGame::handlePromotions`: the returned value and the saved
game after the call; `none` when a null pointer is dereferenced. -/
def SavedGame.handlePromotions (sg : SavedGame) : Option (Bool × SavedGame) :=
  let soldiersPromoted := 0
  let soldiersTotal := sg.bases.foldl (fun total i => total + i.soldiers.length) 0
  let highestRanked : SoldierPtr := none
  (SavedGame.promotionTier RANK_COMMANDER RANK_COLONEL 1 (sg, highestRanked, soldiersPromoted)
    |>.bind (SavedGame.promotionTier RANK_COLONEL RANK_CAPTAIN (soldiersTotal / 23))
    |>.bind (SavedGame.promotionTier RANK_CAPTAIN RANK_SERGEANT (soldiersTotal / 11))
    |>.bind (SavedGame.promotionTier RANK_SERGEANT RANK_SQUADDIE (soldiersTotal / 5))).map
    fun state => (decide (state.2.2 > 0), state.1)

/-- Every failure of the computation is a `YAML::Exception`. -/
def OnlyYaml {α : Type} (o : Except (Thrown × SavedGame) α) : Prop :=
  ∀ t s, o = Except.error (t, s) → t = Thrown.yamlException

/-! ## Test data for the persistence codec -/

/-- A codec for the tests: a time is written as the sequence of its seven
values, a country, region, ufo, waypoint or blob as its state, a base as the
sequence of the rules of its researches in progress. -/
def testCodecs : Codecs :=
  { saveTime := fun t =>
      YamlNode.seq [YamlNode.int t.weekday, YamlNode.int t.day, YamlNode.int t.month,
        YamlNode.int t.year, YamlNode.int t.hour, YamlNode.int t.minute, YamlNode.int t.second]
    loadTime := fun t node =>
      match node with
      | YamlNode.seq [YamlNode.int a, YamlNode.int b, YamlNode.int c, YamlNode.int d,
          YamlNode.int e, YamlNode.int f, YamlNode.int g] =>
        Except.ok
          { weekday := a, day := b, month := c, year := d, hour := e, minute := f, second := g }
      | _ => Except.error t
    saveCountry := fun c => c.state
    loadCountry := fun rules node => some { rules := rules, state := node }
    saveRegion := fun r => r.state
    loadRegion := fun rules node => some { rules := rules, state := node }
    saveUfo := fun u => u.state
    loadUfo := fun rules node => some { rules := rules, state := node }
    saveWaypoint := fun w => w.state
    loadWaypoint := fun node => some { state := node }
    saveBase := fun b =>
      YamlNode.seq (b.research.map fun r => YamlNode.int (Int.ofNat r.ruleResearchProject))
    loadBase := fun _ _ node =>
      match node with
      | YamlNode.seq items =>
        (items.mapM YamlNode.asInt).map fun rules =>
          { research := rules.map fun r => { ruleResearchProject := r.toNat }
            productions := []
            items := { getItem := fun _ => 0 } }
      | _ => none
    newBattleGame := { state := YamlNode.null }
    saveBattleGame := fun b => b.state
    loadBattleGame := fun _ _ _ node => Except.ok { state := node }
    saveUfopaedia := fun u => u.state
    loadUfopaedia := fun _ _ node => Except.ok { state := node } }

/-- The summary segment of the test documents: version `1.0` and a time. -/
def testBrief : ParsedDoc :=
  ParsedDoc.node (YamlNode.map [("version", YamlNode.str "1.0"),
    ("time", YamlNode.seq [YamlNode.int 2, YamlNode.int 14, YamlNode.int 3, YamlNode.int 1999,
      YamlNode.int 8, YamlNode.int 5, YamlNode.int 0])])

/-- A save file whose full segment stops after the key `difficulty`. -/
def truncatedFile : SaveFile :=
  some [testBrief, ParsedDoc.node (YamlNode.map [("difficulty", YamlNode.int 3)])]

/-- A complete save file whose discovered list names `A`, then an identifier
that the catalog `A`, `B`, `C` does not hold. -/
def unknownRuleFile : SaveFile :=
  some [testBrief,
    ParsedDoc.node (YamlNode.map [("difficulty", YamlNode.int 3), ("funds", YamlNode.int 500),
      ("countries", YamlNode.seq []), ("regions", YamlNode.seq []), ("bases", YamlNode.seq []),
      ("ufos", YamlNode.seq []), ("craftId", YamlNode.map []), ("waypoints", YamlNode.seq []),
      ("discovered", YamlNode.seq [YamlNode.str "A", YamlNode.str "STR_UNKNOWN"]),
      ("ufoId", YamlNode.int 1), ("waypointId", YamlNode.int 1), ("soldierId", YamlNode.int 1),
      ("ufopaedia", YamlNode.null)])]

/-- The ruleset of the catalog `A`, `B`, `C` with one country, one region and
one kind of ufo. -/
def campaignRuleset : Ruleset :=
  { researchProjects := [("A", 1), ("B", 2), ("C", 3)]
    manufactureProjects := []
    deref := scenarioDeref
    getCountry := fun id => if id = "STR_USA" then 11 else 0
    getRegion := fun id => if id = "STR_EUROPE" then 21 else 0
    getUfo := fun id => if id = "STR_SMALL_SCOUT" then 31 else 0 }

/-- A campaign with two bases, the research `C` in progress at the first one,
`A` and the zero-cost `B` discovered, and a tactical blob. -/
def campaignGame : SavedGame :=
  { discovered := [1, 2]
    bases :=
      [{ research := [{ ruleResearchProject := 3 }], productions := [],
         items := { getItem := fun _ => 0 } },
        { research := [], productions := [], items := { getItem := fun _ => 0 } }]
    difficulty := 2
    funds := 4000
    time :=
      { weekday := 2, day := 14, month := 3, year := 1999, hour := 8, minute := 5, second := 0 }
    countries :=
      [{ rules := 11,
         state := YamlNode.map [("type", YamlNode.str "STR_USA"), ("funding", YamlNode.int 600)] }]
    regions := [{ rules := 21, state := YamlNode.map [("type", YamlNode.str "STR_EUROPE")] }]
    ufos := [{ rules := 31, state := YamlNode.map [("type", YamlNode.str "STR_SMALL_SCOUT")] }]
    craftId := [("STR_INTERCEPTOR", 2), ("STR_SKYRANGER", 1)]
    waypoints := [{ state := YamlNode.seq [YamlNode.int 10, YamlNode.int 20] }]
    ufoId := 5
    waypointId := 3
    soldierId := 17
    battleGame := some { state := YamlNode.str "tactical" }
    ufopaedia := { state := YamlNode.seq [] } }

/-- The time held by the summary of a file, when the file opens, its first
document parses and holds under `time` a node that `GameTime::load` accepts:
what it takes for the summary to be listed. -/
def summaryTime (codecs : Codecs) (fin : SaveFile) : Option GameTime :=
  match fin with
  | none => none
  | some stream =>
    match getNextDocument stream with
    | none => none
    | some first =>
      match first.1.getValue "time" with
      | none => none
      | some node =>
        match codecs.loadTime
          { weekday := 6, day := 1, month := 1, year := 1999, hour := 12, minute := 0,
            second := 0 } node with
        | Except.ok time => some time
        | Except.error _ => none

/-- The names of months and days used by the tests. -/
def testNames : TimeNames :=
  { getDayString := fun _ => "STR_DATE_DAY", getMonthString := fun _ => "STR_MAR" }

/-- A language that displays every identifier as it is. -/
def testLanguage : Language :=
  { getString := fun id => id }

/-- An empty text list without dots. -/
def emptyList : TextList :=
  { texts := [], dot := false, padded := fun _ buf => buf }

/-- A complete save file written by the build of version `0.9`. -/
def oldVersionFile : SaveFile :=
  some [ParsedDoc.node (YamlNode.map [("version", YamlNode.str "0.9"),
      ("time", YamlNode.seq [YamlNode.int 5, YamlNode.int 2, YamlNode.int 1, YamlNode.int 1999,
        YamlNode.int 23, YamlNode.int 30, YamlNode.int 0])]),
    ParsedDoc.node (YamlNode.map [("difficulty", YamlNode.int 1), ("funds", YamlNode.int 100),
      ("countries", YamlNode.seq []), ("regions", YamlNode.seq []), ("bases", YamlNode.seq []),
      ("ufos", YamlNode.seq []), ("craftId", YamlNode.map []), ("waypoints", YamlNode.seq []),
      ("discovered", YamlNode.seq []), ("ufoId", YamlNode.int 1),
      ("waypointId", YamlNode.int 1), ("soldierId", YamlNode.int 1),
      ("ufopaedia", YamlNode.null)])]

/-! ## Test rosters -/

/-- Stats that are all zero: a soldier with them has promotion score 0 when it
has no mission and no kill. -/
def zeroStats : UnitStats :=
  { tu := 0, stamina := 0, health := 0, bravery := 0, reactions := 0, firing := 0,
    throwing := 0, strength := 0, psiStrength := 0, psiSkill := 0, melee := 0 }

/-- A soldier with the given id and rank, health `health`, every other stat
zero, no mission and no kill: its promotion score is `2 * health`. -/
def recruit (id rank health : Int) : Soldier :=
  { id := id, rank := rank, currentStats := { zeroStats with health := health },
    missions := 0, kills := 0 }

/-- A saved game with one base that holds the given soldiers. -/
def garrison (soldiers : List Soldier) : SavedGame :=
  { discovered := []
    bases :=
      [{ research := [], productions := [], items := { getItem := fun _ => 0 },
         soldiers := soldiers }] }

/-- A captain of score 60 and four squaddies of score 0. -/
def captainRoster : SavedGame :=
  garrison [recruit 1 RANK_CAPTAIN 30, recruit 2 RANK_SQUADDIE 0, recruit 3 RANK_SQUADDIE 0,
    recruit 4 RANK_SQUADDIE 0, recruit 5 RANK_SQUADDIE 0]

/-- A commander and a colonel of score 60, and three squaddies of score 0. -/
def staffRoster : SavedGame :=
  garrison [recruit 1 RANK_COMMANDER 30, recruit 2 RANK_COLONEL 30, recruit 3 RANK_SQUADDIE 0,
    recruit 4 RANK_SQUADDIE 0, recruit 5 RANK_SQUADDIE 0]

/-- Twenty-three squaddies of score 0. -/
def idleSquad : SavedGame :=
  garrison ((List.range 23).map fun n => recruit (Int.ofNat n + 1) RANK_SQUADDIE 0)

/-- The soldier stored at position `p.2` of the soldiers of the base at
position `p.1`, if there is one. -/
def SavedGame.soldierAt (sg : SavedGame) (p : Nat × Nat) : Option Soldier :=
  (sg.bases[p.1]?).bind fun b => b.soldiers[p.2]?

/-- The number of soldiers over all bases, as `handlePromotions` sums it. -/
def SavedGame.soldiersTotal (sg : SavedGame) : Nat :=
  sg.bases.foldl (fun total i => total + i.soldiers.length) 0

/-- The number of soldiers of a rank over all bases. -/
def SavedGame.countRank (sg : SavedGame) (rank : Int) : Nat :=
  sg.roster.countP fun j => decide (j.2.rank = rank)

/-- One iteration of the inner loop of `inspectSoldiers`, on the triple of
`highestScore`, `*highestRanked` and `*total`. -/
def inspectStep (rank : Int) (state : Int × SoldierPtr × Nat) (j : (Nat × Nat) × Soldier) :
    Int × SoldierPtr × Nat :=
  if j.2.rank = rank then
    let total := state.2.2 + 1
    let score := promotionScore j.2
    if score > state.1 then (score, some j.1, total)
    else (state.1, state.2.1, total)
  else state

/-- The capacity condition of a promotion tier, read on the roster: fewer than
`limit` soldiers hold `rank` and some soldier holds the rank `below`. -/
def SavedGame.tierFires (sg : SavedGame) (rank below : Int) (limit : Nat) : Prop :=
  sg.countRank rank < limit ∧ 0 < sg.countRank below

instance (sg : SavedGame) (rank below : Int) (limit : Nat) :
    Decidable (sg.tierFires rank below limit) := by
  unfold SavedGame.tierFires
  infer_instance

/-- A colonel of score 60, a colonel of score 50 and three squaddies of
score 0; nobody is commander. -/
def colonelRoster : SavedGame :=
  garrison [recruit 1 RANK_COLONEL 30, recruit 2 RANK_COLONEL 25, recruit 3 RANK_SQUADDIE 0,
    recruit 4 RANK_SQUADDIE 0, recruit 5 RANK_SQUADDIE 0]

/-- A commander of score 60 and a squaddie of score 10. -/
def quietRoster : SavedGame :=
  garrison [recruit 1 RANK_COMMANDER 30, recruit 2 RANK_SQUADDIE 5]

/-- A colonel of score 60, a captain of score 40, and squaddies of score 30,
20 and 10. -/
def ladderRoster : SavedGame :=
  garrison [recruit 1 RANK_COLONEL 30, recruit 2 RANK_CAPTAIN 20, recruit 3 RANK_SQUADDIE 15,
    recruit 4 RANK_SQUADDIE 10, recruit 5 RANK_SQUADDIE 5]

/-- The roster `ladderRoster` with the colonel made commander and the first
squaddie made sergeant. -/
def ladderPromoted : SavedGame :=
  garrison [recruit 1 RANK_COMMANDER 30, recruit 2 RANK_CAPTAIN 20, recruit 3 RANK_SERGEANT 15,
    recruit 4 RANK_SQUADDIE 10, recruit 5 RANK_SQUADDIE 5]

/-- Ranks have only been raised between the saved game `sg0` and a state of
the promotion pass: the pointer, when not null, points at a stored soldier;
the soldiers are at the same positions with a rank at least as high; the
saved game is `sg0` itself while nothing was promoted; and once something
was promoted some soldier has a higher rank than in `sg0`. -/
def SavedGame.RanksRaised (sg0 : SavedGame) (state : SavedGame × SoldierPtr × Nat) : Prop :=
  (∀ p, state.2.1 = some p → ∃ s, state.1.soldierAt p = some s)
    ∧ (∀ p, (sg0.soldierAt p = none ∧ state.1.soldierAt p = none)
        ∨ ∃ s s', sg0.soldierAt p = some s ∧ state.1.soldierAt p = some s'
            ∧ s.rank ≤ s'.rank)
    ∧ (state.2.2 = 0 → state.1 = sg0)
    ∧ (0 < state.2.2 →
        ∃ p s s', sg0.soldierAt p = some s ∧ state.1.soldierAt p = some s' ∧ s.rank < s'.rank)

/-- Every soldier of the saved game `sg` is as in `sg0`, or is the soldier of
`sg0` at the same position after one `promoteRank` that took it above the
rank `below`. -/
def SavedGame.PromotedOnce (sg0 : SavedGame) (below : Int) (sg : SavedGame) : Prop :=
  ∀ p, sg.soldierAt p = sg0.soldierAt p
    ∨ ∃ s, sg0.soldierAt p = some s ∧ sg.soldierAt p = some s.promoteRank ∧ below < s.rank + 1

/-! ## A test catalog with a chain of zero-cost rules: `A`, then `B`, then `C` -/

/-- A squaddie of health `1073741824`, every other stat zero: the weighted sum
of its score is `2147483648`, one more than the largest `int`. -/
def heavyRecruit : Soldier :=
  recruit 1 RANK_SQUADDIE 1073741824

/-- A colonel of score 60 and four squaddies of health `1073741824`. -/
def heavyRoster : SavedGame :=
  garrison [recruit 1 RANK_COLONEL 30, recruit 2 RANK_SQUADDIE 1073741824,
    recruit 3 RANK_SQUADDIE 1073741824, recruit 4 RANK_SQUADDIE 1073741824,
    recruit 5 RANK_SQUADDIE 1073741824]

/-! ## The eligibility query -/

namespace SavedGame

theorem isResearchAvailable_loop_eq_true (discovereds deps : List RulePtr) :
    isResearchAvailable.loop discovereds deps = true ↔ ∀ d ∈ deps, d ∈ discovereds := by
  induction deps with
  | nil => simp [isResearchAvailable.loop]
  | cons d rest ih =>
    by_cases hd : d ∈ discovereds <;> simp [isResearchAvailable.loop, hd, ih]

theorem foldl_push_eq_append (xs acc : List RulePtr) :
    xs.foldl (fun u x => u ++ [x]) acc = acc ++ xs := by
  induction xs generalizing acc with
  | nil => simp
  | cons x xs ih => simp [ih]

theorem collectUnlockeds_eq (sg : SavedGame) (ruleset : Ruleset) :
    sg.collectUnlockeds ruleset
      = sg.discovered.flatMap (fun r => (ruleset.deref r).unlocked) := by
  have key : ∀ (ds acc : List RulePtr),
      ds.foldl (fun unlockeds it => unlockeds ++ (ruleset.deref it).unlocked) acc
        = acc ++ ds.flatMap (fun r => (ruleset.deref r).unlocked) := by
    intro ds
    induction ds with
    | nil => intro acc; simp
    | cons d ds ih => intro acc; simp [ih]
  unfold collectUnlockeds getDiscoveredResearchs
  simp only [foldl_push_eq_append]
  simpa using key sg.discovered []

theorem mem_collectUnlockeds (sg : SavedGame) (ruleset : Ruleset) (p : RulePtr) :
    p ∈ sg.collectUnlockeds ruleset ↔ ∃ r ∈ sg.discovered, p ∈ (ruleset.deref r).unlocked := by
  simp [collectUnlockeds_eq, List.mem_flatMap]

theorem isResearchAvailable_collect (sg : SavedGame) (ruleset : Ruleset) (p : RulePtr) :
    sg.isResearchAvailable ruleset p (sg.collectUnlockeds ruleset) = true
      ↔ Reachable sg ruleset p := by
  unfold isResearchAvailable Reachable
  by_cases hu : p ∈ sg.collectUnlockeds ruleset
  · have hu2 := (mem_collectUnlockeds sg ruleset p).1 hu
    simp [hu, hu2]
  · have hu2 : ¬ ∃ r ∈ sg.discovered, p ∈ (ruleset.deref r).unlocked :=
      fun h => hu ((mem_collectUnlockeds sg ruleset p).2 h)
    simp [hu, hu2, isResearchAvailable_loop_eq_true, getDiscoveredResearchs]

theorem availableStep_eq (sg : SavedGame) (ruleset : Ruleset) (base : Base)
    (projects : List RulePtr) (p : RulePtr) :
    sg.availableStep ruleset base (sg.collectUnlockeds ruleset) projects p
      = if Eligible sg ruleset base p then projects ++ [p] else projects := by
  unfold availableStep Eligible
  by_cases h1 : Reachable sg ruleset p
  · have h1b := (isResearchAvailable_collect sg ruleset p).2 h1
    by_cases h2 : p ∈ sg.discovered
    · simp [h1b, h2, getDiscoveredResearchs]
    · by_cases h3 : NotInProgress base p
      · have h3b : base.research.any (findRuleResearchProject p) = false := by
          rw [List.any_eq_false]
          intro rp hrp
          simp only [findRuleResearchProject, beq_iff_eq]
          exact fun h => h3 rp hrp h.symm
        by_cases h4 : ItemMet ruleset base p
        · have h4b : ((ruleset.deref p).needItem
              && base.items.getItem (ruleset.deref p).name == 0) = false := by
            rcases h4 with h4 | h4
            · simp [h4]
            · simp [h4]
          simp [h1, h1b, h2, h3, h3b, h4, h4b, getDiscoveredResearchs]
        · have h4b : ((ruleset.deref p).needItem
              && base.items.getItem (ruleset.deref p).name == 0) = true := by
            unfold ItemMet at h4
            push_neg at h4
            simp [h4.1, h4.2]
          simp [h1, h1b, h2, h3, h3b, h4, h4b, getDiscoveredResearchs]
      · have h3b : base.research.any (findRuleResearchProject p) = true := by
          unfold NotInProgress at h3
          push_neg at h3
          obtain ⟨rp, hrp, he⟩ := h3
          rw [List.any_eq_true]
          exact ⟨rp, hrp, by simp [findRuleResearchProject, he]⟩
        simp [h1, h1b, h2, h3, h3b, getDiscoveredResearchs]
  · have h1b : sg.isResearchAvailable ruleset p (sg.collectUnlockeds ruleset) = false := by
      rw [← Bool.not_eq_true]
      exact fun h => h1 ((isResearchAvailable_collect sg ruleset p).1 h)
    simp [h1, h1b]

theorem getAvailableResearchProjects_eq (sg : SavedGame) (projects : List RulePtr)
    (ruleset : Ruleset) (base : Base) :
    sg.getAvailableResearchProjects projects ruleset base
      = projects ++ (ruleset.researchProjects.map Prod.snd).filter
          (fun p => decide (Eligible sg ruleset base p)) := by
  unfold getAvailableResearchProjects
  simp only [availableStep_eq]
  generalize ruleset.researchProjects = l
  induction l generalizing projects with
  | nil => simp
  | cons e l ih =>
    simp only [List.foldl_cons, List.map_cons, List.filter_cons]
    rw [ih]
    by_cases h : Eligible sg ruleset base e.2 <;> simp [h]

/-! ## The cascade -/

theorem getDependableResearchBasic_appends (sg : SavedGame) (ruleset : Ruleset) (base : Base)
    (fuel : Nat) (dependables : List RulePtr) (research : RulePtr) (out : List RulePtr)
    (h : sg.getDependableResearchBasic fuel dependables research ruleset base = some out) :
    ∃ added, out = dependables ++ added
      ∧ ∀ q ∈ added, q ∈ sg.getAvailableResearchProjects [] ruleset base := by
  induction fuel generalizing dependables research out with
  | zero => simp [getDependableResearchBasic] at h
  | succ fuel ih =>
    unfold getDependableResearchBasic at h
    simp only at h
    have hl : ∀ q ∈ sg.getAvailableResearchProjects [] ruleset base,
        q ∈ sg.getAvailableResearchProjects [] ruleset base := fun _ hq => hq
    revert h hl
    generalize hposs : sg.getAvailableResearchProjects [] ruleset base = poss
    have hgen : ∀ (l : List RulePtr) (acc out : List RulePtr),
        (∀ q ∈ l, q ∈ poss) →
        l.foldlM
          (fun dependables iter =>
            if (ruleset.deref iter).dependencys.contains research
                || (ruleset.deref iter).unlocked.contains research then
              if (ruleset.deref iter).cost == 0 then
                getDependableResearchBasic sg fuel (dependables ++ [iter]) iter ruleset base
              else some (dependables ++ [iter])
            else some dependables) acc = some out →
        ∃ added, out = acc ++ added ∧ ∀ q ∈ added, q ∈ poss := by
      intro l
      induction l with
      | nil =>
        intro acc out _ h
        simp only [List.foldlM_nil, pure, Option.some.injEq] at h
        exact ⟨[], by simp [h], by simp⟩
      | cons x l ihl =>
        intro acc out hmem h
        simp only [List.foldlM_cons, bind, Option.bind_eq_some] at h
        obtain ⟨acc1, hstep, hrest⟩ := h
        have hx : x ∈ poss := hmem x (List.mem_cons_self _ _)
        have hl2 : ∀ q ∈ l, q ∈ poss := fun q hq => hmem q (List.mem_cons_of_mem _ hq)
        obtain ⟨added2, hout, hadd2⟩ := ihl acc1 out hl2 hrest
        split at hstep
        · split at hstep
          · obtain ⟨added1, hacc1, hadd1⟩ := ih (acc ++ [x]) x acc1 hstep
            refine ⟨x :: (added1 ++ added2), by simp [hout, hacc1], ?_⟩
            intro q hq
            simp only [List.mem_cons, List.mem_append] at hq
            rcases hq with rfl | hq | hq
            · exact hx
            · exact hposs ▸ hadd1 q hq
            · exact hadd2 q hq
          · simp only [Option.some.injEq] at hstep
            refine ⟨x :: added2, by simp [hout, ← hstep], ?_⟩
            intro q hq
            simp only [List.mem_cons] at hq
            rcases hq with rfl | hq
            · exact hx
            · exact hadd2 q hq
        · simp only [Option.some.injEq] at hstep
          exact ⟨added2, by simp [hout, ← hstep], hadd2⟩
    intro h _
    exact hgen poss dependables out (fun _ hq => hq) h

theorem foldlM_option_invariant {α β : Type} (f : β → α → Option β) (Inv : β → Prop)
    (P : α → Prop)
    (hstep : ∀ b a b', P a → Inv b → f b a = some b' → Inv b') :
    ∀ (l : List α) (b b' : β), (∀ a ∈ l, P a) → Inv b → l.foldlM f b = some b' → Inv b' := by
  intro l
  induction l with
  | nil =>
    intro b b' _ hb h
    simp only [List.foldlM_nil, pure, Option.some.injEq] at h
    exact h ▸ hb
  | cons a l ih =>
    intro b b' hP hb h
    simp only [List.foldlM_cons, bind, Option.bind_eq_some] at h
    obtain ⟨b1, h1, h2⟩ := h
    exact ih b1 b' (fun x hx => hP x (List.mem_cons_of_mem _ hx))
      (hstep b a b1 (hP a (List.mem_cons_self _ _)) hb h1) h2

theorem mem_getAvailableResearchProjects (sg : SavedGame) (ruleset : Ruleset) (base : Base)
    (p : RulePtr) :
    p ∈ sg.getAvailableResearchProjects [] ruleset base
      ↔ p ∈ ruleset.researchProjects.map Prod.snd ∧ Eligible sg ruleset base p := by
  rw [getAvailableResearchProjects_eq]
  simp only [List.nil_append, List.mem_filter, decide_eq_true_eq]

theorem Reachable_mono (sg sg2 : SavedGame) (ruleset : Ruleset) (p : RulePtr)
    (hsub : ∀ d ∈ sg.discovered, d ∈ sg2.discovered) (h : Reachable sg ruleset p) :
    Reachable sg2 ruleset p := by
  rcases h with ⟨r, hr, hp⟩ | h
  · exact Or.inl ⟨r, hsub r hr, hp⟩
  · exact Or.inr fun d hd => hsub d (h d hd)

theorem addFinishedResearch_grows (fuel : Nat) (sg : SavedGame) (r : RulePtr)
    (ruleset : Option Ruleset) (sg' : SavedGame)
    (h : addFinishedResearch fuel sg r ruleset = some sg') :
    sg'.bases = sg.bases ∧ ∃ rest, sg'.discovered = sg.discovered ++ r :: rest
      ∧ ∀ rs, ruleset = some rs → ∀ q ∈ rest,
          (rs.deref q).cost = 0 ∧ q ∈ rs.researchProjects.map Prod.snd
            ∧ q ∉ sg.discovered ∧ q ≠ r ∧ Reachable sg' rs q := by
  induction fuel generalizing sg r sg' with
  | zero => simp [addFinishedResearch] at h
  | succ fuel ih =>
    unfold addFinishedResearch at h
    cases ruleset with
    | none =>
      simp only [Option.some.injEq] at h
      subst h
      exact ⟨rfl, [], rfl, fun rs hrs => by simp at hrs⟩
    | some rs =>
      simp only [Option.bind_eq_some] at h
      obtain ⟨avail, havail, hfold⟩ := h
      -- every queued candidate was eligible at some base after the push of `r`
      have hA : ∀ q ∈ avail, ∃ b,
          q ∈ ({ sg with discovered := sg.discovered ++ [r] } : SavedGame).getAvailableResearchProjects
            [] rs b :=
        foldlM_option_invariant
          (fun availableResearch it =>
            ({ sg with discovered := sg.discovered ++ [r] } : SavedGame).getDependableResearchBasic
              fuel availableResearch r rs it)
          (fun acc => ∀ q ∈ acc, ∃ b,
            q ∈ ({ sg with discovered := sg.discovered ++ [r] } : SavedGame).getAvailableResearchProjects
              [] rs b)
          (fun _ => True)
          (by
            intro acc it acc' _ hacc hstep q hq
            obtain ⟨added, hacc', hadd⟩ :=
              getDependableResearchBasic_appends _ rs it fuel acc r acc' hstep
            rw [hacc', List.mem_append] at hq
            rcases hq with hq | hq
            · exact hacc q hq
            · exact ⟨it, hadd q hq⟩)
          _ [] avail (fun _ _ => trivial) (by simp) havail
      have hB :=
        foldlM_option_invariant
          (fun sg2 it =>
            if (rs.deref it).cost == 0 then addFinishedResearch fuel sg2 it (some rs)
            else some sg2)
          (fun s => s.bases = sg.bases ∧ ∃ rest, s.discovered = sg.discovered ++ r :: rest
            ∧ ∀ q ∈ rest, (rs.deref q).cost = 0 ∧ q ∈ rs.researchProjects.map Prod.snd
                ∧ q ∉ sg.discovered ∧ q ≠ r ∧ Reachable s rs q)
          (fun q => ∃ b,
            q ∈ ({ sg with discovered := sg.discovered ++ [r] } : SavedGame).getAvailableResearchProjects
              [] rs b)
          (by
            intro s p s2 hp hs hstep
            obtain ⟨hsb, rest, hsd, hgood⟩ := hs
            beta_reduce at hstep
            split at hstep
            · rename_i hcost
              have hcost0 : (rs.deref p).cost = 0 := by simpa using hcost
              obtain ⟨hb2, rest2, hd2, hgood2⟩ := ih s p s2 hstep
              obtain ⟨b, hpb⟩ := hp
              rw [mem_getAvailableResearchProjects] at hpb
              obtain ⟨hpcat, hpreach, hpnd, _, _⟩ := hpb
              have hsub1 : ∀ d ∈ sg.discovered ++ [r], d ∈ s2.discovered := by
                intro d hd
                rw [hd2, hsd]
                simp only [List.mem_append, List.mem_cons, List.mem_singleton] at hd ⊢
                tauto
              have hsub2 : ∀ d ∈ s.discovered, d ∈ s2.discovered := by
                intro d hd
                rw [hd2]
                exact List.mem_append_left _ hd
              refine ⟨hb2.trans hsb, rest ++ p :: rest2, by simp [hd2, hsd], ?_⟩
              intro q hq
              simp only [List.mem_append, List.mem_cons] at hq
              rcases hq with hq | rfl | hq
              · obtain ⟨g1, g2, g3, g4, g5⟩ := hgood q hq
                exact ⟨g1, g2, g3, g4, Reachable_mono s s2 rs q hsub2 g5⟩
              · refine ⟨hcost0, hpcat, ?_, ?_, Reachable_mono _ s2 rs q hsub1 hpreach⟩
                · exact fun hmem => hpnd (List.mem_append_left _ hmem)
                · rintro rfl
                  exact hpnd (by simp)
              · obtain ⟨g1, g2, g3, _, g5⟩ := hgood2 rs rfl q hq
                refine ⟨g1, g2, ?_, ?_, g5⟩
                · exact fun hmem => g3 (by rw [hsd]; exact List.mem_append_left _ hmem)
                · rintro rfl
                  exact g3 (by rw [hsd]; simp)
            · simp only [Option.some.injEq] at hstep
              subst hstep
              exact ⟨hsb, rest, hsd, hgood⟩)
          avail { sg with discovered := sg.discovered ++ [r] } sg' hA
          ⟨rfl, [], by simp, by simp⟩ hfold
      obtain ⟨hb, rest, hd, hgood⟩ := hB
      refine ⟨hb, rest, hd, ?_⟩
      intro rs2 hrs2
      cases hrs2
      exact hgood

/-- C1: `getAvailableResearchProjects` extends `projects` by a list `appended`,
and a rule `p` is in `appended` if and only if it is a value of the catalog and
(1) `p` is in the unlocked list of a discovered rule or every dependency of
`p` is discovered, (2) `p` is not discovered, (3) no research in progress at
the base has rule `p`, (4) `p` needs no item or the base holds a non-zero
quantity of the item named like `p`. -/
theorem getAvailableResearchProjects_appends_iff (sg : SavedGame) (projects : List RulePtr)
    (ruleset : Ruleset) (base : Base) :
    ∃ appended, sg.getAvailableResearchProjects projects ruleset base = projects ++ appended
      ∧ ∀ p, p ∈ appended ↔
          p ∈ ruleset.researchProjects.map Prod.snd
          ∧ ((∃ r ∈ sg.discovered, p ∈ (ruleset.deref r).unlocked)
              ∨ ∀ d ∈ (ruleset.deref p).dependencys, d ∈ sg.discovered)
          ∧ p ∉ sg.discovered
          ∧ (∀ rp ∈ base.research, rp.ruleResearchProject ≠ p)
          ∧ ((ruleset.deref p).needItem = false
              ∨ base.items.getItem (ruleset.deref p).name ≠ 0) := by
  refine ⟨(ruleset.researchProjects.map Prod.snd).filter
      (fun p => decide (Eligible sg ruleset base p)),
    getAvailableResearchProjects_eq sg projects ruleset base, ?_⟩
  intro p
  simp only [List.mem_filter, decide_eq_true_eq]
  exact Iff.rfl

/-- C2: unlock bypass.  When `r` is discovered and lists `p` among its unlocked
rules, a catalog rule `p` that is not discovered, not in progress at the base
and whose item requirement is met is returned by
`getAvailableResearchProjects`, whatever the dependencies of `p` are; and
`isResearchAvailable` is true for every rule found in its `unlockeds`
argument. -/
theorem unlock_bypass (sg : SavedGame) (ruleset : Ruleset) (base : Base) (r p : RulePtr)
    (hr : r ∈ sg.discovered) (hp : p ∈ (ruleset.deref r).unlocked)
    (hcat : p ∈ ruleset.researchProjects.map Prod.snd)
    (hnd : p ∉ sg.discovered)
    (hprog : ∀ rp ∈ base.research, rp.ruleResearchProject ≠ p)
    (hitem : (ruleset.deref p).needItem = false
      ∨ base.items.getItem (ruleset.deref p).name ≠ 0) :
    p ∈ sg.getAvailableResearchProjects [] ruleset base
      ∧ ∀ unlockeds : List RulePtr, p ∈ unlockeds →
          sg.isResearchAvailable ruleset p unlockeds = true := by
  constructor
  · rw [mem_getAvailableResearchProjects]
    exact ⟨hcat, Or.inl ⟨r, hr, hp⟩, hnd, hprog, hitem⟩
  · intro unlockeds hmem
    simp [isResearchAvailable, hmem]

/-- Witness of C2: `P` depends on the undiscovered `Q` only, and is returned
because the discovered `R` unlocks it. -/
theorem unlock_bypass_witness :
    (bypassRuleset.deref 2).dependencys = [3] ∧ 3 ∉ bypassGame.discovered
      ∧ 2 ∈ bypassGame.getAvailableResearchProjects [] bypassRuleset emptyBase :=
  ⟨rfl, by decide,
    (unlock_bypass bypassGame bypassRuleset emptyBase 1 2 (by decide) (by decide) (by decide)
      (by decide) (by decide) (by decide)).1⟩

/-- C3: item gating.  For a catalog rule `p` that needs its item and satisfies
the three other eligibility conditions, and two bases that differ only in
their inventory, `getAvailableResearchProjects` leaves `p` out at the base
that holds zero units of the item named like `p` and returns `p` at the base
that holds at least one. -/
theorem item_gating (sg : SavedGame) (ruleset : Ruleset) (p : RulePtr)
    (research : List ResearchProject) (productions : List Production)
    (items0 items1 : ItemContainer)
    (hcat : p ∈ ruleset.researchProjects.map Prod.snd)
    (hneed : (ruleset.deref p).needItem = true)
    (hreach : (∃ r ∈ sg.discovered, p ∈ (ruleset.deref r).unlocked)
      ∨ ∀ d ∈ (ruleset.deref p).dependencys, d ∈ sg.discovered)
    (hnd : p ∉ sg.discovered)
    (hprog : ∀ rp ∈ research, rp.ruleResearchProject ≠ p)
    (h0 : items0.getItem (ruleset.deref p).name = 0)
    (h1 : 1 ≤ items1.getItem (ruleset.deref p).name) :
    p ∉ sg.getAvailableResearchProjects [] ruleset
          { research := research, productions := productions, items := items0 }
      ∧ p ∈ sg.getAvailableResearchProjects [] ruleset
          { research := research, productions := productions, items := items1 } := by
  constructor
  · rw [mem_getAvailableResearchProjects]
    rintro ⟨_, _, _, _, hitem⟩
    rcases hitem with hitem | hitem
    · rw [hneed] at hitem
      exact Bool.noConfusion hitem
    · exact hitem h0
  · rw [mem_getAvailableResearchProjects]
    refine ⟨hcat, hreach, hnd, hprog, Or.inr ?_⟩
    show items1.getItem (ruleset.deref p).name ≠ 0
    omega

/-- Witness of C3: the rule `STR_ITEM` at a base without and with the item. -/
theorem item_gating_witness :
    1 ∉ SavedGame.getAvailableResearchProjects { discovered := [], bases := [] } [] itemRuleset
          { research := [], productions := [], items := noItems }
      ∧ 1 ∈ SavedGame.getAvailableResearchProjects { discovered := [], bases := [] } []
          itemRuleset { research := [], productions := [], items := twoOfEach } :=
  item_gating { discovered := [], bases := [] } itemRuleset 1 [] [] noItems twoOfEach
    (by decide) rfl (Or.inr (by decide)) (by decide) (by decide) rfl (by decide)

/-- C4: eligibility monotonicity.  Once `addFinishedResearch` has recorded `p`,
then after any further sequence of `addFinishedResearch` calls, each with or
without a ruleset, `getAvailableResearchProjects` does not return `p`, for any
ruleset and any base. -/
theorem eligibility_monotone (fuel fuel2 : Nat) (sg sg1 sg2 : SavedGame) (p : RulePtr)
    (ruleset0 : Option Ruleset) (calls : List (RulePtr × Option Ruleset))
    (h1 : addFinishedResearch fuel sg p ruleset0 = some sg1)
    (h2 : addFinishedResearchSeq fuel2 sg1 calls = some sg2) :
    ∀ (ruleset : Ruleset) (base : Base),
      p ∉ sg2.getAvailableResearchProjects [] ruleset base := by
  have hmem1 : p ∈ sg1.discovered := by
    obtain ⟨_, rest, hd, _⟩ := addFinishedResearch_grows fuel sg p ruleset0 sg1 h1
    rw [hd]
    simp
  have hseq : ∀ (calls : List (RulePtr × Option Ruleset)) (s s2 : SavedGame),
      p ∈ s.discovered → addFinishedResearchSeq fuel2 s calls = some s2 →
        p ∈ s2.discovered := by
    intro calls
    induction calls with
    | nil =>
      intro s s2 hs h
      simp only [addFinishedResearchSeq, Option.some.injEq] at h
      exact h ▸ hs
    | cons call calls ih =>
      intro s s2 hs h
      simp only [addFinishedResearchSeq, Option.bind_eq_some] at h
      obtain ⟨s1, hcall, hrest⟩ := h
      obtain ⟨_, rest, hd, _⟩ := addFinishedResearch_grows fuel2 s call.1 call.2 s1 hcall
      exact ih s1 s2 (by rw [hd]; exact List.mem_append_left _ hs) hrest
  intro ruleset base hin
  rw [mem_getAvailableResearchProjects] at hin
  exact hin.2.2.1 (hseq calls sg1 sg2 hmem1 h2)

/-- Witness of C4: `A` is recorded with the ruleset (which cascades to `B`),
then `C` is recorded without a ruleset; `A` is not offered afterwards. -/
theorem eligibility_monotone_witness :
    1 ∉ SavedGame.getAvailableResearchProjects { discovered := [1, 2, 3], bases := [emptyBase] }
      [] scenarioRuleset emptyBase :=
  eligibility_monotone 3 1 { discovered := [], bases := [emptyBase] }
    { discovered := [1, 2], bases := [emptyBase] }
    { discovered := [1, 2, 3], bases := [emptyBase] } 1 (some scenarioRuleset) [(3, none)]
    rfl rfl scenarioRuleset emptyBase

/-! ## Claims on the cascade -/

/-- C5, evaluated at the failing input: in the unlock-edge catalog `R` is
discovered and lists `P` among its unlocked rules, `P` is returned by
`getAvailableResearchProjects` at the base, yet
`getDependableResearchBasic(R, base)` returns the empty list: it tests whether
`R` is in the unlocked list of `P`, not whether `P` is in the unlocked list
of `R`. -/
theorem getDependableResearchBasic_misses_unlocked :
    1 ∈ bypassGame.discovered ∧ 2 ∈ (bypassRuleset.deref 1).unlocked
      ∧ 2 ∈ bypassGame.getAvailableResearchProjects [] bypassRuleset emptyBase
      ∧ ∀ fuel, bypassGame.getDependableResearchBasic (fuel + 1) [] 1 bypassRuleset emptyBase
          = some [] := by
  refine ⟨by decide, by decide, by decide, ?_⟩
  intro fuel
  rfl

/-- C6: the scenario `A` (cost 5), `B` (cost 0, needs `A`), `C` (cost 3, needs
`B`), nothing discovered, one base with no research in progress (whatever its
productions and inventory).  `addFinishedResearch(A, ruleset)` returns with
`B` in the discovered list, and `getDependableResearch(A)` for that base then
returns exactly `C`. -/
theorem scenario_cascade (fuel : Nat) (productions : List Production) (items : ItemContainer) :
    ∃ sg, addFinishedResearch (fuel + 3)
          { discovered := [],
            bases := [{ research := [], productions := productions, items := items }] }
          1 (some scenarioRuleset) = some sg
      ∧ 2 ∈ sg.discovered
      ∧ sg.getDependableResearch (fuel + 1) [] 1 scenarioRuleset
          { research := [], productions := productions, items := items } = some [3] :=
  ⟨{ discovered := [1, 2],
     bases := [{ research := [], productions := productions, items := items }] },
    rfl, by simp, rfl⟩

theorem treeGame_possibleProjects :
    SavedGame.getAvailableResearchProjects { discovered := [1], bases := [emptyBase] } []
      treeRuleset emptyBase = [2, 3] := by
  decide

theorem treeGame_basic_diverges (fuel : Nat) :
    ∀ dependables : List RulePtr,
      SavedGame.getDependableResearchBasic { discovered := [1], bases := [emptyBase] } fuel
          dependables 2 treeRuleset emptyBase = none
        ∧ SavedGame.getDependableResearchBasic { discovered := [1], bases := [emptyBase] } fuel
          dependables 3 treeRuleset emptyBase = none := by
  induction fuel with
  | zero => intro dependables; exact ⟨rfl, rfl⟩
  | succ fuel ih =>
    intro dependables
    have hd : treeRuleset.deref = treeDeref := rfl
    constructor
    · unfold getDependableResearchBasic
      simp only [treeGame_possibleProjects, List.foldlM_cons, List.foldlM_nil]
      simp [hd, treeDeref, (ih (dependables ++ [3])).2]
    · unfold getDependableResearchBasic
      simp only [treeGame_possibleProjects, List.foldlM_cons, List.foldlM_nil]
      simp [hd, treeDeref, (ih (dependables ++ [2])).1]

/-- C7, evaluated at the failing input: the catalog `D`, `X`, `Y` has no cycle
(`D` and `X` each unlock `Y`, and `Y` depends on `D` and `X`), yet with one
base and nothing discovered `addFinishedResearch(D, ruleset)` does not return
within any recursion budget: `getDependableResearchBasic` goes from `Y` to `X`
because `Y` is in the unlocked list of `X`, and from `X` back to `Y` because
`X` is a dependency of `Y`. -/
theorem addFinishedResearch_diverges_on_acyclic_catalog :
    Acyclic treeRuleset
      ∧ ∀ fuel, addFinishedResearch fuel freshGame 1 (some treeRuleset) = none := by
  constructor
  · refine ⟨fun p => if p = 3 then 1 else 0, ?_⟩
    decide
  · intro fuel
    cases fuel with
    | zero => rfl
    | succ fuel =>
      have hbasic : SavedGame.getDependableResearchBasic
          { discovered := [1], bases := [emptyBase] } fuel [] 1 treeRuleset emptyBase = none := by
        cases fuel with
        | zero => rfl
        | succ fuel =>
          have hd : treeRuleset.deref = treeDeref := rfl
          unfold getDependableResearchBasic
          simp only [treeGame_possibleProjects, List.foldlM_cons, List.foldlM_nil]
          simp [hd, treeDeref, (treeGame_basic_diverges fuel [3]).2]
      unfold addFinishedResearch
      simp only [freshGame, List.nil_append, List.foldlM_cons, List.foldlM_nil]
      simp [hbasic]

theorem getDependableResearchBasic_acc (sg : SavedGame) (ruleset : Ruleset) (base : Base)
    (fuel : Nat) (acc0 acc : List RulePtr) (research : RulePtr) :
    sg.getDependableResearchBasic fuel (acc0 ++ acc) research ruleset base
      = (sg.getDependableResearchBasic fuel acc research ruleset base).map (acc0 ++ ·) := by
  induction fuel generalizing acc0 acc research with
  | zero => simp [getDependableResearchBasic]
  | succ fuel ih =>
    unfold getDependableResearchBasic
    simp only
    generalize sg.getAvailableResearchProjects [] ruleset base = l
    induction l generalizing acc with
    | nil => simp
    | cons x l ihl =>
      simp only [List.foldlM_cons, bind]
      by_cases hm : ((ruleset.deref x).dependencys.contains research
          || (ruleset.deref x).unlocked.contains research) = true
      · by_cases hc : ((ruleset.deref x).cost == 0) = true
        · simp only [hm, hc, if_true]
          rw [List.append_assoc, ih acc0 (acc ++ [x]) x]
          cases sg.getDependableResearchBasic fuel (acc ++ [x]) x ruleset base with
          | none => simp
          | some a => simpa using ihl a
        · simp only [hm, hc, if_true]
          simpa using ihl (acc ++ [x])
      · simp only [hm]
        simpa using ihl acc

theorem getDependableResearchBasic_nil_acc (sg : SavedGame) (ruleset : Ruleset) (base : Base)
    (fuel : Nat) (acc : List RulePtr) (research : RulePtr) :
    sg.getDependableResearchBasic fuel acc research ruleset base
      = (sg.getDependableResearchBasic fuel [] research ruleset base).map (acc ++ ·) := by
  simpa using getDependableResearchBasic_acc sg ruleset base fuel acc [] research

theorem dependableLoop_eq (sg : SavedGame) (ruleset : Ruleset) (base : Base) (fuel : Nat)
    (research : RulePtr) (ds : List RulePtr) (acc : List RulePtr) :
    ds.foldlM
        (fun dependables iter =>
          if (ruleset.deref iter).cost == 0 then
            if (ruleset.deref iter).dependencys.contains research then
              sg.getDependableResearchBasic fuel dependables iter ruleset base
            else some dependables
          else some dependables)
        acc
      = (sg.concatDependableBasic fuel ruleset base
          (ds.filter fun z =>
            decide ((ruleset.deref z).cost = 0)
              && decide (research ∈ (ruleset.deref z).dependencys))).map (acc ++ ·) := by
  induction ds generalizing acc with
  | nil => simp [concatDependableBasic]
  | cons z ds ih =>
    rw [List.foldlM_cons, List.filter_cons]
    by_cases hc : (ruleset.deref z).cost = 0
    · by_cases hd : research ∈ (ruleset.deref z).dependencys
      · have hcb : ((ruleset.deref z).cost == 0) = true := by simpa using hc
        have hdb : (ruleset.deref z).dependencys.contains research = true := by simpa using hd
        have hfc : (decide ((ruleset.deref z).cost = 0)
            && decide (research ∈ (ruleset.deref z).dependencys)) = true := by simp [hc, hd]
        simp only [hcb, hdb, hfc, if_true, concatDependableBasic, bind]
        rw [getDependableResearchBasic_nil_acc sg ruleset base fuel acc z]
        cases sg.getDependableResearchBasic fuel [] z ruleset base with
        | none => rfl
        | some a =>
          simp only [Option.map_some', Option.some_bind]
          rw [ih (acc ++ a)]
          cases sg.concatDependableBasic fuel ruleset base
              (ds.filter fun z =>
                decide ((ruleset.deref z).cost = 0)
                  && decide (research ∈ (ruleset.deref z).dependencys)) with
          | none => rfl
          | some b => simp
      · have hdb : (ruleset.deref z).dependencys.contains research = false := by simpa using hd
        have hfc : (decide ((ruleset.deref z).cost = 0)
            && decide (research ∈ (ruleset.deref z).dependencys)) = false := by simp [hd]
        simp only [hdb, hfc, Bool.false_eq_true, if_false, ite_self, bind, Option.some_bind]
        exact ih acc
    · have hcb : ((ruleset.deref z).cost == 0) = false := by simpa using hc
      have hfc : (decide ((ruleset.deref z).cost = 0)
          && decide (research ∈ (ruleset.deref z).dependencys)) = false := by simp [hc]
      simp only [hcb, hfc, Bool.false_eq_true, if_false, bind, Option.some_bind]
      exact ih acc

/-- C9: `getDependableResearch(research, base)` returns its `dependables`
argument extended by exactly the concatenation of the result of
`getDependableResearchBasic(research, base)` and, for every discovered rule
`z` in order that has cost 0 and `research` among its dependencies, the result
of `getDependableResearchBasic(z, base)`; the other discovered rules
contribute nothing.  (Both sides are `none` together when a call exceeds the
recursion budget.) -/
theorem getDependableResearch_eq_spec (sg : SavedGame) (fuel : Nat) (dependables : List RulePtr)
    (research : RulePtr) (ruleset : Ruleset) (base : Base) :
    sg.getDependableResearch fuel dependables research ruleset base
      = (sg.dependableResearchSpec fuel research ruleset base).map (dependables ++ ·) := by
  unfold getDependableResearch dependableResearchSpec
  simp only [dependableLoop_eq, concatDependableBasic]
  rw [getDependableResearchBasic_nil_acc sg ruleset base fuel dependables research]
  cases sg.getDependableResearchBasic fuel [] research ruleset base with
  | none => rfl
  | some a =>
    simp only [Option.map_some', Option.some_bind]
    cases sg.concatDependableBasic fuel ruleset base
        (sg.discovered.filter fun z =>
          decide ((ruleset.deref z).cost = 0)
            && decide (research ∈ (ruleset.deref z).dependencys)) with
    | none => simp
    | some b => simp

/-! ## The production ledger -/

theorem getAvailableProductions_eq (sg : SavedGame) (productions : List ManufPtr)
    (ruleset : Ruleset) (base : Base) :
    sg.getAvailableProductions productions ruleset base
      = productions ++ (ruleset.manufactureProjects.filter fun iter =>
          decide (ruleset.getResearchProject iter.1 ∈ sg.discovered)
            && decide (∀ pr ∈ base.productions, pr.ruleManufactureInfo ≠ iter.2)).map
          Prod.snd := by
  unfold getAvailableProductions getDiscoveredResearchs
  generalize ruleset.manufactureProjects = l
  induction l generalizing productions with
  | nil => simp
  | cons e l ih =>
    rw [List.foldl_cons, List.filter_cons]
    by_cases h1 : ruleset.getResearchProject e.1 ∈ sg.discovered
    · have h1b : sg.discovered.contains (ruleset.getResearchProject e.1) = true := by
        simpa using h1
      by_cases h2 : ∀ pr ∈ base.productions, pr.ruleManufactureInfo ≠ e.2
      · have h2b : base.productions.any (equalProduction e.2) = false := by
          rw [List.any_eq_false]
          intro pr hpr
          simpa [equalProduction] using h2 pr hpr
        have hf : (decide (ruleset.getResearchProject e.1 ∈ sg.discovered)
            && decide (∀ pr ∈ base.productions, pr.ruleManufactureInfo ≠ e.2)) = true := by
          simp only [h1, decide_True, Bool.true_and, decide_eq_true_eq]
          exact h2
        simp only [h1b, h2b, hf, Bool.not_true, Bool.false_eq_true, if_false, if_true]
        rw [ih]
        simp
      · have h2b : base.productions.any (equalProduction e.2) = true := by
          push_neg at h2
          obtain ⟨pr, hpr, he⟩ := h2
          rw [List.any_eq_true]
          exact ⟨pr, hpr, by simp [equalProduction, he]⟩
        have hf : (decide (ruleset.getResearchProject e.1 ∈ sg.discovered)
            && decide (∀ pr ∈ base.productions, pr.ruleManufactureInfo ≠ e.2)) = false := by
          simp only [h1, decide_True, Bool.true_and, decide_eq_false_iff_not]
          exact h2
        simp only [h1b, h2b, hf, Bool.not_true, Bool.false_eq_true, if_false, if_true]
        exact ih productions
    · have h1b : sg.discovered.contains (ruleset.getResearchProject e.1) = false := by
        simpa using h1
      have hf : (decide (ruleset.getResearchProject e.1 ∈ sg.discovered)
          && decide (∀ pr ∈ base.productions, pr.ruleManufactureInfo ≠ e.2)) = false := by
        simp [h1]
      simp only [h1b, hf, Bool.not_false, Bool.false_eq_true, if_false, if_true]
      exact ih productions

/-- C10: `getAvailableProductions` extends `productions` by a list `appended`;
a manufacture rule `m` is in `appended` if and only if it is stored in the
catalog under an identifier whose research project (the catalog lookup of that
identifier) is in the discovered list, and no production in progress at the
base has rule `m`.  The result is the same for any two bases with the same
productions in progress and any two rulesets with the same two catalogs,
whatever the inventories, the researches in progress and the rule objects
(hence the costs) are. -/
theorem getAvailableProductions_appends_iff (sg : SavedGame) (productions : List ManufPtr)
    (ruleset : Ruleset) (base : Base) :
    (∃ appended, sg.getAvailableProductions productions ruleset base = productions ++ appended
      ∧ ∀ m, m ∈ appended ↔
          ∃ id, (id, m) ∈ ruleset.manufactureProjects
            ∧ ruleset.getResearchProject id ∈ sg.discovered
            ∧ ∀ pr ∈ base.productions, pr.ruleManufactureInfo ≠ m)
      ∧ ∀ (ruleset2 : Ruleset) (base2 : Base),
          ruleset2.manufactureProjects = ruleset.manufactureProjects →
          ruleset2.researchProjects = ruleset.researchProjects →
          base2.productions = base.productions →
          sg.getAvailableProductions productions ruleset2 base2
            = sg.getAvailableProductions productions ruleset base := by
  constructor
  · refine ⟨_, getAvailableProductions_eq sg productions ruleset base, ?_⟩
    intro m
    simp only [List.mem_map, List.mem_filter, Bool.and_eq_true, decide_eq_true_eq]
    constructor
    · rintro ⟨⟨id, m2⟩, ⟨hmem, hdisc, hprod⟩, rfl⟩
      exact ⟨id, hmem, hdisc, hprod⟩
    · rintro ⟨id, hmem, hdisc, hprod⟩
      exact ⟨(id, m), ⟨hmem, hdisc, hprod⟩, rfl⟩
  · intro ruleset2 base2 hm hr hb
    rw [getAvailableProductions_eq, getAvailableProductions_eq, hm, hb]
    have hlook : ∀ id, ruleset2.getResearchProject id = ruleset.getResearchProject id := by
      intro id
      simp [Ruleset.getResearchProject, hr]
    simp only [hlook]

/-! ## The persistence codec: which exception is thrown -/

theorem onlyYaml_orThrow {α : Type} (sg : SavedGame) (o : Option α) :
    OnlyYaml (orThrow sg o) := by
  intro t s h
  cases o with
  | none =>
    simp only [orThrow, Except.error.injEq, Prod.mk.injEq] at h
    exact h.1.symm
  | some a => simp [orThrow] at h

theorem onlyYaml_pure {α : Type} (a : α) :
    OnlyYaml (pure a : Except (Thrown × SavedGame) α) := by
  intro t s h
  simp [pure, Except.pure] at h

theorem onlyYaml_bind {α β : Type} (x : Except (Thrown × SavedGame) α)
    (f : α → Except (Thrown × SavedGame) β) (hx : OnlyYaml x) (hf : ∀ a, OnlyYaml (f a)) :
    OnlyYaml (x >>= f) := by
  intro t s h
  cases x with
  | error e =>
    simp only [bind, Except.bind, Except.error.injEq] at h
    exact hx t s (by rw [h])
  | ok a => exact hf a t s h

theorem onlyYaml_foldlM (body : SavedGame → YamlNode → Outcome)
    (hbody : ∀ s i, OnlyYaml (body s i)) (items : List YamlNode) (sg : SavedGame) :
    OnlyYaml (items.foldlM body sg) := by
  induction items generalizing sg with
  | nil => exact onlyYaml_pure sg
  | cons i items ih =>
    rw [List.foldlM_cons]
    exact onlyYaml_bind _ _ (hbody sg i) ih

theorem onlyYaml_loadEach (doc : YamlNode) (key : String)
    (body : SavedGame → YamlNode → Outcome) (hbody : ∀ s i, OnlyYaml (body s i))
    (sg : SavedGame) : OnlyYaml (loadEach doc key body sg) := by
  unfold loadEach
  refine onlyYaml_bind _ _ (onlyYaml_orThrow _ _) fun node => ?_
  refine onlyYaml_bind _ _ (onlyYaml_orThrow _ _) fun items => ?_
  exact onlyYaml_foldlM body hbody items sg

theorem onlyYaml_readInt (doc : YamlNode) (key : String) (sg : SavedGame) :
    OnlyYaml (readInt doc key sg) := by
  unfold readInt
  exact onlyYaml_bind _ _ (onlyYaml_orThrow _ _) fun node => onlyYaml_orThrow _ _

theorem onlyYaml_loadCountry (codecs : Codecs) (rule : Ruleset) (sg : SavedGame)
    (i : YamlNode) : OnlyYaml (loadCountry codecs rule sg i) := by
  unfold loadCountry
  refine onlyYaml_bind _ _ (onlyYaml_orThrow _ _) fun type => ?_
  exact onlyYaml_bind _ _ (onlyYaml_orThrow _ _) fun c => onlyYaml_pure _

theorem onlyYaml_loadRegion (codecs : Codecs) (rule : Ruleset) (sg : SavedGame)
    (i : YamlNode) : OnlyYaml (loadRegion codecs rule sg i) := by
  unfold loadRegion
  refine onlyYaml_bind _ _ (onlyYaml_orThrow _ _) fun type => ?_
  exact onlyYaml_bind _ _ (onlyYaml_orThrow _ _) fun r => onlyYaml_pure _

theorem onlyYaml_loadUfo (codecs : Codecs) (rule : Ruleset) (sg : SavedGame)
    (i : YamlNode) : OnlyYaml (loadUfo codecs rule sg i) := by
  unfold loadUfo
  refine onlyYaml_bind _ _ (onlyYaml_orThrow _ _) fun type => ?_
  exact onlyYaml_bind _ _ (onlyYaml_orThrow _ _) fun u => onlyYaml_pure _

theorem onlyYaml_loadWaypoint (codecs : Codecs) (sg : SavedGame) (i : YamlNode) :
    OnlyYaml (loadWaypoint codecs sg i) := by
  unfold loadWaypoint
  exact onlyYaml_bind _ _ (onlyYaml_orThrow _ _) fun w => onlyYaml_pure _

theorem onlyYaml_loadBase (codecs : Codecs) (rule : Ruleset) (sg : SavedGame)
    (i : YamlNode) : OnlyYaml (loadBase codecs rule sg i) := by
  unfold loadBase
  exact onlyYaml_bind _ _ (onlyYaml_orThrow _ _) fun b => onlyYaml_pure _

theorem onlyYaml_loadDiscovered (rule : Ruleset) (sg : SavedGame) (it : YamlNode) :
    OnlyYaml (loadDiscovered rule sg it) := by
  unfold loadDiscovered
  exact onlyYaml_bind _ _ (onlyYaml_orThrow _ _) fun research => onlyYaml_pure _

theorem onlyYaml_loadBattleGame (codecs : Codecs) (rule : Ruleset) (doc : YamlNode)
    (sg : SavedGame) : OnlyYaml (loadBattleGame codecs rule doc sg) := by
  unfold loadBattleGame
  refine onlyYaml_bind _ _ (onlyYaml_orThrow _ _) fun found => ?_
  cases found with
  | none => exact onlyYaml_pure _
  | some pName =>
    intro t s h
    simp only at h
    split at h
    · simp [pure, Except.pure] at h
    · simp only [throw, throwThe, MonadExceptOf.throw, Except.error.injEq, Prod.mk.injEq] at h
      exact h.1.symm

theorem onlyYaml_loadUfopaedia (codecs : Codecs) (rule : Ruleset) (doc : YamlNode)
    (sg : SavedGame) : OnlyYaml (loadUfopaedia codecs rule doc sg) := by
  unfold loadUfopaedia
  refine onlyYaml_bind _ _ (onlyYaml_orThrow _ _) fun found => ?_
  cases found with
  | none => exact onlyYaml_pure _
  | some pName =>
    intro t s h
    simp only at h
    split at h
    · simp [pure, Except.pure] at h
    · simp only [throw, throwThe, MonadExceptOf.throw, Except.error.injEq, Prod.mk.injEq] at h
      exact h.1.symm

theorem onlyYaml_loadFull (codecs : Codecs) (rule : Ruleset) (doc : YamlNode)
    (sg : SavedGame) : OnlyYaml (loadFull codecs rule doc sg) := by
  unfold loadFull
  refine onlyYaml_bind _ _ (onlyYaml_readInt _ _ _) fun a => ?_
  refine onlyYaml_bind _ _ (onlyYaml_readInt _ _ _) fun funds => ?_
  refine onlyYaml_bind _ _
    (onlyYaml_loadEach _ _ _ (onlyYaml_loadCountry codecs rule) _) fun sg => ?_
  refine onlyYaml_bind _ _
    (onlyYaml_loadEach _ _ _ (onlyYaml_loadRegion codecs rule) _) fun sg => ?_
  refine onlyYaml_bind _ _
    (onlyYaml_loadEach _ _ _ (onlyYaml_loadUfo codecs rule) _) fun sg => ?_
  refine onlyYaml_bind _ _ (onlyYaml_orThrow _ _) fun craftId => ?_
  refine onlyYaml_bind _ _
    (onlyYaml_loadEach _ _ _ (onlyYaml_loadWaypoint codecs) _) fun sg => ?_
  refine onlyYaml_bind _ _ (onlyYaml_readInt _ _ _) fun ufoId => ?_
  refine onlyYaml_bind _ _ (onlyYaml_readInt _ _ _) fun waypointId => ?_
  refine onlyYaml_bind _ _ (onlyYaml_readInt _ _ _) fun soldierId => ?_
  refine onlyYaml_bind _ _
    (onlyYaml_loadEach _ _ _ (onlyYaml_loadBase codecs rule) _) fun sg => ?_
  refine onlyYaml_bind _ _
    (onlyYaml_loadEach _ _ _ (onlyYaml_loadDiscovered rule) _) fun sg => ?_
  refine onlyYaml_bind _ _ (onlyYaml_loadBattleGame _ _ _ _) fun sg => ?_
  exact onlyYaml_loadUfopaedia _ _ _ _

theorem onlyYaml_loadTime (codecs : Codecs) (doc : YamlNode) (sg : SavedGame) :
    OnlyYaml (loadTime codecs doc sg) := by
  unfold loadTime
  refine onlyYaml_bind _ _ (onlyYaml_orThrow _ _) fun timeNode => ?_
  intro t s h
  split at h
  · simp [pure, Except.pure] at h
  · simp only [throw, throwThe, MonadExceptOf.throw, Except.error.injEq, Prod.mk.injEq] at h
    exact h.1.symm

theorem onlyYaml_loadBody (codecs : Codecs) (rule : Ruleset) (doc : YamlNode)
    (stream : List ParsedDoc) (sg : SavedGame) :
    OnlyYaml (loadBody codecs rule doc stream sg) := by
  unfold loadBody
  refine onlyYaml_bind _ _ (onlyYaml_loadTime _ _ _) fun sg1 => ?_
  refine onlyYaml_bind _ _ (onlyYaml_orThrow _ _) fun next => ?_
  exact onlyYaml_loadFull _ _ _ _

theorem load_of_version (sg : SavedGame) (codecs : Codecs) (version : String)
    (stream : List ParsedDoc) (doc : YamlNode) (rest : List ParsedDoc) (v : String)
    (rule : Ruleset) (hdoc : getNextDocument stream = some (doc, rest))
    (hv : (doc.getValue "version").bind YamlNode.asString = some v) :
    load sg codecs version (some stream) rule
      = if v ≠ version then Except.error (Thrown.exception "Version mismatch", sg)
        else loadBody codecs rule doc rest sg := by
  simp only [load, hdoc, hv, orThrow, bind, Except.bind]
  rfl

theorem load_exception_cases (sg : SavedGame) (codecs : Codecs) (version : String)
    (file : SaveFile) (rule : Ruleset) (what : String) (s : SavedGame)
    (h : load sg codecs version file rule = Except.error (Thrown.exception what, s)) :
    s = sg ∧
      ((file = none ∧ what = "Failed to load savegame")
        ∨ ∃ stream doc rest v, file = some stream ∧ getNextDocument stream = some (doc, rest)
            ∧ (doc.getValue "version").bind YamlNode.asString = some v ∧ v ≠ version
            ∧ what = "Version mismatch") := by
  cases file with
  | none =>
    simp only [load, throw, throwThe, MonadExceptOf.throw, Except.error.injEq, Prod.mk.injEq,
      Thrown.exception.injEq] at h
    exact ⟨h.2.symm, Or.inl ⟨rfl, h.1.symm⟩⟩
  | some stream =>
    cases hdoc : getNextDocument stream with
    | none => simp [load, hdoc, orThrow, bind, Except.bind] at h
    | some first =>
      obtain ⟨doc, rest⟩ := first
      cases hv : (doc.getValue "version").bind YamlNode.asString with
      | none => simp [load, hdoc, hv, orThrow, bind, Except.bind] at h
      | some v =>
        rw [load_of_version sg codecs version stream doc rest v rule hdoc hv] at h
        by_cases hne : v = version
        · exfalso
          rw [if_neg (by simpa using hne)] at h
          exact Thrown.noConfusion (onlyYaml_loadBody codecs rule doc rest sg _ s h)
        · rw [if_pos hne] at h
          simp only [Except.error.injEq, Prod.mk.injEq, Thrown.exception.injEq] at h
          exact ⟨h.2.symm, Or.inr ⟨stream, doc, rest, v, rfl, hdoc, hv, hne, h.1.symm⟩⟩

/-! ## The persistence codec: what a successful load leaves -/

theorem except_bind_ok {ε α β : Type} (x : Except ε α) (f : α → Except ε β) (b : β)
    (h : (x >>= f) = Except.ok b) : ∃ a, x = Except.ok a ∧ f a = Except.ok b := by
  cases x with
  | error e => simp [bind, Except.bind] at h
  | ok a => exact ⟨a, rfl, h⟩

theorem orThrow_ok {α : Type} (sg : SavedGame) (o : Option α) (a : α)
    (h : orThrow sg o = Except.ok a) : o = some a := by
  cases o with
  | none => simp [orThrow] at h
  | some a2 =>
    simp only [orThrow, Except.ok.injEq] at h
    rw [h]

theorem foldlM_except_invariant {ε α β : Type} (f : β → α → Except ε β) (Inv : β → Prop)
    (hstep : ∀ b a b', Inv b → f b a = Except.ok b' → Inv b') :
    ∀ (l : List α) (b b' : β), Inv b → l.foldlM f b = Except.ok b' → Inv b' := by
  intro l
  induction l with
  | nil =>
    intro b b' hb h
    simp only [List.foldlM_nil, pure, Except.pure, Except.ok.injEq] at h
    exact h ▸ hb
  | cons a l ih =>
    intro b b' hb h
    rw [List.foldlM_cons] at h
    obtain ⟨b1, h1, h2⟩ := except_bind_ok _ _ _ h
    exact ih b1 b' (hstep b a b1 hb h1) h2

theorem loadEach_keeps_discovered (doc : YamlNode) (key : String)
    (body : SavedGame → YamlNode → Outcome)
    (hbody : ∀ s i s', body s i = Except.ok s' → s'.discovered = s.discovered)
    (sg s : SavedGame) (h : loadEach doc key body sg = Except.ok s) :
    s.discovered = sg.discovered := by
  unfold loadEach at h
  obtain ⟨node, _, h⟩ := except_bind_ok _ _ _ h
  obtain ⟨items, _, h⟩ := except_bind_ok _ _ _ h
  exact foldlM_except_invariant body (fun x => x.discovered = sg.discovered)
    (fun b a b' hb hstep => (hbody b a b' hstep).trans hb) items sg s rfl h

theorem loadCountry_keeps_discovered (codecs : Codecs) (rule : Ruleset) (s : SavedGame)
    (i : YamlNode) (s' : SavedGame) (h : loadCountry codecs rule s i = Except.ok s') :
    s'.discovered = s.discovered := by
  unfold loadCountry at h
  obtain ⟨type, _, h⟩ := except_bind_ok _ _ _ h
  obtain ⟨c, _, h⟩ := except_bind_ok _ _ _ h
  simp only [pure, Except.pure, Except.ok.injEq] at h
  rw [← h]

theorem loadRegion_keeps_discovered (codecs : Codecs) (rule : Ruleset) (s : SavedGame)
    (i : YamlNode) (s' : SavedGame) (h : loadRegion codecs rule s i = Except.ok s') :
    s'.discovered = s.discovered := by
  unfold loadRegion at h
  obtain ⟨type, _, h⟩ := except_bind_ok _ _ _ h
  obtain ⟨r, _, h⟩ := except_bind_ok _ _ _ h
  simp only [pure, Except.pure, Except.ok.injEq] at h
  rw [← h]

theorem loadUfo_keeps_discovered (codecs : Codecs) (rule : Ruleset) (s : SavedGame)
    (i : YamlNode) (s' : SavedGame) (h : loadUfo codecs rule s i = Except.ok s') :
    s'.discovered = s.discovered := by
  unfold loadUfo at h
  obtain ⟨type, _, h⟩ := except_bind_ok _ _ _ h
  obtain ⟨u, _, h⟩ := except_bind_ok _ _ _ h
  simp only [pure, Except.pure, Except.ok.injEq] at h
  rw [← h]

theorem loadWaypoint_keeps_discovered (codecs : Codecs) (s : SavedGame)
    (i : YamlNode) (s' : SavedGame) (h : loadWaypoint codecs s i = Except.ok s') :
    s'.discovered = s.discovered := by
  unfold loadWaypoint at h
  obtain ⟨w, _, h⟩ := except_bind_ok _ _ _ h
  simp only [pure, Except.pure, Except.ok.injEq] at h
  rw [← h]

theorem loadBase_keeps_discovered (codecs : Codecs) (rule : Ruleset) (s : SavedGame)
    (i : YamlNode) (s' : SavedGame) (h : loadBase codecs rule s i = Except.ok s') :
    s'.discovered = s.discovered := by
  unfold loadBase at h
  obtain ⟨b, _, h⟩ := except_bind_ok _ _ _ h
  simp only [pure, Except.pure, Except.ok.injEq] at h
  rw [← h]

theorem loadBattleGame_keeps_discovered (codecs : Codecs) (rule : Ruleset) (doc : YamlNode)
    (s s' : SavedGame) (h : loadBattleGame codecs rule doc s = Except.ok s') :
    s'.discovered = s.discovered := by
  unfold loadBattleGame at h
  obtain ⟨found, _, h⟩ := except_bind_ok _ _ _ h
  cases found with
  | none =>
    simp only [pure, Except.pure, Except.ok.injEq] at h
    rw [← h]
  | some pName =>
    simp only at h
    split at h
    · simp only [pure, Except.pure, Except.ok.injEq] at h
      rw [← h]
    · simp [throw, throwThe, MonadExceptOf.throw] at h

theorem loadUfopaedia_keeps_discovered (codecs : Codecs) (rule : Ruleset) (doc : YamlNode)
    (s s' : SavedGame) (h : loadUfopaedia codecs rule doc s = Except.ok s') :
    s'.discovered = s.discovered := by
  unfold loadUfopaedia at h
  obtain ⟨found, _, h⟩ := except_bind_ok _ _ _ h
  cases found with
  | none =>
    simp only [pure, Except.pure, Except.ok.injEq] at h
    rw [← h]
  | some pName =>
    simp only at h
    split at h
    · simp only [pure, Except.pure, Except.ok.injEq] at h
      rw [← h]
    · simp [throw, throwThe, MonadExceptOf.throw] at h

theorem loadTime_keeps_discovered (codecs : Codecs) (doc : YamlNode)
    (s s' : SavedGame) (h : loadTime codecs doc s = Except.ok s') :
    s'.discovered = s.discovered := by
  unfold loadTime at h
  obtain ⟨timeNode, _, h⟩ := except_bind_ok _ _ _ h
  split at h
  · simp only [pure, Except.pure, Except.ok.injEq] at h
    rw [← h]
  · simp [throw, throwThe, MonadExceptOf.throw] at h

theorem loadDiscovered_loop (rule : Ruleset) (items : List YamlNode) (sg s : SavedGame)
    (h : items.foldlM (loadDiscovered rule) sg = Except.ok s) :
    ∃ ids : List String, items.map YamlNode.asString = ids.map some
      ∧ s.discovered = sg.discovered ++ ids.map rule.getResearchProject := by
  induction items generalizing sg with
  | nil =>
    simp only [List.foldlM_nil, pure, Except.pure, Except.ok.injEq] at h
    exact ⟨[], rfl, by simp [h]⟩
  | cons it items ih =>
    rw [List.foldlM_cons] at h
    obtain ⟨s1, h1, h2⟩ := except_bind_ok _ _ _ h
    unfold loadDiscovered at h1
    obtain ⟨research, hres, h1⟩ := except_bind_ok _ _ _ h1
    have hres2 := orThrow_ok _ _ _ hres
    simp only [pure, Except.pure, Except.ok.injEq] at h1
    obtain ⟨ids, hids, hd⟩ := ih s1 h2
    refine ⟨research :: ids, by simp [hres2, hids], ?_⟩
    rw [hd, ← h1]
    simp

theorem loadFull_discovered (codecs : Codecs) (rule : Ruleset) (doc : YamlNode)
    (sg s : SavedGame) (h : loadFull codecs rule doc sg = Except.ok s) :
    ∃ node items, ∃ ids : List String, doc.getValue "discovered" = some node
      ∧ node.items = some items ∧ items.map YamlNode.asString = ids.map some
      ∧ s.discovered = sg.discovered ++ ids.map rule.getResearchProject := by
  unfold loadFull at h
  obtain ⟨a, _, h⟩ := except_bind_ok _ _ _ h
  obtain ⟨funds, _, h⟩ := except_bind_ok _ _ _ h
  obtain ⟨s1, h1, h⟩ := except_bind_ok _ _ _ h
  obtain ⟨s2, h2, h⟩ := except_bind_ok _ _ _ h
  obtain ⟨s3, h3, h⟩ := except_bind_ok _ _ _ h
  obtain ⟨craftId, _, h⟩ := except_bind_ok _ _ _ h
  obtain ⟨s4, h4, h⟩ := except_bind_ok _ _ _ h
  obtain ⟨ufoId, _, h⟩ := except_bind_ok _ _ _ h
  obtain ⟨waypointId, _, h⟩ := except_bind_ok _ _ _ h
  obtain ⟨soldierId, _, h⟩ := except_bind_ok _ _ _ h
  obtain ⟨s5, h5, h⟩ := except_bind_ok _ _ _ h
  obtain ⟨s6, h6, h⟩ := except_bind_ok _ _ _ h
  obtain ⟨s7, h7, h⟩ := except_bind_ok _ _ _ h
  have e1 := loadEach_keeps_discovered _ _ _ (loadCountry_keeps_discovered codecs rule) _ _ h1
  have e2 := loadEach_keeps_discovered _ _ _ (loadRegion_keeps_discovered codecs rule) _ _ h2
  have e3 := loadEach_keeps_discovered _ _ _ (loadUfo_keeps_discovered codecs rule) _ _ h3
  have e4 := loadEach_keeps_discovered _ _ _ (loadWaypoint_keeps_discovered codecs) _ _ h4
  have e5 := loadEach_keeps_discovered _ _ _ (loadBase_keeps_discovered codecs rule) _ _ h5
  have e7 := loadBattleGame_keeps_discovered _ _ _ _ _ h7
  have e8 := loadUfopaedia_keeps_discovered _ _ _ _ _ h
  unfold loadEach at h6
  obtain ⟨node, hnode, h6⟩ := except_bind_ok _ _ _ h6
  obtain ⟨items, hitems, h6⟩ := except_bind_ok _ _ _ h6
  obtain ⟨ids, hids, hd⟩ := loadDiscovered_loop rule items _ _ h6
  refine ⟨node, items, ids, orThrow_ok _ _ _ hnode, orThrow_ok _ _ _ hitems, hids, ?_⟩
  rw [e8, e7, hd, e5, e4, e3, e2, e1]

/-! ## The persistence codec: loading what was saved -/

theorem saveFull_eq (sg : SavedGame) (codecs : Codecs) (deref : RulePtr → RuleResearchProject) :
    sg.saveFull codecs deref
      = [("difficulty", YamlNode.int sg.difficulty), ("funds", YamlNode.int sg.funds),
          ("countries", YamlNode.seq (sg.countries.map codecs.saveCountry)),
          ("regions", YamlNode.seq (sg.regions.map codecs.saveRegion)),
          ("bases", YamlNode.seq (sg.bases.map codecs.saveBase)),
          ("ufos", YamlNode.seq (sg.ufos.map codecs.saveUfo)),
          ("craftId", YamlNode.map (sg.craftId.map fun entry => (entry.1, YamlNode.int entry.2))),
          ("waypoints", YamlNode.seq (sg.waypoints.map codecs.saveWaypoint)),
          ("discovered",
            YamlNode.seq (sg.discovered.map fun i => YamlNode.str (deref i).name)),
          ("ufoId", YamlNode.int sg.ufoId), ("waypointId", YamlNode.int sg.waypointId),
          ("soldierId", YamlNode.int sg.soldierId)]
        ++ (match sg.battleGame with
            | some battleGame => [("battleGame", codecs.saveBattleGame battleGame)]
            | none => [])
        ++ [("ufopaedia", codecs.saveUfopaedia sg.ufopaedia)] := by
  unfold saveFull
  cases sg.battleGame <;> rfl

theorem mapAssign_last (k : String) (v : Int) (m : List (String × Int))
    (h : ∀ e ∈ m, e.1 < k) : mapAssign k v m = m ++ [(k, v)] := by
  induction m with
  | nil => rfl
  | cons e m ih =>
    obtain ⟨k', v'⟩ := e
    have hlt : k' < k := h (k', v') (List.mem_cons_self _ _)
    have h1 : ¬ k < k' := lt_asymm hlt
    have h2 : ¬ k = k' := fun he => (ne_of_lt hlt) he.symm
    simp only [mapAssign, h1, h2, if_false, List.cons_append]
    rw [ih (fun e he => h e (List.mem_cons_of_mem _ he))]

theorem asInt_int (n : Int) : (YamlNode.int n).asInt = some n := rfl

theorem asIntMap_saved (m : List (String × Int)) (hs : m.Pairwise fun a b => a.1 < b.1) :
    (YamlNode.map (m.map fun entry => (entry.1, YamlNode.int entry.2))).asIntMap = some m := by
  have key : ∀ (l acc : List (String × Int)), (acc ++ l).Pairwise (fun a b => a.1 < b.1) →
      (l.map fun entry => (entry.1, YamlNode.int entry.2)).foldlM
          (fun m entry => entry.2.asInt.map fun v => mapAssign entry.1 v m) acc
        = some (acc ++ l) := by
    intro l
    induction l with
    | nil => intro acc _; simp
    | cons e l ih =>
      intro acc hp
      have hlast : mapAssign e.1 e.2 acc = acc ++ [e] := by
        rw [mapAssign_last]
        intro x hx
        rw [List.pairwise_append] at hp
        exact hp.2.2 x hx e (List.mem_cons_self _ _)
      simp only [List.map_cons, List.foldlM_cons, asInt_int, Option.map_some', hlast, bind,
        Option.some_bind]
      rw [ih (acc ++ [e]) (by simpa using hp)]
      simp
  simpa [YamlNode.asIntMap] using key m [] (by simpa using hs)

theorem loadEach_seq (doc : YamlNode) (key : String) (body : SavedGame → YamlNode → Outcome)
    (sg : SavedGame) (items : List YamlNode) (h : doc.getValue key = some (YamlNode.seq items)) :
    loadEach doc key body sg = items.foldlM body sg := by
  simp [loadEach, h, orThrow, YamlNode.items, bind, Except.bind]

theorem foldlM_saved {E : Type} (saveOne : E → YamlNode)
    (body : SavedGame → YamlNode → Outcome) (push : SavedGame → E → SavedGame) (l : List E)
    (hbody : ∀ sg, ∀ e ∈ l, body sg (saveOne e) = Except.ok (push sg e)) (sg : SavedGame) :
    (l.map saveOne).foldlM body sg = Except.ok (l.foldl push sg) := by
  induction l generalizing sg with
  | nil => rfl
  | cons e l ih =>
    simp only [List.map_cons, List.foldlM_cons, List.foldl_cons,
      hbody sg e (List.mem_cons_self _ _), bind, Except.bind]
    exact ih (fun sg x hx => hbody sg x (List.mem_cons_of_mem _ hx)) (push sg e)

theorem foldl_push_countries (l : List Country) (sg : SavedGame) :
    l.foldl (fun sg c => { sg with countries := sg.countries ++ [c] }) sg
      = { sg with countries := sg.countries ++ l } := by
  induction l generalizing sg with
  | nil => simp
  | cons c l ih => simp [ih]

theorem foldl_push_regions (l : List Region) (sg : SavedGame) :
    l.foldl (fun sg r => { sg with regions := sg.regions ++ [r] }) sg
      = { sg with regions := sg.regions ++ l } := by
  induction l generalizing sg with
  | nil => simp
  | cons c l ih => simp [ih]

theorem foldl_push_ufos (l : List Ufo) (sg : SavedGame) :
    l.foldl (fun sg u => { sg with ufos := sg.ufos ++ [u] }) sg
      = { sg with ufos := sg.ufos ++ l } := by
  induction l generalizing sg with
  | nil => simp
  | cons c l ih => simp [ih]

theorem foldl_push_waypoints (l : List Waypoint) (sg : SavedGame) :
    l.foldl (fun sg w => { sg with waypoints := sg.waypoints ++ [w] }) sg
      = { sg with waypoints := sg.waypoints ++ l } := by
  induction l generalizing sg with
  | nil => simp
  | cons c l ih => simp [ih]

theorem foldl_push_bases (l : List Base) (sg : SavedGame) :
    l.foldl (fun sg b => { sg with bases := sg.bases ++ [b] }) sg
      = { sg with bases := sg.bases ++ l } := by
  induction l generalizing sg with
  | nil => simp
  | cons c l ih => simp [ih]

theorem foldl_push_discovered (l : List RulePtr) (sg : SavedGame) :
    l.foldl (fun sg p => { sg with discovered := sg.discovered ++ [p] }) sg
      = { sg with discovered := sg.discovered ++ l } := by
  induction l generalizing sg with
  | nil => simp
  | cons c l ih => simp [ih]

theorem loadFull_saved (S : SavedGame) (codecs : Codecs) (rule : Ruleset) (sg : SavedGame)
    (hcountries : ∀ c ∈ S.countries, ∃ type,
      ((codecs.saveCountry c).getValue "type").bind YamlNode.asString = some type
        ∧ codecs.loadCountry (rule.getCountry type) (codecs.saveCountry c) = some c)
    (hregions : ∀ r ∈ S.regions, ∃ type,
      ((codecs.saveRegion r).getValue "type").bind YamlNode.asString = some type
        ∧ codecs.loadRegion (rule.getRegion type) (codecs.saveRegion r) = some r)
    (hufos : ∀ u ∈ S.ufos, ∃ type,
      ((codecs.saveUfo u).getValue "type").bind YamlNode.asString = some type
        ∧ codecs.loadUfo (rule.getUfo type) (codecs.saveUfo u) = some u)
    (hwaypoints : ∀ w ∈ S.waypoints, codecs.loadWaypoint (codecs.saveWaypoint w) = some w)
    (hbases : ∀ b ∈ S.bases, ∀ this, codecs.loadBase rule this (codecs.saveBase b) = some b)
    (hbattle : ∀ b, S.battleGame = some b → ∀ this,
      codecs.loadBattleGame rule this codecs.newBattleGame (codecs.saveBattleGame b)
        = Except.ok b)
    (hufopaedia : codecs.loadUfopaedia rule sg.ufopaedia (codecs.saveUfopaedia S.ufopaedia)
      = Except.ok S.ufopaedia)
    (hdiscovered : ∀ p ∈ S.discovered, rule.getResearchProject (rule.deref p).name = p)
    (hcraft : S.craftId.Pairwise fun a b => a.1 < b.1)
    (hblank : sg.countries = [] ∧ sg.regions = [] ∧ sg.ufos = [] ∧ sg.waypoints = []
      ∧ sg.bases = [] ∧ sg.discovered = [] ∧ sg.battleGame = none ∧ sg.time = S.time) :
    loadFull codecs rule (YamlNode.map (S.saveFull codecs rule.deref)) sg = Except.ok S := by
  have gDiff : ∀ x, readInt (YamlNode.map (S.saveFull codecs rule.deref)) "difficulty" x
      = Except.ok S.difficulty := fun x => by rw [saveFull_eq]; rfl
  have gFunds : ∀ x, readInt (YamlNode.map (S.saveFull codecs rule.deref)) "funds" x
      = Except.ok S.funds := fun x => by rw [saveFull_eq]; rfl
  have gUfoId : ∀ x, readInt (YamlNode.map (S.saveFull codecs rule.deref)) "ufoId" x
      = Except.ok S.ufoId := fun x => by rw [saveFull_eq]; rfl
  have gWaypointId : ∀ x, readInt (YamlNode.map (S.saveFull codecs rule.deref)) "waypointId" x
      = Except.ok S.waypointId := fun x => by rw [saveFull_eq]; rfl
  have gSoldierId : ∀ x, readInt (YamlNode.map (S.saveFull codecs rule.deref)) "soldierId" x
      = Except.ok S.soldierId := fun x => by rw [saveFull_eq]; rfl
  have gCraft : ∀ x, orThrow x (((YamlNode.map (S.saveFull codecs rule.deref)).getValue
      "craftId").bind YamlNode.asIntMap) = Except.ok S.craftId := fun x => by
    have : (YamlNode.map (S.saveFull codecs rule.deref)).getValue "craftId"
        = some (YamlNode.map (S.craftId.map fun entry => (entry.1, YamlNode.int entry.2))) := by
      rw [saveFull_eq]; rfl
    rw [this, Option.some_bind, asIntMap_saved S.craftId hcraft]
    rfl
  have gCountries : ∀ x, loadEach (YamlNode.map (S.saveFull codecs rule.deref)) "countries"
      (loadCountry codecs rule) x = Except.ok { x with countries := x.countries ++ S.countries } :=
    fun x => by
      rw [loadEach_seq _ _ _ _ (S.countries.map codecs.saveCountry) (by rw [saveFull_eq]; rfl),
        foldlM_saved codecs.saveCountry _
          (fun sg c => { sg with countries := sg.countries ++ [c] }) S.countries,
        foldl_push_countries]
      intro y c hc
      obtain ⟨type, h1, h2⟩ := hcountries c hc
      simp [loadCountry, h1, h2, orThrow, bind, Except.bind, pure, Except.pure]
  have gRegions : ∀ x, loadEach (YamlNode.map (S.saveFull codecs rule.deref)) "regions"
      (loadRegion codecs rule) x = Except.ok { x with regions := x.regions ++ S.regions } :=
    fun x => by
      rw [loadEach_seq _ _ _ _ (S.regions.map codecs.saveRegion) (by rw [saveFull_eq]; rfl),
        foldlM_saved codecs.saveRegion _
          (fun sg c => { sg with regions := sg.regions ++ [c] }) S.regions,
        foldl_push_regions]
      intro y c hc
      obtain ⟨type, h1, h2⟩ := hregions c hc
      simp [loadRegion, h1, h2, orThrow, bind, Except.bind, pure, Except.pure]
  have gUfos : ∀ x, loadEach (YamlNode.map (S.saveFull codecs rule.deref)) "ufos"
      (loadUfo codecs rule) x = Except.ok { x with ufos := x.ufos ++ S.ufos } :=
    fun x => by
      rw [loadEach_seq _ _ _ _ (S.ufos.map codecs.saveUfo) (by rw [saveFull_eq]; rfl),
        foldlM_saved codecs.saveUfo _
          (fun sg c => { sg with ufos := sg.ufos ++ [c] }) S.ufos,
        foldl_push_ufos]
      intro y c hc
      obtain ⟨type, h1, h2⟩ := hufos c hc
      simp [loadUfo, h1, h2, orThrow, bind, Except.bind, pure, Except.pure]
  have gWaypoints : ∀ x, loadEach (YamlNode.map (S.saveFull codecs rule.deref)) "waypoints"
      (loadWaypoint codecs) x = Except.ok { x with waypoints := x.waypoints ++ S.waypoints } :=
    fun x => by
      rw [loadEach_seq _ _ _ _ (S.waypoints.map codecs.saveWaypoint) (by rw [saveFull_eq]; rfl),
        foldlM_saved codecs.saveWaypoint _
          (fun sg c => { sg with waypoints := sg.waypoints ++ [c] }) S.waypoints,
        foldl_push_waypoints]
      intro y c hc
      simp [loadWaypoint, hwaypoints c hc, orThrow, bind, Except.bind, pure, Except.pure]
  have gBases : ∀ x, loadEach (YamlNode.map (S.saveFull codecs rule.deref)) "bases"
      (loadBase codecs rule) x = Except.ok { x with bases := x.bases ++ S.bases } :=
    fun x => by
      rw [loadEach_seq _ _ _ _ (S.bases.map codecs.saveBase) (by rw [saveFull_eq]; rfl),
        foldlM_saved codecs.saveBase _
          (fun sg c => { sg with bases := sg.bases ++ [c] }) S.bases,
        foldl_push_bases]
      intro y c hc
      simp [loadBase, hbases c hc y, orThrow, bind, Except.bind, pure, Except.pure]
  have gDiscovered : ∀ x, loadEach (YamlNode.map (S.saveFull codecs rule.deref)) "discovered"
      (loadDiscovered rule) x
        = Except.ok { x with discovered := x.discovered ++ S.discovered } :=
    fun x => by
      rw [loadEach_seq _ _ _ _ (S.discovered.map fun i => YamlNode.str (rule.deref i).name)
          (by rw [saveFull_eq]; rfl),
        foldlM_saved (fun i => YamlNode.str (rule.deref i).name) _
          (fun sg p => { sg with discovered := sg.discovered ++ [p] }) S.discovered,
        foldl_push_discovered]
      intro y p hp
      simp [loadDiscovered, YamlNode.asString, hdiscovered p hp, orThrow, bind, Except.bind,
        pure, Except.pure]
  have gBattle : ∀ x, x.battleGame = none →
      loadBattleGame codecs rule (YamlNode.map (S.saveFull codecs rule.deref)) x
        = Except.ok { x with battleGame := S.battleGame } := fun x hx => by
    unfold loadBattleGame
    rw [saveFull_eq]
    cases hb : S.battleGame with
    | none =>
      obtain ⟨d, b⟩ := x
      simp only at hx
      subst hx
      rfl
    | some b =>
      have hfind : (YamlNode.map
          ([("difficulty", YamlNode.int S.difficulty), ("funds", YamlNode.int S.funds),
            ("countries", YamlNode.seq (S.countries.map codecs.saveCountry)),
            ("regions", YamlNode.seq (S.regions.map codecs.saveRegion)),
            ("bases", YamlNode.seq (S.bases.map codecs.saveBase)),
            ("ufos", YamlNode.seq (S.ufos.map codecs.saveUfo)),
            ("craftId",
              YamlNode.map (S.craftId.map fun entry => (entry.1, YamlNode.int entry.2))),
            ("waypoints", YamlNode.seq (S.waypoints.map codecs.saveWaypoint)),
            ("discovered",
              YamlNode.seq (S.discovered.map fun i => YamlNode.str (rule.deref i).name)),
            ("ufoId", YamlNode.int S.ufoId), ("waypointId", YamlNode.int S.waypointId),
            ("soldierId", YamlNode.int S.soldierId)]
            ++ [("battleGame", codecs.saveBattleGame b)]
            ++ [("ufopaedia", codecs.saveUfopaedia S.ufopaedia)])).findValue "battleGame"
          = some (some (codecs.saveBattleGame b)) := rfl
      simp only [hfind, orThrow, bind, Except.bind, hbattle b hb, pure, Except.pure]
  have gUfopaedia : ∀ x, x.ufopaedia = sg.ufopaedia →
      loadUfopaedia codecs rule (YamlNode.map (S.saveFull codecs rule.deref)) x
        = Except.ok { x with ufopaedia := S.ufopaedia } := fun x hx => by
    have hfind : (YamlNode.map (S.saveFull codecs rule.deref)).findValue "ufopaedia"
        = some (some (codecs.saveUfopaedia S.ufopaedia)) := by
      rw [saveFull_eq]
      cases S.battleGame <;> rfl
    unfold loadUfopaedia
    simp only [hfind, orThrow, bind, Except.bind, hx, hufopaedia, pure, Except.pure]
  obtain ⟨hb1, hb2, hb3, hb4, hb5, hb6, hb7, hb8⟩ := hblank
  unfold loadFull
  simp only [gDiff, gFunds, gUfoId, gWaypointId, gSoldierId, gCraft, gCountries, gRegions, gUfos,
    gWaypoints, gBases, gDiscovered, bind, Except.bind]
  rw [gBattle _ (by simpa using hb7)]
  simp only [bind, Except.bind]
  rw [gUfopaedia]
  · cases S
    simp_all
  · rfl

/-! ## Claims on the persistence codec -/

/-- C13: for a save file that opens and whose first document holds a version
text `v`, `load` throws the exception "Version mismatch" if and only if `v`
differs from the version of the running build; with an equal text it never
does. -/
theorem load_version_mismatch_iff (sg : SavedGame) (codecs : Codecs) (version : String)
    (stream : List ParsedDoc) (doc : YamlNode) (rest : List ParsedDoc) (v : String)
    (rule : Ruleset) (hdoc : getNextDocument stream = some (doc, rest))
    (hv : (doc.getValue "version").bind YamlNode.asString = some v) :
    (∃ s, load sg codecs version (some stream) rule
        = Except.error (Thrown.exception "Version mismatch", s)) ↔ v ≠ version := by
  constructor
  · rintro ⟨s, h⟩
    obtain ⟨_, hcase⟩ := load_exception_cases sg codecs version (some stream) rule _ s h
    rcases hcase with ⟨hnone, _⟩ | ⟨stream2, doc2, rest2, v2, hfile, hdoc2, hv2, hne, _⟩
    · simp at hnone
    · simp only [Option.some.injEq] at hfile
      subst hfile
      rw [hdoc] at hdoc2
      simp only [Option.some.injEq, Prod.mk.injEq] at hdoc2
      obtain ⟨rfl, rfl⟩ := hdoc2
      rw [hv] at hv2
      simp only [Option.some.injEq] at hv2
      subst hv2
      exact hne
  · intro hne
    exact ⟨sg, by rw [load_of_version sg codecs version stream doc rest v rule hdoc hv,
      if_pos hne]⟩

/-- Witness of C13: the test file, whose version is `1.0`, read by the build of
version `1.1`. -/
theorem load_version_mismatch_iff_witness :
    (∃ s, load (blank 0) testCodecs "1.1" truncatedFile scenarioRuleset
        = Except.error (Thrown.exception "Version mismatch", s)) ↔ "1.0" ≠ "1.1" :=
  load_version_mismatch_iff (blank 0) testCodecs "1.1"
    [testBrief, ParsedDoc.node (YamlNode.map [("difficulty", YamlNode.int 3)])]
    (YamlNode.map [("version", YamlNode.str "1.0"),
      ("time", YamlNode.seq [YamlNode.int 2, YamlNode.int 14, YamlNode.int 3,
        YamlNode.int 1999, YamlNode.int 8, YamlNode.int 5, YamlNode.int 0])])
    [ParsedDoc.node (YamlNode.map [("difficulty", YamlNode.int 3)])] "1.0" scenarioRuleset
    rfl rfl

/-- C14 refuted at a concrete input: the version of the file matches and its
full segment lacks the key `funds`; `load` on a blank saved game throws a
`YAML::Exception`, and the saved game it leaves has the time and the
difficulty of the file, not those it had before the call. -/
theorem load_atomicity_counterexample :
    ∃ s, load (blank 0) testCodecs "1.0" truncatedFile scenarioRuleset
        = Except.error (Thrown.yamlException, s)
      ∧ s.difficulty = 3 ∧ (blank 0).difficulty = 0
      ∧ s.time.day = 14 ∧ (blank 0).time.day = 1 :=
  ⟨{ blank 0 with
      difficulty := 3
      time :=
        { weekday := 2, day := 14, month := 3, year := 1999, hour := 8, minute := 5,
          second := 0 } },
    rfl, rfl, rfl, rfl, rfl⟩

/-- C14 as amended: whenever `load` throws an `Exception` of its own, the
saved game is left as it was before the call, and the exception is "Failed to
load savegame" for a file that cannot be opened or "Version mismatch" for a
first document whose version text differs from the running one. -/
theorem load_exception_keeps_state (sg : SavedGame) (codecs : Codecs) (version : String)
    (file : SaveFile) (rule : Ruleset) (what : String) (s : SavedGame)
    (h : load sg codecs version file rule = Except.error (Thrown.exception what, s)) :
    s = sg ∧
      ((file = none ∧ what = "Failed to load savegame")
        ∨ ∃ stream doc rest v, file = some stream ∧ getNextDocument stream = some (doc, rest)
            ∧ (doc.getValue "version").bind YamlNode.asString = some v ∧ v ≠ version
            ∧ what = "Version mismatch") :=
  load_exception_cases sg codecs version file rule what s h

/-- Witness of C14 as amended: the truncated file read by a build of another
version. -/
theorem load_exception_keeps_state_witness :
    blank 0 = blank 0 ∧
      ((truncatedFile = none ∧ "Version mismatch" = "Failed to load savegame")
        ∨ ∃ stream doc rest v, truncatedFile = some stream
            ∧ getNextDocument stream = some (doc, rest)
            ∧ (doc.getValue "version").bind YamlNode.asString = some v ∧ v ≠ "1.1"
            ∧ "Version mismatch" = "Version mismatch") :=
  load_exception_keeps_state (blank 0) testCodecs "1.1" truncatedFile scenarioRuleset
    "Version mismatch" (blank 0) rfl

/-- C15 refuted at a concrete input: the discovered list of the file names an
identifier for which `getResearchProject` returns no rule; `load` returns
normally and the discovered list it leaves holds the null pointer. -/
theorem load_unknown_rule_counterexample :
    scenarioRuleset.getResearchProject "STR_UNKNOWN" = NULL
      ∧ ∃ s, load (blank 0) testCodecs "1.0" unknownRuleFile scenarioRuleset = Except.ok s
          ∧ s.discovered = [1, NULL] :=
  ⟨by decide,
    { blank 0 with
      difficulty := 3
      funds := 500
      discovered := [1, NULL]
      time :=
        { weekday := 2, day := 14, month := 3, year := 1999, hour := 8, minute := 5,
          second := 0 } },
    rfl, rfl⟩

/-- C15 as amended: `load` does not check the result of `getResearchProject`.
Whenever it returns, the file holds two documents, the second with a
discovered list of identifiers `ids`, and the discovered list of the saved
game is the one before the call followed by `getResearchProject(id)` for each
`id` of `ids` in order; the null pointer is in it exactly when it was there
before or some `id` has no rule. -/
theorem load_discovered_unchecked (sg : SavedGame) (codecs : Codecs) (version : String)
    (file : SaveFile) (rule : Ruleset) (s : SavedGame)
    (h : load sg codecs version file rule = Except.ok s) :
    ∃ stream doc1 rest doc2 rest2 node items, ∃ ids : List String,
      file = some stream ∧ getNextDocument stream = some (doc1, rest)
        ∧ getNextDocument rest = some (doc2, rest2)
        ∧ doc2.getValue "discovered" = some node ∧ node.items = some items
        ∧ items.map YamlNode.asString = ids.map some
        ∧ s.discovered = sg.discovered ++ ids.map rule.getResearchProject
        ∧ (NULL ∈ s.discovered
            ↔ NULL ∈ sg.discovered ∨ ∃ id ∈ ids, rule.getResearchProject id = NULL) := by
  cases file with
  | none => simp [load, throw, throwThe, MonadExceptOf.throw] at h
  | some stream =>
    simp only [load] at h
    obtain ⟨first, hfirst, h⟩ := except_bind_ok _ _ _ h
    obtain ⟨v, _, h⟩ := except_bind_ok _ _ _ h
    split at h
    · simp [throw, throwThe, MonadExceptOf.throw] at h
    · unfold loadBody at h
      obtain ⟨s1, h1, h⟩ := except_bind_ok _ _ _ h
      obtain ⟨next, hnext, h⟩ := except_bind_ok _ _ _ h
      obtain ⟨node, items, ids, hnode, hitems, hids, hd⟩ :=
        loadFull_discovered codecs rule _ _ _ h
      have e1 := loadTime_keeps_discovered _ _ _ _ h1
      refine ⟨stream, first.1, first.2, next.1, next.2, node, items, ids, rfl,
        orThrow_ok _ _ _ hfirst, orThrow_ok _ _ _ hnext, hnode, hitems, hids, ?_, ?_⟩
      · rw [hd, e1]
      · rw [hd, e1]
        simp only [List.mem_append, List.mem_map]

/-- Witness of C15 as amended: the file that names `A` and an unknown
identifier, loaded into a blank saved game. -/
theorem load_discovered_unchecked_witness :
    ∃ stream doc1 rest doc2 rest2 node items, ∃ ids : List String,
      unknownRuleFile = some stream ∧ getNextDocument stream = some (doc1, rest)
        ∧ getNextDocument rest = some (doc2, rest2)
        ∧ doc2.getValue "discovered" = some node ∧ node.items = some items
        ∧ items.map YamlNode.asString = ids.map some
        ∧ [1, NULL] = (blank 0).discovered ++ ids.map scenarioRuleset.getResearchProject
        ∧ (NULL ∈ [1, NULL]
            ↔ NULL ∈ (blank 0).discovered
              ∨ ∃ id ∈ ids, scenarioRuleset.getResearchProject id = NULL) :=
  load_discovered_unchecked (blank 0) testCodecs "1.0" unknownRuleFile scenarioRuleset
    { blank 0 with
      difficulty := 3
      funds := 500
      discovered := [1, NULL]
      time :=
        { weekday := 2, day := 14, month := 3, year := 1999, hour := 8, minute := 5,
          second := 0 } }
    rfl

/-- C11: round trip.  Let `S` be a saved game whose discovered rules are stored
in the catalog under their names, whose countries, regions and
ufos are given back by the loop bodies of `load` from what they save (their
`type` resolves to their rule), whose waypoints, bases, tactical blob,
knowledge-base blob and time are given back by their own `load` from what they
save, and whose `craftId` is a `std::map` (rising keys).  Then `save` writes
two documents, and `load` of these documents into a blank saved game returns
with a saved game equal to `S`: funds, difficulty, time, the four id counters,
the discovered list with its order and duplicates, the entity collections, and
the presence or absence of the tactical blob. -/
theorem load_save_roundtrip (S : SavedGame) (codecs : Codecs) (rule : Ruleset)
    (version : String) (difficulty : Int)
    (htime : codecs.loadTime (blank difficulty).time (codecs.saveTime S.time) = Except.ok S.time)
    (hcountries : ∀ c ∈ S.countries, ∃ type,
      ((codecs.saveCountry c).getValue "type").bind YamlNode.asString = some type
        ∧ codecs.loadCountry (rule.getCountry type) (codecs.saveCountry c) = some c)
    (hregions : ∀ r ∈ S.regions, ∃ type,
      ((codecs.saveRegion r).getValue "type").bind YamlNode.asString = some type
        ∧ codecs.loadRegion (rule.getRegion type) (codecs.saveRegion r) = some r)
    (hufos : ∀ u ∈ S.ufos, ∃ type,
      ((codecs.saveUfo u).getValue "type").bind YamlNode.asString = some type
        ∧ codecs.loadUfo (rule.getUfo type) (codecs.saveUfo u) = some u)
    (hwaypoints : ∀ w ∈ S.waypoints, codecs.loadWaypoint (codecs.saveWaypoint w) = some w)
    (hbases : ∀ b ∈ S.bases, ∀ this, codecs.loadBase rule this (codecs.saveBase b) = some b)
    (hbattle : ∀ b, S.battleGame = some b → ∀ this,
      codecs.loadBattleGame rule this codecs.newBattleGame (codecs.saveBattleGame b)
        = Except.ok b)
    (hufopaedia : codecs.loadUfopaedia rule (blank difficulty).ufopaedia
      (codecs.saveUfopaedia S.ufopaedia) = Except.ok S.ufopaedia)
    (hdiscovered : ∀ p ∈ S.discovered,
      rule.researchProjects.lookup (rule.deref p).name = some p)
    (hcraft : S.craftId.Pairwise fun a b => a.1 < b.1) :
    ∃ docs, S.save codecs version rule.deref true = Except.ok docs
      ∧ (blank difficulty).load codecs version (some docs) rule = Except.ok S := by
  refine ⟨[ParsedDoc.node (YamlNode.map (S.saveBrief codecs version)),
    ParsedDoc.node (YamlNode.map (S.saveFull codecs rule.deref))], rfl, ?_⟩
  have hv : ((YamlNode.map (S.saveBrief codecs version)).getValue "version").bind
      YamlNode.asString = some version := rfl
  rw [load_of_version (blank difficulty) codecs version
      [ParsedDoc.node (YamlNode.map (S.saveBrief codecs version)),
        ParsedDoc.node (YamlNode.map (S.saveFull codecs rule.deref))]
      (YamlNode.map (S.saveBrief codecs version))
      [ParsedDoc.node (YamlNode.map (S.saveFull codecs rule.deref))] version rule rfl hv,
    if_neg (by simp)]
  have ht : loadTime codecs (YamlNode.map (S.saveBrief codecs version)) (blank difficulty)
      = Except.ok { blank difficulty with time := S.time } := by
    have hnode : (YamlNode.map (S.saveBrief codecs version)).getValue "time"
        = some (codecs.saveTime S.time) := rfl
    simp only [loadTime, hnode, orThrow, bind, Except.bind, htime, pure, Except.pure]
  simp only [loadBody, ht, getNextDocument, orThrow, bind, Except.bind]
  have hresolve : ∀ p ∈ S.discovered, rule.getResearchProject (rule.deref p).name = p := by
    intro p hp
    simp only [Ruleset.getResearchProject, hdiscovered p hp]
  exact loadFull_saved S codecs rule _ hcountries hregions hufos hwaypoints hbases hbattle
    hufopaedia hresolve hcraft ⟨rfl, rfl, rfl, rfl, rfl, rfl, rfl, rfl⟩

/-- Witness of C11: the campaign with two bases, a research in progress, the
zero-cost `B` discovered and a tactical blob is saved and loaded back. -/
theorem load_save_roundtrip_witness :
    ∃ docs, campaignGame.save testCodecs "1.0" campaignRuleset.deref true = Except.ok docs
      ∧ (blank 0).load testCodecs "1.0" (some docs) campaignRuleset = Except.ok campaignGame :=
  load_save_roundtrip campaignGame testCodecs campaignRuleset "1.0" 0 rfl
    (by
      intro c hc
      simp only [campaignGame, List.mem_singleton] at hc
      subst hc
      exact ⟨"STR_USA", rfl, rfl⟩)
    (by
      intro c hc
      simp only [campaignGame, List.mem_singleton] at hc
      subst hc
      exact ⟨"STR_EUROPE", rfl, rfl⟩)
    (by
      intro c hc
      simp only [campaignGame, List.mem_singleton] at hc
      subst hc
      exact ⟨"STR_SMALL_SCOUT", rfl, rfl⟩)
    (by
      intro w hw
      simp only [campaignGame, List.mem_singleton] at hw
      subst hw
      rfl)
    (by
      intro b hb this
      simp only [campaignGame, List.mem_cons, List.mem_singleton, List.not_mem_nil,
        or_false] at hb
      rcases hb with rfl | rfl <;> rfl)
    (by
      intro b hb this
      simp only [campaignGame, Option.some.injEq] at hb
      subst hb
      rfl)
    rfl
    (by decide)
    (by
      simp only [campaignGame, List.pairwise_cons, List.mem_singleton, List.not_mem_nil,
        forall_eq, List.Pairwise.nil, and_true, IsEmpty.forall_iff, implies_true]
      rw [String.lt_iff_toList_lt]
      decide)

/-- C12: `save` writes the summary segment, then the full segment, whose keys
are, in this order, difficulty, funds, countries, regions, bases, ufos,
craftId, waypoints, discovered, ufoId, waypointId, soldierId, then battleGame
exactly when the tactical blob is not null, then ufopaedia; the value under
`discovered` is the sequence of the names of the discovered rules, in the
order of the discovered list. -/
theorem save_key_order (sg : SavedGame) (codecs : Codecs) (version : String)
    (deref : RulePtr → RuleResearchProject) :
    ∃ full, sg.save codecs version deref true
        = Except.ok [ParsedDoc.node (YamlNode.map (sg.saveBrief codecs version)),
            ParsedDoc.node (YamlNode.map full)]
      ∧ full.map Prod.fst
          = ["difficulty", "funds", "countries", "regions", "bases", "ufos", "craftId",
              "waypoints", "discovered", "ufoId", "waypointId", "soldierId"]
            ++ (if sg.battleGame.isSome then ["battleGame"] else []) ++ ["ufopaedia"]
      ∧ full.lookup "discovered"
          = some (YamlNode.seq (sg.discovered.map fun p => YamlNode.str (deref p).name)) := by
  refine ⟨sg.saveFull codecs deref, rfl, ?_, ?_⟩
  · rw [saveFull_eq]
    cases sg.battleGame <;> rfl
  · rw [saveFull_eq]
    rfl

/-! ## Claims on the save listing -/

theorem readListTime_eq (codecs : Codecs) (fin : SaveFile) :
    (match readListTime codecs fin with
      | Except.ok time => some time
      | Except.error _ => none) = summaryTime codecs fin := by
  unfold readListTime summaryTime
  cases fin with
  | none => rfl
  | some stream =>
    simp only
    cases getNextDocument stream with
    | none => rfl
    | some first =>
      simp only
      cases first.1.getValue "time" with
      | none => rfl
      | some node =>
        simp only
        cases codecs.loadTime
          { weekday := 6, day := 1, month := 1, year := 1999, hour := 12, minute := 0,
            second := 0 } node <;> rfl

/-- C16: listing isolation.  `getList` always returns; the rows of the text
list after the call are the rows before it followed by one row for each file
whose summary opens and parses, in the order of the folder; a file that fails
adds no row and one entry to the error stream, and the files after it are
treated all the same. -/
theorem getList_rows (codecs : Codecs) (names : TimeNames) (saves : List (String × SaveFile))
    (list : TextList) (lang : Language) :
    (getList codecs names saves list lang).1.texts
        = list.texts ++ saves.filterMap (fun i =>
            (summaryTime codecs i.2).map fun time =>
              (listRow lang names i.1 time).enum.map fun (col, buf) =>
                if list.dot && decide (col < (listRow lang names i.1 time).length - 1) then
                  list.padded col buf
                else buf)
      ∧ (getList codecs names saves list lang).2.length
        = (saves.filter fun i => (summaryTime codecs i.2).isNone).length := by
  unfold getList
  have key : ∀ (l : List (String × SaveFile)) (state : TextList × List Thrown),
      state.1.dot = list.dot → state.1.padded = list.padded →
      (l.foldl
          (fun state i =>
            match readListTime codecs i.2 with
            | Except.ok time => ((state.1).addRow (listRow lang names i.1 time), state.2)
            | Except.error e => (state.1, state.2 ++ [e])) state).1.texts
        = state.1.texts ++ l.filterMap (fun i =>
            (summaryTime codecs i.2).map fun time =>
              (listRow lang names i.1 time).enum.map fun (col, buf) =>
                if list.dot && decide (col < (listRow lang names i.1 time).length - 1) then
                  list.padded col buf
                else buf)
      ∧ (l.foldl
          (fun state i =>
            match readListTime codecs i.2 with
            | Except.ok time => ((state.1).addRow (listRow lang names i.1 time), state.2)
            | Except.error e => (state.1, state.2 ++ [e])) state).2.length
        = state.2.length + (l.filter fun i => (summaryTime codecs i.2).isNone).length := by
    intro l
    induction l with
    | nil => intro state _ _; simp
    | cons i l ih =>
      intro state hdot hpad
      rw [List.foldl_cons, List.filterMap_cons, List.filter_cons]
      have hsum := readListTime_eq codecs i.2
      cases hr : readListTime codecs i.2 with
      | ok time =>
        rw [hr] at hsum
        simp only at hsum
        obtain ⟨h1, h2⟩ := ih ((state.1).addRow (listRow lang names i.1 time), state.2)
          hdot hpad
        rw [h1, h2, ← hsum]
        simp [TextList.addRow, hdot, hpad]
      | error e =>
        rw [hr] at hsum
        simp only at hsum
        obtain ⟨h1, h2⟩ := ih (state.1, state.2 ++ [e]) hdot hpad
        rw [h1, h2, ← hsum]
        simp
        omega
  simpa using key saves (list, []) rfl rfl

/-- C17 refuted at a concrete input: the folder holds one file written by
version `0.9`; the running build has version `1.0`, so `load` of the file
throws "Version mismatch"; yet `getList` adds a row for it. -/
theorem getList_version_counterexample :
    load (blank 0) testCodecs "1.0" oldVersionFile scenarioRuleset
        = Except.error (Thrown.exception "Version mismatch", blank 0)
      ∧ (getList testCodecs testNames [("old.sav", oldVersionFile)] emptyList
          testLanguage).1.texts
        = [["old", "23:30", "2STR_DATE_DAY", "STR_MAR", "1999"]] := by
  constructor
  · rfl
  · decide

/-- C17 as amended: `getList` does not read the version tag.  Whatever the
value stored under `version` at the head of the summary of a file, the text
list and the error stream after the call are the same: the file is listed, or
not, like any other, according to its time alone. -/
theorem getList_ignores_version (codecs : Codecs) (names : TimeNames)
    (pre post : List (String × SaveFile)) (file : String) (v v' : YamlNode)
    (summary : List (String × YamlNode)) (more : List ParsedDoc) (list : TextList)
    (lang : Language) :
    getList codecs names
        (pre ++ (file, some (ParsedDoc.node (YamlNode.map (("version", v) :: summary)) :: more))
          :: post) list lang
      = getList codecs names
        (pre ++ (file, some (ParsedDoc.node (YamlNode.map (("version", v') :: summary)) :: more))
          :: post) list lang := by
  have hread : readListTime codecs
        (some (ParsedDoc.node (YamlNode.map (("version", v) :: summary)) :: more))
      = readListTime codecs
        (some (ParsedDoc.node (YamlNode.map (("version", v') :: summary)) :: more)) := by
    have hlook : ∀ x : YamlNode, (YamlNode.map (("version", x) :: summary)).getValue "time"
        = (YamlNode.map summary).getValue "time" := by
      intro x
      have hne : ("time" == "version") = false := by decide
      simp [YamlNode.getValue, YamlNode.findValue, List.lookup, hne]
    simp only [readListTime, getNextDocument, hlook]
  unfold getList
  simp only [List.foldl_append, List.foldl_cons, hread]

/-! ## Claims on the promotions -/

/-- C18, evaluated at the failing input: with a captain of score 60 and four
squaddies of score 0, the only transition at which `handlePromotions`
promotes is squaddie to sergeant (no sergeant, five soldiers), and the soldier
promoted is the captain, who becomes colonel: no squaddie has a score above
0, so `inspectSoldiers` leaves in `highestRanked` the captain found by the
inspection of the tier above. -/
theorem handlePromotions_promotes_stale_soldier :
    captainRoster.inspectSoldiers none RANK_SQUADDIE = (none, 4)
      ∧ captainRoster.handlePromotions
        = some (true,
            garrison [recruit 1 RANK_COLONEL 30, recruit 2 RANK_SQUADDIE 0,
              recruit 3 RANK_SQUADDIE 0, recruit 4 RANK_SQUADDIE 0,
              recruit 5 RANK_SQUADDIE 0]) :=
  ⟨rfl, rfl⟩

set_option maxRecDepth 20000 in
/-- C19, evaluated at the failing input: with twenty-three squaddies of score
0 and nobody else, the transition squaddie to sergeant fires (no sergeant,
23 / 5 = 4 positions) while `highestRanked` is still null, and
`handlePromotions` dereferences the null pointer: it promotes nobody and
returns nothing. -/
theorem handlePromotions_null_on_idle_squad :
    (idleSquad.bases.map fun b => b.soldiers.length) = [23]
      ∧ (∀ b ∈ idleSquad.bases, ∀ s ∈ b.soldiers, s.rank = RANK_SQUADDIE)
      ∧ idleSquad.inspectSoldiers none RANK_SQUADDIE = (none, 23)
      ∧ idleSquad.handlePromotions = none := by
  refine ⟨rfl, ?_, rfl, rfl⟩
  intro b hb s hs
  simp only [idleSquad, garrison, List.mem_singleton] at hb
  subst hb
  simp only [List.mem_map] at hs
  obtain ⟨n, _, rfl⟩ := hs
  rfl

/-- C20, evaluated at the failing input: the roster holds a commander, a
colonel of score 60 and three squaddies of score 0; the transition squaddie
to sergeant fires and promotes the soldier left in `highestRanked`, the
colonel, who becomes a second commander. -/
theorem handlePromotions_second_commander :
    staffRoster.handlePromotions
        = some (true,
            garrison [recruit 1 RANK_COMMANDER 30, recruit 2 RANK_COMMANDER 30,
              recruit 3 RANK_SQUADDIE 0, recruit 4 RANK_SQUADDIE 0,
              recruit 5 RANK_SQUADDIE 0])
      ∧ (recruit 2 RANK_COLONEL 30).rank ≠ RANK_COMMANDER :=
  ⟨rfl, by decide⟩

/-! ## Further claims on the ledgers -/

/-- C24: the discovered list is append-only under discovery.  Whenever
`addFinishedResearch(r, ruleset)` returns, with or without a ruleset, the
discovered list before the call is a prefix of the one after it, the entry
right after that prefix is `r`, and the length has strictly increased.  (The
eligibility and dependable-research queries are `const` methods: they return
their out-parameter and no saved game.) -/
theorem discovered_append_only (fuel : Nat) (sg sg' : SavedGame) (r : RulePtr)
    (ruleset : Option Ruleset) (h : addFinishedResearch fuel sg r ruleset = some sg') :
    sg.discovered <+: sg'.discovered
      ∧ (∃ rest, sg'.discovered = sg.discovered ++ r :: rest)
      ∧ sg.discovered.length < sg'.discovered.length := by
  obtain ⟨_, rest, hd, _⟩ := addFinishedResearch_grows fuel sg r ruleset sg' h
  rw [hd]
  refine ⟨List.prefix_append _ _, ⟨rest, rfl⟩, ?_⟩
  simp

/-- Witness of C24: `A` is recorded in the scenario, which cascades to `B`. -/
theorem discovered_append_only_witness :
    ([] : List RulePtr) <+: [1, 2]
      ∧ (∃ rest, ([1, 2] : List RulePtr) = [] ++ 1 :: rest)
      ∧ ([] : List RulePtr).length < ([1, 2] : List RulePtr).length :=
  discovered_append_only 3 { discovered := [], bases := [emptyBase] }
    { discovered := [1, 2], bases := [emptyBase] } 1 (some scenarioRuleset) rfl

/-- C25: with an empty list of bases `addFinishedResearch(r, ruleset)` performs
no cascade: it returns with the discovered list extended by the single entry
`r`, whatever the catalog holds; with a null ruleset the same holds for any
list of bases. -/
theorem addFinishedResearch_no_cascade (fuel : Nat) (sg : SavedGame) (r : RulePtr) :
    (∀ ruleset : Option Ruleset, sg.bases = [] →
        addFinishedResearch (fuel + 1) sg r ruleset
          = some { sg with discovered := sg.discovered ++ [r] })
      ∧ addFinishedResearch (fuel + 1) sg r none
          = some { sg with discovered := sg.discovered ++ [r] } := by
  constructor
  · intro ruleset hb
    cases ruleset with
    | none => rfl
    | some rs =>
      unfold addFinishedResearch
      simp only [hb, List.foldlM_nil, pure, Option.some_bind]
  · rfl

/-- Witness of C25: in the scenario catalog the zero-cost `B` depends on `A`
alone; without bases, recording `A` leaves `B` undiscovered. -/
theorem addFinishedResearch_no_cascade_witness :
    (scenarioRuleset.deref 2).cost = 0 ∧ (scenarioRuleset.deref 2).dependencys = [1]
      ∧ addFinishedResearch 1 { discovered := [], bases := [] } 1 (some scenarioRuleset)
          = some { discovered := [1], bases := [] } :=
  ⟨rfl, rfl,
    (addFinishedResearch_no_cascade 0 { discovered := [], bases := [] } 1).1
      (some scenarioRuleset) rfl⟩

/-- C26: whenever `getDependableResearch(research, base)` returns, what it has
appended to `dependables` consists of rules returned by
`getAvailableResearchProjects` for the same base and saved game, none of which
is discovered or in progress at the base; the same holds for
`getDependableResearchBasic`. -/
theorem dependable_are_available (sg : SavedGame) (fuel : Nat) (dependables : List RulePtr)
    (research : RulePtr) (ruleset : Ruleset) (base : Base) (out : List RulePtr) :
    (sg.getDependableResearch fuel dependables research ruleset base = some out →
        ∃ added, out = dependables ++ added ∧ ∀ q ∈ added,
          q ∈ sg.getAvailableResearchProjects [] ruleset base ∧ q ∉ sg.discovered
            ∧ ∀ rp ∈ base.research, rp.ruleResearchProject ≠ q)
      ∧ (sg.getDependableResearchBasic fuel dependables research ruleset base = some out →
        ∃ added, out = dependables ++ added ∧ ∀ q ∈ added,
          q ∈ sg.getAvailableResearchProjects [] ruleset base ∧ q ∉ sg.discovered
            ∧ ∀ rp ∈ base.research, rp.ruleResearchProject ≠ q) := by
  have hfacts : ∀ q, q ∈ sg.getAvailableResearchProjects [] ruleset base →
      q ∈ sg.getAvailableResearchProjects [] ruleset base ∧ q ∉ sg.discovered
        ∧ ∀ rp ∈ base.research, rp.ruleResearchProject ≠ q := by
    intro q hq
    have h := (mem_getAvailableResearchProjects sg ruleset base q).1 hq
    exact ⟨hq, h.2.2.1, h.2.2.2.1⟩
  constructor
  · intro h
    unfold getDependableResearch at h
    simp only [Option.bind_eq_some] at h
    obtain ⟨first, hfirst, hloop⟩ := h
    obtain ⟨added0, hadd0, hgood0⟩ :=
      getDependableResearchBasic_appends sg ruleset base fuel dependables research first hfirst
    have hinv :=
      foldlM_option_invariant
        (fun dependables iter =>
          if (ruleset.deref iter).cost == 0 then
            if (ruleset.deref iter).dependencys.contains research then
              sg.getDependableResearchBasic fuel dependables iter ruleset base
            else some dependables
          else some dependables)
        (fun acc => ∃ added, acc = dependables ++ added
          ∧ ∀ q ∈ added, q ∈ sg.getAvailableResearchProjects [] ruleset base)
        (fun _ => True)
        (by
          intro acc iter acc' _ hacc hstep
          obtain ⟨added, hacc1, hgood⟩ := hacc
          beta_reduce at hstep
          split at hstep
          · split at hstep
            · obtain ⟨added2, hadd2, hgood2⟩ :=
                getDependableResearchBasic_appends sg ruleset base fuel acc iter acc' hstep
              refine ⟨added ++ added2, by rw [hadd2, hacc1, List.append_assoc], ?_⟩
              intro q hq
              rcases List.mem_append.1 hq with hq | hq
              · exact hgood q hq
              · exact hgood2 q hq
            · simp only [Option.some.injEq] at hstep
              exact ⟨added, by rw [← hstep, hacc1], hgood⟩
          · simp only [Option.some.injEq] at hstep
            exact ⟨added, by rw [← hstep, hacc1], hgood⟩)
        sg.discovered first out (fun _ _ => trivial) ⟨added0, hadd0, hgood0⟩ hloop
    obtain ⟨added, hadd, hgood⟩ := hinv
    exact ⟨added, hadd, fun q hq => hfacts q (hgood q hq)⟩
  · intro h
    obtain ⟨added, hadd, hgood⟩ :=
      getDependableResearchBasic_appends sg ruleset base fuel dependables research out h
    exact ⟨added, hadd, fun q hq => hfacts q (hgood q hq)⟩

/-- Witness of C26: in the scenario with `A` and `B` discovered,
`getDependableResearch(A)` returns `C`, which is available at the base. -/
theorem dependable_are_available_witness :
    ∃ added, [3] = ([] : List RulePtr) ++ added ∧ ∀ q ∈ added,
      q ∈ SavedGame.getAvailableResearchProjects { discovered := [1, 2], bases := [emptyBase] }
            [] scenarioRuleset emptyBase
        ∧ q ∉ ([1, 2] : List RulePtr)
        ∧ ∀ rp ∈ emptyBase.research, rp.ruleResearchProject ≠ q :=
  (dependable_are_available { discovered := [1, 2], bases := [emptyBase] } 1 [] 1
    scenarioRuleset emptyBase [3]).1 rfl

/-- C27: eligibility depends on the discovered list through its members only.
Two saved games whose discovered lists have the same members, in whatever
order and with whatever repetitions, give the same result from
`getAvailableResearchProjects` and the same result from
`getAvailableProductions`, for every ruleset and base. -/
theorem eligibility_depends_on_members (sg1 sg2 : SavedGame)
    (hmem : ∀ p, p ∈ sg1.discovered ↔ p ∈ sg2.discovered)
    (projects : List RulePtr) (productions : List ManufPtr) (ruleset : Ruleset) (base : Base) :
    sg1.getAvailableResearchProjects projects ruleset base
        = sg2.getAvailableResearchProjects projects ruleset base
      ∧ sg1.getAvailableProductions productions ruleset base
        = sg2.getAvailableProductions productions ruleset base := by
  constructor
  · rw [getAvailableResearchProjects_eq, getAvailableResearchProjects_eq]
    have hel : ∀ p, Eligible sg1 ruleset base p ↔ Eligible sg2 ruleset base p := by
      intro p
      unfold Eligible Reachable
      simp only [hmem]
    simp only [hel]
  · rw [getAvailableProductions_eq, getAvailableProductions_eq]
    simp only [hmem]

/-- Witness of C27: the discovered lists `[A, B]` and `[B, A, A]`. -/
theorem eligibility_depends_on_members_witness :
    SavedGame.getAvailableResearchProjects { discovered := [1, 2], bases := [] } []
          scenarioRuleset emptyBase
        = SavedGame.getAvailableResearchProjects { discovered := [2, 1, 1], bases := [] } []
          scenarioRuleset emptyBase
      ∧ SavedGame.getAvailableProductions { discovered := [1, 2], bases := [] } []
          scenarioRuleset emptyBase
        = SavedGame.getAvailableProductions { discovered := [2, 1, 1], bases := [] } []
          scenarioRuleset emptyBase :=
  eligibility_depends_on_members { discovered := [1, 2], bases := [] }
    { discovered := [2, 1, 1], bases := [] } (by intro p; simp; tauto) [] []
    scenarioRuleset emptyBase

/-- The score computed by `inspectSoldiers` is the weighted sum brought into
the range of `int`. -/
theorem promotionScore_eq_toInt32 (j : Soldier) :
    promotionScore j = toInt32 (scoreFormula j) := by
  simp only [promotionScore, scoreFormula, addInt32, mulInt32, toInt32]
  omega

theorem toInt32_of_range (x : Int) (hlo : -2147483648 ≤ x) (hhi : x ≤ 2147483647) :
    toInt32 x = x := by
  unfold toInt32
  omega

/-- C23 refuted at a concrete input: for a soldier of health `1073741824` and
every other stat zero the weighted sum is `2147483648`, but the score computed
in `int` is `-2147483648`; `inspectSoldiers`, run on a roster of this one
soldier, counts it and leaves the pointer null, its score not being above 0. -/
theorem promotionScore_formula_counterexample :
    promotionScore heavyRecruit
        ≠ 2 * heavyRecruit.currentStats.health + 2 * heavyRecruit.currentStats.stamina
          + 4 * heavyRecruit.currentStats.reactions + 4 * heavyRecruit.currentStats.bravery
          + 3 * heavyRecruit.currentStats.tu + 6 * heavyRecruit.currentStats.firing
          + heavyRecruit.currentStats.melee + heavyRecruit.currentStats.throwing
          + heavyRecruit.currentStats.strength + 10 * heavyRecruit.missions
          + 10 * heavyRecruit.kills
      ∧ scoreFormula heavyRecruit = 2147483648
      ∧ promotionScore heavyRecruit = -2147483648
      ∧ (garrison [heavyRecruit]).inspectSoldiers none RANK_SQUADDIE = (none, 1) := by
  refine ⟨by decide, by decide, by decide, rfl⟩

/-- C23 as amended: the promotion score computed by `inspectSoldiers` is the
weighted sum `2*health + 2*stamina + 4*reactions + 4*bravery + 3*tu + 6*firing
+ melee + throwing + strength + 10*missions + 10*kills` brought into the range
of a 32-bit `int`; it is the weighted sum itself when that lies in the range;
it is the same whatever the two psionic stats are; and `inspectSoldiers` is
the loop over the roster that compares this value with the highest score so
far. -/
theorem promotionScore_formula (j : Soldier) (sg : SavedGame) (highestRanked : SoldierPtr)
    (rank : Int) :
    promotionScore j = toInt32 (scoreFormula j)
      ∧ (-2147483648 ≤ scoreFormula j → scoreFormula j ≤ 2147483647 →
          promotionScore j
            = 2 * j.currentStats.health + 2 * j.currentStats.stamina
              + 4 * j.currentStats.reactions + 4 * j.currentStats.bravery
              + 3 * j.currentStats.tu + 6 * j.currentStats.firing + j.currentStats.melee
              + j.currentStats.throwing + j.currentStats.strength + 10 * j.missions
              + 10 * j.kills)
      ∧ (∀ psiStrength psiSkill : Int,
          promotionScore
              { j with
                currentStats :=
                  { j.currentStats with psiStrength := psiStrength, psiSkill := psiSkill } }
            = promotionScore j)
      ∧ sg.inspectSoldiers highestRanked rank
          = ((sg.roster.foldl
                (fun (state : Int × SoldierPtr × Nat) e =>
                  if e.2.rank = rank then
                    if toInt32 (scoreFormula e.2) > state.1 then
                      (toInt32 (scoreFormula e.2), some e.1, state.2.2 + 1)
                    else (state.1, state.2.1, state.2.2 + 1)
                  else state)
                (0, highestRanked, 0)).2.1,
              (sg.roster.foldl
                (fun (state : Int × SoldierPtr × Nat) e =>
                  if e.2.rank = rank then
                    if toInt32 (scoreFormula e.2) > state.1 then
                      (toInt32 (scoreFormula e.2), some e.1, state.2.2 + 1)
                    else (state.1, state.2.1, state.2.2 + 1)
                  else state)
                (0, highestRanked, 0)).2.2) := by
  refine ⟨promotionScore_eq_toInt32 j, ?_, ?_, ?_⟩
  · intro hlo hhi
    rw [promotionScore_eq_toInt32, toInt32_of_range _ hlo hhi]
    rfl
  · intro psiStrength psiSkill
    rfl
  · unfold SavedGame.inspectSoldiers
    simp only [promotionScore_eq_toInt32]

/-- Witness of C23 as amended: a captain of health 30 has the weighted sum 60,
inside the range of `int`. -/
theorem promotionScore_formula_witness :
    -2147483648 ≤ scoreFormula (recruit 1 RANK_CAPTAIN 30)
      ∧ scoreFormula (recruit 1 RANK_CAPTAIN 30) ≤ 2147483647
      ∧ promotionScore (recruit 1 RANK_CAPTAIN 30)
          = 2 * (recruit 1 RANK_CAPTAIN 30).currentStats.health
            + 2 * (recruit 1 RANK_CAPTAIN 30).currentStats.stamina
            + 4 * (recruit 1 RANK_CAPTAIN 30).currentStats.reactions
            + 4 * (recruit 1 RANK_CAPTAIN 30).currentStats.bravery
            + 3 * (recruit 1 RANK_CAPTAIN 30).currentStats.tu
            + 6 * (recruit 1 RANK_CAPTAIN 30).currentStats.firing
            + (recruit 1 RANK_CAPTAIN 30).currentStats.melee
            + (recruit 1 RANK_CAPTAIN 30).currentStats.throwing
            + (recruit 1 RANK_CAPTAIN 30).currentStats.strength
            + 10 * (recruit 1 RANK_CAPTAIN 30).missions
            + 10 * (recruit 1 RANK_CAPTAIN 30).kills :=
  ⟨by decide, by decide,
    (promotionScore_formula (recruit 1 RANK_CAPTAIN 30) captainRoster none RANK_CAPTAIN).2.1
      (by decide) (by decide)⟩

/-! ## The promotion pass -/

theorem inspectSoldiers_eq_foldl (sg : SavedGame) (highestRanked : SoldierPtr) (rank : Int) :
    sg.inspectSoldiers highestRanked rank
      = ((sg.roster.foldl (inspectStep rank) (0, highestRanked, 0)).2.1,
         (sg.roster.foldl (inspectStep rank) (0, highestRanked, 0)).2.2) := rfl

theorem handlePromotions_total_eq (sg : SavedGame) :
    sg.handlePromotions
      = ((SavedGame.promotionTier RANK_COMMANDER RANK_COLONEL 1 (sg, none, 0)
          |>.bind (SavedGame.promotionTier RANK_COLONEL RANK_CAPTAIN (sg.soldiersTotal / 23))
          |>.bind (SavedGame.promotionTier RANK_CAPTAIN RANK_SERGEANT (sg.soldiersTotal / 11))
          |>.bind (SavedGame.promotionTier RANK_SERGEANT RANK_SQUADDIE (sg.soldiersTotal / 5))).map
          fun state => (decide (state.2.2 > 0), state.1)) := rfl

/-- The state of the loop of `inspectSoldiers` after a list of soldiers. -/
theorem inspectStep_foldl (rank : Int) (hr0 : SoldierPtr) (l : List ((Nat × Nat) × Soldier)) :
    0 ≤ (l.foldl (inspectStep rank) (0, hr0, 0)).1
      ∧ (l.foldl (inspectStep rank) (0, hr0, 0)).2.2
          = l.countP (fun j => decide (j.2.rank = rank))
      ∧ (∀ e ∈ l, e.2.rank = rank →
          promotionScore e.2 ≤ (l.foldl (inspectStep rank) (0, hr0, 0)).1)
      ∧ (((l.foldl (inspectStep rank) (0, hr0, 0)).1 = 0
            ∧ (l.foldl (inspectStep rank) (0, hr0, 0)).2.1 = hr0)
          ∨ ∃ e ∈ l, (l.foldl (inspectStep rank) (0, hr0, 0)).2.1 = some e.1
              ∧ e.2.rank = rank ∧ 0 < promotionScore e.2) := by
  induction l using List.reverseRecOn with
  | nil => simp
  | append_singleton l a ih =>
    obtain ⟨h0, hc, hle, hp⟩ := ih
    rw [List.foldl_append, List.foldl_cons, List.foldl_nil]
    generalize List.foldl (inspectStep rank) (0, hr0, 0) l = st at h0 hc hle hp
    unfold inspectStep
    by_cases hr : a.2.rank = rank
    · rw [if_pos hr]
      by_cases hs : promotionScore a.2 > st.1
      · simp only [hs, if_true]
        refine ⟨by omega, ?_, ?_, ?_⟩
        · rw [List.countP_append, hc]; simp [hr]
        · intro e he hrk
          rcases List.mem_append.1 he with he | he
          · have := hle e he hrk; omega
          · simp only [List.mem_singleton] at he
            rw [he]
        · right
          exact ⟨a, by simp, rfl, hr, by omega⟩
      · simp only [hs, if_false]
        refine ⟨h0, ?_, ?_, ?_⟩
        · rw [List.countP_append, hc]; simp [hr]
        · intro e he hrk
          rcases List.mem_append.1 he with he | he
          · exact hle e he hrk
          · simp only [List.mem_singleton] at he
            rw [he]; omega
        · rcases hp with hp | ⟨e, he, hp⟩
          · exact Or.inl hp
          · exact Or.inr ⟨e, List.mem_append_left _ he, hp⟩
    · rw [if_neg hr]
      refine ⟨h0, ?_, ?_, ?_⟩
      · rw [List.countP_append, hc]; simp [hr]
      · intro e he hrk
        rcases List.mem_append.1 he with he | he
        · exact hle e he hrk
        · simp only [List.mem_singleton] at he
          rw [he] at hrk; exact absurd hrk hr
      · rcases hp with hp | ⟨e, he, hp⟩
        · exact Or.inl hp
        · exact Or.inr ⟨e, List.mem_append_left _ he, hp⟩

/-- The count written by `inspectSoldiers` is the number of soldiers of the rank. -/
theorem inspectSoldiers_total (sg : SavedGame) (highestRanked : SoldierPtr) (rank : Int) :
    (sg.inspectSoldiers highestRanked rank).2 = sg.countRank rank :=
  (inspectStep_foldl rank highestRanked sg.roster).2.1

/-- The pointer left by `inspectSoldiers` is the one it received or points at
a soldier of the rank with a positive score. -/
theorem inspectSoldiers_pointer (sg : SavedGame) (highestRanked : SoldierPtr) (rank : Int) :
    (sg.inspectSoldiers highestRanked rank).1 = highestRanked
      ∨ ∃ e ∈ sg.roster, (sg.inspectSoldiers highestRanked rank).1 = some e.1
          ∧ e.2.rank = rank ∧ 0 < promotionScore e.2 := by
  rcases (inspectStep_foldl rank highestRanked sg.roster).2.2.2 with h | h
  · exact Or.inl h.2
  · exact Or.inr h

/-- When some soldier of the rank has a positive score, `inspectSoldiers`
leaves a pointer to a soldier of the rank. -/
theorem inspectSoldiers_finds (sg : SavedGame) (highestRanked : SoldierPtr) (rank : Int)
    (e : (Nat × Nat) × Soldier) (he : e ∈ sg.roster) (hrank : e.2.rank = rank)
    (hscore : 0 < promotionScore e.2) :
    ∃ e' ∈ sg.roster, (sg.inspectSoldiers highestRanked rank).1 = some e'.1
      ∧ e'.2.rank = rank := by
  obtain ⟨_, _, hle, hp⟩ := inspectStep_foldl rank highestRanked sg.roster
  rcases hp with hp | ⟨e', he', hp⟩
  · have := hle e he hrank
    omega
  · exact ⟨e', he', hp.1, hp.2.1⟩

/-- The roster lists every stored soldier with its position. -/
theorem mem_roster (sg : SavedGame) (p : Nat × Nat) (s : Soldier) :
    (p, s) ∈ sg.roster ↔ sg.soldierAt p = some s := by
  unfold SavedGame.roster SavedGame.soldierAt
  simp only [List.mem_flatMap, List.mem_map, Prod.exists, List.mk_mem_enum_iff_getElem?,
    Prod.mk.injEq, Option.bind_eq_some]
  constructor
  · rintro ⟨i, b, hb, j, s', hs, rfl, rfl⟩
    exact ⟨b, hb, hs⟩
  · rintro ⟨b, hb, hs⟩
    exact ⟨p.1, b, hb, p.2, s, hs, rfl, rfl⟩

theorem promoteNth_getElem? (l : List Soldier) (j k : Nat) :
    (promoteNth l j)[k]? = if k = j then (l[k]?).map Soldier.promoteRank else l[k]? := by
  induction l generalizing j k with
  | nil => simp [promoteNth]
  | cons s rest ih =>
    cases j with
    | zero =>
      cases k with
      | zero => simp [promoteNth]
      | succ k => simp [promoteNth]
    | succ j =>
      cases k with
      | zero => simp [promoteNth]
      | succ k => simp [promoteNth, ih]

theorem promoteAt_getElem? (bases : List Base) (i j a : Nat) :
    (promoteAt bases i j)[a]?
      = if a = i then (bases[a]?).map fun b => { b with soldiers := promoteNth b.soldiers j }
        else bases[a]? := by
  induction bases generalizing i a with
  | nil => simp [promoteAt]
  | cons b rest ih =>
    cases i with
    | zero =>
      cases a with
      | zero => simp [promoteAt]
      | succ a => simp [promoteAt]
    | succ i =>
      cases a with
      | zero => simp [promoteAt]
      | succ a => simp [promoteAt, ih]

/-- After `promoteRank` through a pointer, the soldier it points at has been
promoted and every other soldier is as before. -/
theorem soldierAt_promote (sg sg1 : SavedGame) (q : Nat × Nat)
    (h : sg.promote (some q) = some sg1) (p : Nat × Nat) :
    sg1.soldierAt p
      = if p = q then (sg.soldierAt p).map Soldier.promoteRank else sg.soldierAt p := by
  obtain ⟨i, j⟩ := q
  obtain ⟨a, c⟩ := p
  simp only [SavedGame.promote, Option.some.injEq] at h
  subst h
  simp only [SavedGame.soldierAt, promoteAt_getElem?, Prod.mk.injEq]
  by_cases ha : a = i
  · subst ha
    cases hb : sg.bases[a]? with
    | none => simp
    | some b =>
      simp only [if_true, Option.map_some', Option.some_bind, promoteNth_getElem?, true_and]
  · simp [ha]

/-- The call `promoteRank` through a non-null pointer returns. -/
theorem promote_some (sg : SavedGame) (q : Nat × Nat) :
    ∃ sg1, sg.promote (some q) = some sg1 := by
  obtain ⟨i, j⟩ := q
  exact ⟨_, rfl⟩

/-- A promotion tier, with the two counts read on the roster. -/
theorem promotionTier_eq (rank below : Int) (limit : Nat) (sg : SavedGame) (hr : SoldierPtr)
    (n : Nat) :
    SavedGame.promotionTier rank below limit (sg, hr, n)
      = if sg.tierFires rank below limit then
          (sg.promote (sg.inspectSoldiers (sg.inspectSoldiers hr rank).1 below).1).map
            fun sg1 => (sg1, (sg.inspectSoldiers (sg.inspectSoldiers hr rank).1 below).1, n + 1)
        else some (sg, (sg.inspectSoldiers (sg.inspectSoldiers hr rank).1 below).1, n) := by
  unfold SavedGame.promotionTier SavedGame.tierFires
  simp only [inspectSoldiers_total]
  by_cases h1 : sg.countRank rank < limit
  · by_cases h2 : 0 < sg.countRank below
    · simp [h1, h2]
    · simp [h1, h2]
  · simp [h1]

theorem promotionScore_promoteRank (s : Soldier) :
    promotionScore s.promoteRank = promotionScore s := rfl

theorem rank_promoteRank (s : Soldier) : s.promoteRank.rank = s.rank + 1 := rfl

/-- Two calls of `inspectSoldiers` keep a pointer that is null or points at a
stored soldier so. -/
theorem inspectSoldiers_valid (sg : SavedGame) (hr : SoldierPtr) (rank below : Int)
    (hvalid : ∀ p, hr = some p → ∃ s, sg.soldierAt p = some s) :
    ∀ p, (sg.inspectSoldiers (sg.inspectSoldiers hr rank).1 below).1 = some p →
      ∃ s, sg.soldierAt p = some s := by
  have step : ∀ (hr1 : SoldierPtr) (r : Int),
      (∀ p, hr1 = some p → ∃ s, sg.soldierAt p = some s) →
      ∀ p, (sg.inspectSoldiers hr1 r).1 = some p → ∃ s, sg.soldierAt p = some s := by
    intro hr1 r hv p hp
    rcases inspectSoldiers_pointer sg hr1 r with h | ⟨e, he, h, _⟩
    · rw [h] at hp
      exact hv p hp
    · rw [h] at hp
      simp only [Option.some.injEq] at hp
      exact ⟨e.2, (mem_roster sg p e.2).1 (by rw [← hp]; exact he)⟩
  exact step _ below (step hr rank hvalid)

/-- A promotion tier keeps `RanksRaised`. -/
theorem promotionTier_raises (sg0 : SavedGame) (rank below : Int) (limit : Nat)
    (st st' : SavedGame × SoldierPtr × Nat) (hinv : sg0.RanksRaised st)
    (h : SavedGame.promotionTier rank below limit st = some st') : sg0.RanksRaised st' := by
  obtain ⟨sg, hr, n⟩ := st
  obtain ⟨hvalid, hranks, hzero, hpos⟩ := hinv
  simp only at hvalid hranks hzero hpos
  rw [promotionTier_eq] at h
  have hv := inspectSoldiers_valid sg hr rank below hvalid
  generalize (sg.inspectSoldiers (sg.inspectSoldiers hr rank).1 below).1 = hr' at h hv
  split at h
  · cases hr' with
    | none => simp [SavedGame.promote] at h
    | some q =>
      obtain ⟨sg1, hsg1⟩ := promote_some sg q
      rw [hsg1] at h
      simp only [Option.map_some', Option.some.injEq] at h
      subst h
      have hat := soldierAt_promote sg sg1 q hsg1
      obtain ⟨sq, hsq⟩ := hv q rfl
      have hranks1 : ∀ p, (sg0.soldierAt p = none ∧ sg1.soldierAt p = none)
          ∨ ∃ s s', sg0.soldierAt p = some s ∧ sg1.soldierAt p = some s'
              ∧ s.rank ≤ s'.rank := by
        intro p
        rw [hat p]
        by_cases hpq : p = q
        · rw [if_pos hpq]
          rcases hranks p with ⟨h0, h1⟩ | ⟨s, s', h0, h1, hle⟩
          · left; rw [h1]; exact ⟨h0, rfl⟩
          · right
            refine ⟨s, s'.promoteRank, h0, by rw [h1]; rfl, ?_⟩
            rw [rank_promoteRank]; omega
        · rw [if_neg hpq]
          exact hranks p
      refine ⟨?_, hranks1, ?_, ?_⟩
      · intro p hp
        simp only [Option.some.injEq] at hp
        subst hp
        exact ⟨sq.promoteRank, by rw [hat q, if_pos rfl, hsq]; rfl⟩
      · intro hn
        simp at hn
      · intro _
        rcases hranks q with ⟨_, h1⟩ | ⟨s, s', h0, h1, hle⟩
        · rw [hsq] at h1; exact absurd h1 (by simp)
        · refine ⟨q, s, s'.promoteRank, h0, by rw [hat q, if_pos rfl, h1]; rfl, ?_⟩
          rw [rank_promoteRank]; omega
  · simp only [Option.some.injEq] at h
    subst h
    exact ⟨hv, hranks, hzero, hpos⟩

/-- The start of the promotion pass satisfies `RanksRaised`. -/
theorem ranksRaised_start (sg : SavedGame) : sg.RanksRaised (sg, none, 0) := by
  refine ⟨by intro p hp; simp at hp, ?_, fun _ => rfl, by intro h; simp at h⟩
  intro p
  cases h : sg.soldierAt p with
  | none => exact Or.inl ⟨rfl, rfl⟩
  | some s => exact Or.inr ⟨s, s, rfl, rfl, le_refl _⟩

/-- The four tiers of `handlePromotions` keep `RanksRaised`. -/
theorem handlePromotions_raises (sg : SavedGame) (b : Bool) (sg' : SavedGame)
    (h : sg.handlePromotions = some (b, sg')) :
    ∃ n : Nat, ∃ hr : SoldierPtr, b = decide (n > 0) ∧ sg.RanksRaised (sg', hr, n) := by
  rw [handlePromotions_total_eq] at h
  simp only [Option.map_eq_some', Option.bind_eq_some] at h
  obtain ⟨st4, ⟨st3, ⟨st2, ⟨st1, h1, h2⟩, h3⟩, h4⟩, hfin⟩ := h
  have r1 := promotionTier_raises sg _ _ _ _ _ (ranksRaised_start sg) h1
  have r2 := promotionTier_raises sg _ _ _ _ _ r1 h2
  have r3 := promotionTier_raises sg _ _ _ _ _ r2 h3
  have r4 := promotionTier_raises sg _ _ _ _ _ r3 h4
  obtain ⟨sg4, hr4, n4⟩ := st4
  simp only [Prod.mk.injEq] at hfin
  obtain ⟨hb, hsg⟩ := hfin
  subst hsg
  exact ⟨n4, hr4, hb.symm, r4⟩

/-- C22: when `handlePromotions` returns, it returns true if and only if some
soldier has a higher rank after the call than before it, and when it returns
false the saved game is unchanged; and when none of the four capacity
conditions holds on the roster, the call returns false and leaves the saved
game, hence every rank, unchanged. -/
theorem handlePromotions_reports (sg : SavedGame) :
    (∀ (b : Bool) (sg' : SavedGame), sg.handlePromotions = some (b, sg') →
        (b = true ↔ ∃ p s s', sg.soldierAt p = some s ∧ sg'.soldierAt p = some s'
            ∧ s.rank < s'.rank)
          ∧ (b = false → sg' = sg))
      ∧ (¬ sg.tierFires RANK_COMMANDER RANK_COLONEL 1 →
          ¬ sg.tierFires RANK_COLONEL RANK_CAPTAIN (sg.soldiersTotal / 23) →
          ¬ sg.tierFires RANK_CAPTAIN RANK_SERGEANT (sg.soldiersTotal / 11) →
          ¬ sg.tierFires RANK_SERGEANT RANK_SQUADDIE (sg.soldiersTotal / 5) →
          sg.handlePromotions = some (false, sg)) := by
  constructor
  · intro b sg' h
    obtain ⟨n, hr, hb, _, _, hzero, hpos⟩ := handlePromotions_raises sg b sg' h
    simp only at hzero hpos
    constructor
    · constructor
      · intro hbt
        rw [hbt] at hb
        exact hpos (by simpa using hb.symm)
      · rintro ⟨p, s, s', h0, h1, hlt⟩
        by_cases hn : n = 0
        · rw [hzero hn, h0] at h1
          simp only [Option.some.injEq] at h1
          rw [h1] at hlt
          exact absurd hlt (lt_irrefl _)
        · rw [hb]
          simp only [decide_eq_true_eq]
          omega
    · intro hbf
      rw [hbf] at hb
      apply hzero
      have : ¬ n > 0 := by simpa using hb.symm
      omega
  · intro h1 h2 h3 h4
    rw [handlePromotions_total_eq, promotionTier_eq, if_neg h1]
    simp only [Option.some_bind]
    rw [promotionTier_eq, if_neg h2]
    simp only [Option.some_bind]
    rw [promotionTier_eq, if_neg h3]
    simp only [Option.some_bind]
    rw [promotionTier_eq, if_neg h4]
    simp

/-- Witness of C22: on `ladderRoster` the call returns true with the colonel
and a squaddie promoted; on `quietRoster` no capacity condition holds. -/
theorem handlePromotions_reports_witness :
    ((true = true ↔ ∃ p s s', ladderRoster.soldierAt p = some s
          ∧ ladderPromoted.soldierAt p = some s' ∧ s.rank < s'.rank)
        ∧ (true = false → ladderPromoted = ladderRoster))
      ∧ quietRoster.handlePromotions = some (false, quietRoster) :=
  ⟨(handlePromotions_reports ladderRoster).1 true ladderPromoted rfl,
    (handlePromotions_reports quietRoster).2 (by decide) (by decide) (by decide) (by decide)⟩

theorem promotedOnce_mono (sg0 sg : SavedGame) (below below' : Int) (hle : below' ≤ below)
    (h : sg0.PromotedOnce below sg) : sg0.PromotedOnce below' sg := by
  intro p
  rcases h p with h | ⟨s, h0, h1, hlt⟩
  · exact Or.inl h
  · exact Or.inr ⟨s, h0, h1, by omega⟩

/-- When every soldier has a positive score, a promotion tier returns, and the
soldier it promotes, if any, held the rank `below` and had not been promoted
before. -/
theorem promotionTier_once (sg0 : SavedGame)
    (hpos : ∀ p s, sg0.soldierAt p = some s → 0 < promotionScore s)
    (rank below : Int) (limit : Nat) (sg : SavedGame) (hr : SoldierPtr) (n : Nat)
    (hinv : sg0.PromotedOnce below sg) :
    ∃ st, SavedGame.promotionTier rank below limit (sg, hr, n) = some st
      ∧ sg0.PromotedOnce below st.1 := by
  rw [promotionTier_eq]
  by_cases hf : sg.tierFires rank below limit
  · rw [if_pos hf]
    obtain ⟨e, he, hrank⟩ := List.countP_pos_iff.1 hf.2
    simp only [decide_eq_true_eq] at hrank
    have hscore : 0 < promotionScore e.2 := by
      have hat := (mem_roster sg e.1 e.2).1 he
      rcases hinv e.1 with h | ⟨s, h0, h1, _⟩
      · exact hpos e.1 e.2 (by rw [← h]; exact hat)
      · rw [hat] at h1
        simp only [Option.some.injEq] at h1
        rw [h1, promotionScore_promoteRank]
        exact hpos e.1 s h0
    obtain ⟨e', he', hptr, hrank'⟩ :=
      inspectSoldiers_finds sg (sg.inspectSoldiers hr rank).1 below e he hrank hscore
    rw [hptr]
    obtain ⟨sg1, hsg1⟩ := promote_some sg e'.1
    rw [hsg1]
    refine ⟨_, rfl, ?_⟩
    intro p
    simp only
    rw [soldierAt_promote sg sg1 e'.1 hsg1 p]
    have hat' := (mem_roster sg e'.1 e'.2).1 he'
    by_cases hp : p = e'.1
    · rw [if_pos hp, hp, hat']
      rcases hinv e'.1 with h | ⟨s, h0, h1, hlt⟩
      · right
        exact ⟨e'.2, by rw [← h]; exact hat', rfl, by omega⟩
      · rw [hat'] at h1
        simp only [Option.some.injEq] at h1
        rw [h1, rank_promoteRank] at hrank'
        omega
    · rw [if_neg hp]
      exact hinv p
  · rw [if_neg hf]
    exact ⟨_, rfl, hinv⟩

/-- C28: when every soldier has a positive promotion score, the score being
the value that `inspectSoldiers` computes in `int`, `handlePromotions`
returns, and every soldier is then at the same position with the rank it had
or with that rank raised by one step. -/
theorem handlePromotions_one_step (sg : SavedGame)
    (hpos : ∀ b ∈ sg.bases, ∀ s ∈ b.soldiers, 0 < promotionScore s) :
    ∃ b sg', sg.handlePromotions = some (b, sg')
      ∧ ∀ p s, sg.soldierAt p = some s →
          ∃ s', sg'.soldierAt p = some s' ∧ (s'.rank = s.rank ∨ s'.rank = s.rank + 1) := by
  have hpos' : ∀ p s, sg.soldierAt p = some s → 0 < promotionScore s := by
    intro p s h
    simp only [SavedGame.soldierAt, Option.bind_eq_some] at h
    obtain ⟨b, hb, hs⟩ := h
    exact hpos b (List.getElem?_mem hb) s (List.getElem?_mem hs)
  have start : sg.PromotedOnce RANK_COLONEL sg := fun p => Or.inl rfl
  obtain ⟨⟨sg1, hr1, n1⟩, h1, i1⟩ :=
    promotionTier_once sg hpos' RANK_COMMANDER RANK_COLONEL 1 sg none 0 start
  obtain ⟨⟨sg2, hr2, n2⟩, h2, i2⟩ :=
    promotionTier_once sg hpos' RANK_COLONEL RANK_CAPTAIN (sg.soldiersTotal / 23) sg1 hr1 n1
      (promotedOnce_mono sg sg1 RANK_COLONEL RANK_CAPTAIN (by decide) i1)
  obtain ⟨⟨sg3, hr3, n3⟩, h3, i3⟩ :=
    promotionTier_once sg hpos' RANK_CAPTAIN RANK_SERGEANT (sg.soldiersTotal / 11) sg2 hr2 n2
      (promotedOnce_mono sg sg2 RANK_CAPTAIN RANK_SERGEANT (by decide) i2)
  obtain ⟨⟨sg4, hr4, n4⟩, h4, i4⟩ :=
    promotionTier_once sg hpos' RANK_SERGEANT RANK_SQUADDIE (sg.soldiersTotal / 5) sg3 hr3 n3
      (promotedOnce_mono sg sg3 RANK_SERGEANT RANK_SQUADDIE (by decide) i3)
  refine ⟨decide (n4 > 0), sg4, ?_, ?_⟩
  · rw [handlePromotions_total_eq, h1]
    simp only [Option.some_bind]
    rw [h2]
    simp only [Option.some_bind]
    rw [h3]
    simp only [Option.some_bind]
    rw [h4]
    rfl
  · intro p s hs
    rcases i4 p with h | ⟨s0, h0, h1, _⟩
    · exact ⟨s, by rw [h]; exact hs, Or.inl rfl⟩
    · rw [hs] at h0
      simp only [Option.some.injEq] at h0
      subst h0
      exact ⟨s.promoteRank, h1, Or.inr rfl⟩

/-- Witness of C28: every soldier of `ladderRoster` has a positive score. -/
theorem handlePromotions_one_step_witness :
    (∀ b ∈ ladderRoster.bases, ∀ s ∈ b.soldiers, 0 < promotionScore s)
      ∧ ∃ b sg', ladderRoster.handlePromotions = some (b, sg')
          ∧ ∀ p s, ladderRoster.soldierAt p = some s →
              ∃ s', sg'.soldierAt p = some s'
                ∧ (s'.rank = s.rank ∨ s'.rank = s.rank + 1) :=
  ⟨by decide, handlePromotions_one_step ladderRoster (by decide)⟩

/-- C21, evaluated at the failing input: the roster holds no commander, two
colonels of scores 60 and 50 and three squaddies of score 0.  The transition
colonel to commander promotes the first colonel; the transition squaddie to
sergeant then fires and promotes the soldier left in `highestRanked`, the
second colonel: two soldiers have gone from colonel to commander in one call,
and no squaddie has become sergeant. -/
theorem handlePromotions_two_colonels_cross :
    colonelRoster.countRank RANK_COMMANDER = 0
      ∧ colonelRoster.countRank RANK_COLONEL = 2
      ∧ colonelRoster.handlePromotions
          = some (true,
              garrison [recruit 1 RANK_COMMANDER 30, recruit 2 RANK_COMMANDER 25,
                recruit 3 RANK_SQUADDIE 0, recruit 4 RANK_SQUADDIE 0,
                recruit 5 RANK_SQUADDIE 0]) :=
  ⟨by decide, by decide, rfl⟩

/-- The hypothesis of the one-step property is about the score in `int`: on
`heavyRoster` every weighted sum is positive, but the score computed for a
squaddie is negative, no squaddie is found at the transition squaddie to
sergeant, and the colonel, promoted at the first transition and still in
`highestRanked`, is promoted a second time. -/
theorem handlePromotions_wrapped_scores :
    (∀ b ∈ heavyRoster.bases, ∀ s ∈ b.soldiers, 0 < scoreFormula s)
      ∧ promotionScore heavyRecruit < 0
      ∧ heavyRoster.handlePromotions
          = some (true,
              garrison [recruit 1 (RANK_COMMANDER + 1) 30, recruit 2 RANK_SQUADDIE 1073741824,
                recruit 3 RANK_SQUADDIE 1073741824, recruit 4 RANK_SQUADDIE 1073741824,
                recruit 5 RANK_SQUADDIE 1073741824]) :=
  ⟨by decide, by decide, rfl⟩

end SavedGame

end OpenXcom
